import Mathlib

/-!
Verification of the Mac-Traker discovery, classification, topology and
tracing engine against its natural-language specification.

Every definition is a shallow embedding of the corresponding Python
function in the repository (file and function named in each doc comment).
Machine details that the claims depend on are modelled explicitly:

* the SQLAlchemy session of the backend is created with autoflush=False
  (backend/app/db/database.py), so rows added with session.add are
  invisible to later queries until an explicit flush or commit, while
  attribute writes on already-persistent rows live in the instance and
  are returned by queries (which filter on the flushed column values);
  the location table is therefore modelled as rows carrying both an
  in-memory view (mem) and an optional flushed view (db);
* datetime.utcnow() is modelled as an explicit time parameter;
* text is modelled as lists of ASCII characters.
-/

namespace MacTraker

/-! ## Port-name normalization (backend/app/utils/port_utils.py) -/

/-- Python str.strip and the regex class of whitespace, restricted to ASCII. -/
def pySpace (c : Char) : Bool :=
  c == ' ' || c == '\t' || c == '\n' || c == '\r' || c == '\x0b' || c == '\x0c'

/-- Remove trailing characters satisfying p. -/
def dropTrail (p : Char → Bool) (s : List Char) : List Char :=
  (s.reverse.dropWhile p).reverse

/-- Python str.strip(): remove leading and trailing whitespace. -/
def pyStrip (s : List Char) : List Char :=
  dropTrail pySpace (s.dropWhile pySpace)

/-- Anchored match: the first list is a leading pattern of the second. -/
def headMatch : List Char → List Char → Bool
  | [], _ => true
  | _, [] => false
  | p :: ps, c :: cs => p == c && headMatch ps cs

/-- The character at offset n exists and is an ASCII digit
(models the digit lookahead in the anchored regexes). -/
def digitAt (s : List Char) (n : Nat) : Bool :=
  match s.drop n with
  | c :: _ => c.isDigit
  | [] => false

/-- re.sub with an anchored literal pattern: replace the leading occurrence,
or return the input unchanged. -/
def subAnchored (pat repl : List Char) (s : List Char) : List Char :=
  if headMatch pat s then repl ++ s.drop pat.length else s

/-- re.sub with an anchored literal pattern followed by a digit lookahead. -/
def subAnchoredDigit (pat repl : List Char) (s : List Char) : List Char :=
  if headMatch pat s && digitAt s pat.length then repl ++ s.drop pat.length else s

def xgigPat : List Char :=
  ['X', 'G', 'i', 'g', 'a', 'b', 'i', 't', 'E', 't', 'h', 'e', 'r', 'n', 'e', 't']
def xgiPat : List Char := ['X', 'G', 'i']
def tenGePat : List Char := ['1', '0', 'G', 'E']
def gigPat : List Char :=
  ['G', 'i', 'g', 'a', 'b', 'i', 't', 'E', 't', 'h', 'e', 'r', 'n', 'e', 't']
def giPat : List Char := ['G', 'i']
def xgeRepl : List Char := ['X', 'G', 'E']
def geRepl : List Char := ['G', 'E']
def ethTrunkPat : List Char := ['E', 't', 'h', '-', 'T', 'r', 'u', 'n', 'k']

/-- re.sub of anchored Eth-Trunk followed by optional whitespace,
replaced by Eth-Trunk: strips the whitespace after the literal. -/
def subEthTrunk (s : List Char) : List Char :=
  if headMatch ethTrunkPat s then
    ethTrunkPat ++ (s.drop ethTrunkPat.length).dropWhile pySpace
  else s

/-- The six anchored substitutions of normalize_port_name, in source order. -/
def portSubs (s : List Char) : List Char :=
  subEthTrunk
    (subAnchoredDigit giPat geRepl
      (subAnchored gigPat geRepl
        (subAnchored tenGePat xgeRepl
          (subAnchoredDigit xgiPat xgeRepl
            (subAnchored xgigPat xgeRepl s)))))

/-- backend/app/utils/port_utils.py, normalize_port_name: canonical short
form of Huawei/Cisco port names. The empty string is returned unchanged
(the falsy guard in the source). -/
def normalize_port_name (s : String) : String :=
  if s = "" then s else String.mk (portSubs (pyStrip s.data))

example : normalize_port_name "GigabitEthernet0/0/28" = "GE0/0/28" := by rfl
example : normalize_port_name "Gi0/0/28" = "GE0/0/28" := by rfl
example : normalize_port_name "XGi3/0/18" = "XGE3/0/18" := by rfl
example : normalize_port_name "XGigabitEthernet1/0/44" = "XGE1/0/44" := by rfl
example : normalize_port_name "10GE1/0/1" = "XGE1/0/1" := by rfl
example : normalize_port_name "Eth-Trunk 1" = "Eth-Trunk1" := by rfl
example : normalize_port_name "40GE1/0/2" = "40GE1/0/2" := by rfl
example : normalize_port_name " GE0/0/1 " = "GE0/0/1" := by rfl

/-! Stability of the substitution chain on its own output shapes. -/

theorem portSubs_fix_xge (u : List Char) :
    portSubs ('X' :: 'G' :: 'E' :: u) = 'X' :: 'G' :: 'E' :: u := by
  simp [portSubs, subAnchored, subAnchoredDigit, subEthTrunk, headMatch,
    xgigPat, xgiPat, tenGePat, gigPat, giPat, ethTrunkPat]

theorem portSubs_fix_ge (u : List Char) :
    portSubs ('G' :: 'E' :: u) = 'G' :: 'E' :: u := by
  simp [portSubs, subAnchored, subAnchoredDigit, subEthTrunk, headMatch,
    xgigPat, xgiPat, tenGePat, gigPat, giPat, ethTrunkPat]

theorem dropWhile_cons_self (p : Char → Bool) (c : Char) (cs : List Char)
    (hv : (c :: cs).dropWhile p = c :: cs) : p c = false := by
  cases hc : p c with
  | false => rfl
  | true =>
      rw [List.dropWhile_cons, if_pos hc] at hv
      have h1 : (cs.dropWhile p).length ≤ cs.length :=
        (List.dropWhile_suffix p).length_le
      have h2 := congrArg List.length hv
      simp at h2
      omega

theorem dropWhile_fix_take (p : Char → Bool) (v : List Char) (m : Nat)
    (hv : v.dropWhile p = v) : (v.take m).dropWhile p = v.take m := by
  cases v with
  | nil => simp
  | cons c cs =>
      cases m with
      | zero => simp
      | succ m => simp [List.dropWhile_cons, dropWhile_cons_self p c cs hv]

theorem portSubs_fix_trunk (u : List Char) :
    portSubs (ethTrunkPat ++ u.dropWhile pySpace) = ethTrunkPat ++ u.dropWhile pySpace := by
  have hdrop : (ethTrunkPat ++ u.dropWhile pySpace).drop ethTrunkPat.length =
      u.dropWhile pySpace :=
    List.drop_left ethTrunkPat (u.dropWhile pySpace)
  simp only [portSubs, subAnchored, subAnchoredDigit, subEthTrunk]
  simp [headMatch, hdrop, List.dropWhile_idempotent, ethTrunkPat,
    xgigPat, xgiPat, tenGePat, gigPat, giPat]

theorem subAnchored_cases (pat repl s : List Char) :
    subAnchored pat repl s = s ∨ subAnchored pat repl s = repl ++ s.drop pat.length := by
  unfold subAnchored; split
  · exact Or.inr rfl
  · exact Or.inl rfl

theorem subAnchoredDigit_cases (pat repl s : List Char) :
    subAnchoredDigit pat repl s = s ∨
      subAnchoredDigit pat repl s = repl ++ s.drop pat.length := by
  unfold subAnchoredDigit; split
  · exact Or.inr rfl
  · exact Or.inl rfl

theorem subEthTrunk_cases (s : List Char) :
    subEthTrunk s = s ∨
      subEthTrunk s = ethTrunkPat ++ (s.drop ethTrunkPat.length).dropWhile pySpace := by
  unfold subEthTrunk; split
  · exact Or.inr rfl
  · exact Or.inl rfl

/-- Any output of the substitution chain is unchanged, or starts with XGE,
GE, or a whitespace-normalized Eth-Trunk. -/
theorem portSubs_cases (t : List Char) :
    portSubs t = t ∨ (∃ u : List Char, portSubs t = 'X' :: 'G' :: 'E' :: u) ∨
      (∃ u : List Char, portSubs t = 'G' :: 'E' :: u) ∨
      (∃ u : List Char, portSubs t = ethTrunkPat ++ u.dropWhile pySpace) := by
  have fix2 : ∀ u : List Char, subAnchoredDigit xgiPat xgeRepl ('X' :: 'G' :: 'E' :: u) =
      'X' :: 'G' :: 'E' :: u := by intro u; simp [subAnchoredDigit, headMatch, xgiPat]
  have fix3 : ∀ u : List Char, subAnchored tenGePat xgeRepl ('X' :: 'G' :: 'E' :: u) =
      'X' :: 'G' :: 'E' :: u := by intro u; simp [subAnchored, headMatch, tenGePat]
  have fix4x : ∀ u : List Char, subAnchored gigPat geRepl ('X' :: 'G' :: 'E' :: u) =
      'X' :: 'G' :: 'E' :: u := by intro u; simp [subAnchored, headMatch, gigPat]
  have fix5x : ∀ u : List Char, subAnchoredDigit giPat geRepl ('X' :: 'G' :: 'E' :: u) =
      'X' :: 'G' :: 'E' :: u := by intro u; simp [subAnchoredDigit, headMatch, giPat]
  have fix6x : ∀ u : List Char, subEthTrunk ('X' :: 'G' :: 'E' :: u) =
      'X' :: 'G' :: 'E' :: u := by intro u; simp [subEthTrunk, headMatch, ethTrunkPat]
  have fix4g : ∀ u : List Char, subAnchored gigPat geRepl ('G' :: 'E' :: u) =
      'G' :: 'E' :: u := by intro u; simp [subAnchored, headMatch, gigPat]
  have fix5g : ∀ u : List Char, subAnchoredDigit giPat geRepl ('G' :: 'E' :: u) =
      'G' :: 'E' :: u := by intro u; simp [subAnchoredDigit, headMatch, giPat]
  have fix6g : ∀ u : List Char, subEthTrunk ('G' :: 'E' :: u) = 'G' :: 'E' :: u := by
    intro u; simp [subEthTrunk, headMatch, ethTrunkPat]
  have exge : ∀ v : List Char, xgeRepl ++ v = 'X' :: 'G' :: 'E' :: v := fun _ => rfl
  have ege : ∀ v : List Char, geRepl ++ v = 'G' :: 'E' :: v := fun _ => rfl
  unfold portSubs
  rcases subAnchored_cases xgigPat xgeRepl t with h1 | h1
  · rw [h1]
    rcases subAnchoredDigit_cases xgiPat xgeRepl t with h2 | h2
    · rw [h2]
      rcases subAnchored_cases tenGePat xgeRepl t with h3 | h3
      · rw [h3]
        rcases subAnchored_cases gigPat geRepl t with h4 | h4
        · rw [h4]
          rcases subAnchoredDigit_cases giPat geRepl t with h5 | h5
          · rw [h5]
            rcases subEthTrunk_cases t with h6 | h6
            · rw [h6]; exact Or.inl rfl
            · rw [h6]
              exact Or.inr (Or.inr (Or.inr ⟨t.drop ethTrunkPat.length, rfl⟩))
          · rw [h5, ege, fix6g]
            exact Or.inr (Or.inr (Or.inl ⟨t.drop giPat.length, rfl⟩))
        · rw [h4, ege, fix5g, fix6g]
          exact Or.inr (Or.inr (Or.inl ⟨t.drop gigPat.length, rfl⟩))
      · rw [h3, exge, fix4x, fix5x, fix6x]
        exact Or.inr (Or.inl ⟨t.drop tenGePat.length, rfl⟩)
    · rw [h2, exge, fix3, fix4x, fix5x, fix6x]
      exact Or.inr (Or.inl ⟨t.drop xgiPat.length, rfl⟩)
  · rw [h1, exge, fix2, fix3, fix4x, fix5x, fix6x]
    exact Or.inr (Or.inl ⟨t.drop xgigPat.length, rfl⟩)

/-- The substitution chain is idempotent on every list. -/
theorem portSubs_idem (t : List Char) : portSubs (portSubs t) = portSubs t := by
  rcases portSubs_cases t with h | ⟨u, h⟩ | ⟨u, h⟩ | ⟨u, h⟩
  · rw [h, h]
  · rw [h, portSubs_fix_xge]
  · rw [h, portSubs_fix_ge]
  · rw [h, portSubs_fix_trunk]

/-! Interaction of the substitution chain with stripping. -/

theorem dropTrail_eq_self_iff (p : Char → Bool) (s : List Char) :
    dropTrail p s = s ↔ s.reverse.dropWhile p = s.reverse := by
  constructor
  · intro h
    have := congrArg List.reverse h
    simpa [dropTrail] using this
  · intro h
    simp [dropTrail, h]

theorem dropTrail_idem (p : Char → Bool) (s : List Char) :
    dropTrail p (dropTrail p s) = dropTrail p s := by
  simp [dropTrail, List.dropWhile_idempotent]

theorem dropTrail_noLead (p : Char → Bool) (s : List Char)
    (hs : s.dropWhile p = s) : (dropTrail p s).dropWhile p = dropTrail p s := by
  have hsuf : s.reverse.dropWhile p <:+ s.reverse := List.dropWhile_suffix p
  obtain ⟨w, hw⟩ := hsuf
  set v : List Char := (s.reverse.dropWhile p).reverse with hv
  have hsplit : s = v ++ w.reverse := by
    have := congrArg List.reverse hw
    simpa [List.reverse_append, hv] using this.symm
  have htake : s.take v.length = v := by
    conv_lhs => rw [hsplit]
    exact List.take_left _ _
  have hfix := dropWhile_fix_take p s v.length hs
  rw [htake] at hfix
  exact hfix

/-- Python strip is idempotent. -/
theorem pyStrip_idem (s : List Char) : pyStrip (pyStrip s) = pyStrip s := by
  unfold pyStrip
  rw [dropTrail_noLead pySpace (s.dropWhile pySpace) (List.dropWhile_idempotent _ _),
    dropTrail_idem]

theorem suffix_rev_fix (p : Char → Bool) (u t : List Char)
    (ht : t.reverse.dropWhile p = t.reverse) (hu : u <:+ t) :
    u.reverse.dropWhile p = u.reverse := by
  obtain ⟨w, hw⟩ := hu
  have htake : u.reverse = t.reverse.take u.reverse.length := by
    have : t.reverse = u.reverse ++ w.reverse := by
      rw [← hw, List.reverse_append]
    rw [this, List.take_left]
  rw [htake]
  exact dropWhile_fix_take p t.reverse _ ht

theorem dropWhile_fix_append (p : Char → Bool) (v w : List Char)
    (hv : v.dropWhile p = v) (hw : v = [] → w.dropWhile p = w) :
    (v ++ w).dropWhile p = v ++ w := by
  cases v with
  | nil => simpa using hw rfl
  | cons c cs =>
      have hc : p c = false := dropWhile_cons_self p c cs hv
      simp [List.dropWhile_cons, hc]

/-- A strengthening of portSubs_cases remembering that the appended tail
is a suffix of the input. -/
theorem portSubs_cases' (t : List Char) :
    portSubs t = t ∨
      (∃ u : List Char, u <:+ t ∧ portSubs t = 'X' :: 'G' :: 'E' :: u) ∨
      (∃ u : List Char, u <:+ t ∧ portSubs t = 'G' :: 'E' :: u) ∨
      (∃ u : List Char, u <:+ t ∧ u.dropWhile pySpace = u ∧
        portSubs t = ethTrunkPat ++ u) := by
  have fix2 : ∀ u : List Char, subAnchoredDigit xgiPat xgeRepl ('X' :: 'G' :: 'E' :: u) =
      'X' :: 'G' :: 'E' :: u := by intro u; simp [subAnchoredDigit, headMatch, xgiPat]
  have fix3 : ∀ u : List Char, subAnchored tenGePat xgeRepl ('X' :: 'G' :: 'E' :: u) =
      'X' :: 'G' :: 'E' :: u := by intro u; simp [subAnchored, headMatch, tenGePat]
  have fix4x : ∀ u : List Char, subAnchored gigPat geRepl ('X' :: 'G' :: 'E' :: u) =
      'X' :: 'G' :: 'E' :: u := by intro u; simp [subAnchored, headMatch, gigPat]
  have fix5x : ∀ u : List Char, subAnchoredDigit giPat geRepl ('X' :: 'G' :: 'E' :: u) =
      'X' :: 'G' :: 'E' :: u := by intro u; simp [subAnchoredDigit, headMatch, giPat]
  have fix6x : ∀ u : List Char, subEthTrunk ('X' :: 'G' :: 'E' :: u) =
      'X' :: 'G' :: 'E' :: u := by intro u; simp [subEthTrunk, headMatch, ethTrunkPat]
  have fix4g : ∀ u : List Char, subAnchored gigPat geRepl ('G' :: 'E' :: u) =
      'G' :: 'E' :: u := by intro u; simp [subAnchored, headMatch, gigPat]
  have fix5g : ∀ u : List Char, subAnchoredDigit giPat geRepl ('G' :: 'E' :: u) =
      'G' :: 'E' :: u := by intro u; simp [subAnchoredDigit, headMatch, giPat]
  have fix6g : ∀ u : List Char, subEthTrunk ('G' :: 'E' :: u) = 'G' :: 'E' :: u := by
    intro u; simp [subEthTrunk, headMatch, ethTrunkPat]
  have exge : ∀ v : List Char, xgeRepl ++ v = 'X' :: 'G' :: 'E' :: v := fun _ => rfl
  have ege : ∀ v : List Char, geRepl ++ v = 'G' :: 'E' :: v := fun _ => rfl
  unfold portSubs
  rcases subAnchored_cases xgigPat xgeRepl t with h1 | h1
  · rw [h1]
    rcases subAnchoredDigit_cases xgiPat xgeRepl t with h2 | h2
    · rw [h2]
      rcases subAnchored_cases tenGePat xgeRepl t with h3 | h3
      · rw [h3]
        rcases subAnchored_cases gigPat geRepl t with h4 | h4
        · rw [h4]
          rcases subAnchoredDigit_cases giPat geRepl t with h5 | h5
          · rw [h5]
            rcases subEthTrunk_cases t with h6 | h6
            · rw [h6]; exact Or.inl rfl
            · rw [h6]
              refine Or.inr (Or.inr (Or.inr
                ⟨(t.drop ethTrunkPat.length).dropWhile pySpace, ?_, ?_, rfl⟩))
              · exact (List.dropWhile_suffix pySpace).trans (List.drop_suffix _ t)
              · exact List.dropWhile_idempotent _ _
          · rw [h5, ege, fix6g]
            exact Or.inr (Or.inr (Or.inl
              ⟨t.drop giPat.length, List.drop_suffix _ t, rfl⟩))
        · rw [h4, ege, fix5g, fix6g]
          exact Or.inr (Or.inr (Or.inl
            ⟨t.drop gigPat.length, List.drop_suffix _ t, rfl⟩))
      · rw [h3, exge, fix4x, fix5x, fix6x]
        exact Or.inr (Or.inl ⟨t.drop tenGePat.length, List.drop_suffix _ t, rfl⟩)
    · rw [h2, exge, fix3, fix4x, fix5x, fix6x]
      exact Or.inr (Or.inl ⟨t.drop xgiPat.length, List.drop_suffix _ t, rfl⟩)
  · rw [h1, exge, fix2, fix3, fix4x, fix5x, fix6x]
    exact Or.inr (Or.inl ⟨t.drop xgigPat.length, List.drop_suffix _ t, rfl⟩)

/-- On a stripped input, the output of the substitution chain is still
stripped. -/
theorem pyStrip_portSubs (t : List Char) (ht : pyStrip t = t) :
    pyStrip (portSubs t) = portSubs t := by
  have hlead : t.dropWhile pySpace = t := by
    have h1 : (t.dropWhile pySpace).length ≤ t.length :=
      (List.dropWhile_suffix pySpace).length_le
    have h2 : (pyStrip t).length ≤ (t.dropWhile pySpace).length := by
      unfold pyStrip dropTrail
      simpa using
        (List.dropWhile_suffix (l := (t.dropWhile pySpace).reverse) pySpace).length_le
    rw [ht] at h2
    exact (List.dropWhile_suffix pySpace).sublist.eq_of_length (le_antisymm h1 h2)
  have htrail : t.reverse.dropWhile pySpace = t.reverse := by
    have h3 : dropTrail pySpace t = t := by
      have h4 := ht
      unfold pyStrip at h4
      rw [hlead] at h4
      exact h4
    exact (dropTrail_eq_self_iff pySpace t).mp h3
  have stripOfFix : ∀ r : List Char, r.dropWhile pySpace = r →
      r.reverse.dropWhile pySpace = r.reverse → pyStrip r = r := by
    intro r h1 h2
    unfold pyStrip
    rw [h1, (dropTrail_eq_self_iff pySpace r).mpr h2]
  rcases portSubs_cases' t with h | ⟨u, hu, h⟩ | ⟨u, hu, h⟩ | ⟨u, hu, hufix, h⟩
  · rw [h]; exact ht
  · rw [h]
    refine stripOfFix _ (by simp [List.dropWhile_cons, pySpace]) ?_
    have hurev := suffix_rev_fix pySpace u t htrail hu
    have : ('X' :: 'G' :: 'E' :: u).reverse = u.reverse ++ ['E', 'G', 'X'] := by simp
    rw [this]
    exact dropWhile_fix_append pySpace u.reverse ['E', 'G', 'X'] hurev
      (fun _ => by simp [List.dropWhile_cons, pySpace])
  · rw [h]
    refine stripOfFix _ (by simp [List.dropWhile_cons, pySpace]) ?_
    have hurev := suffix_rev_fix pySpace u t htrail hu
    have : ('G' :: 'E' :: u).reverse = u.reverse ++ ['E', 'G'] := by simp
    rw [this]
    exact dropWhile_fix_append pySpace u.reverse ['E', 'G'] hurev
      (fun _ => by simp [List.dropWhile_cons, pySpace])
  · rw [h]
    refine stripOfFix _ (by simp [List.dropWhile_cons, pySpace, ethTrunkPat]) ?_
    have hurev := suffix_rev_fix pySpace u t htrail hu
    have : (ethTrunkPat ++ u).reverse = u.reverse ++ ethTrunkPat.reverse := by simp
    rw [this]
    exact dropWhile_fix_append pySpace u.reverse ethTrunkPat.reverse hurev
      (fun _ => by simp [List.dropWhile_cons, pySpace, ethTrunkPat])

/-! ## Python string helpers shared by the services -/

def pyUpper (s : String) : String := String.mk (s.data.map Char.toUpper)

def pyLower (s : String) : String := String.mk (s.data.map Char.toLower)

/-- Occurrence of a pattern anywhere in a list (Python: needle in haystack). -/
def subOccurs (needle : List Char) : List Char → Bool
  | [] => headMatch needle []
  | c :: cs => headMatch needle (c :: cs) || subOccurs needle cs

/-- Python: needle in haystack, on strings. -/
def pyIn (needle hay : String) : Bool := subOccurs needle.data hay.data

/-- C10: port-name normalization is idempotent: normalizing an already
normalized port name never changes it. -/
theorem c10_normalize_port_name_idem (s : String) :
    normalize_port_name (normalize_port_name s) = normalize_port_name s := by
  unfold normalize_port_name
  by_cases hs : s = ""
  · simp [hs]
  · rw [if_neg hs]
    by_cases hr : String.mk (portSubs (pyStrip s.data)) = ""
    · rw [if_pos hr]
    · rw [if_neg hr]
      have hdata : (String.mk (portSubs (pyStrip s.data))).data =
          portSubs (pyStrip s.data) := rfl
      rw [hdata]
      have hstrip : pyStrip (pyStrip s.data) = pyStrip s.data := pyStrip_idem s.data
      rw [pyStrip_portSubs (pyStrip s.data) hstrip, portSubs_idem]

/-! ## Data model of the persistence layer (backend/app/db/models.py)

Only the columns the claims depend on are carried.  The SQLAlchemy
session is autoflush=False, so location rows carry an in-memory view
(mem: what instance attributes hold) and an optional flushed view
(db: what SQL queries filter on; none for a pending, never flushed
insert).  Port and MacAddress rows are flushed immediately after
creation by the source (session.flush), and queries on them filter only
on columns that are never mutated, so they are kept as plain rows. -/

structure SwitchRec where
  id : Nat
  hostname : String
  ip_address : String
  deriving Repr, DecidableEq

structure PortRow where
  id : Nat
  switch_id : Nat
  port_name : String
  port_index : Nat
  vlan_id : Nat
  port_type : String
  is_uplink : Bool
  lldp_neighbor_name : Option String
  lldp_neighbor_type : Option String
  deriving Repr, DecidableEq

structure MacRow where
  id : Nat
  mac_address : String
  vendor_oui : String
  first_seen : Nat
  last_seen : Nat
  is_active : Bool
  deriving Repr, DecidableEq

structure LocFields where
  mac_id : Nat
  switch_id : Nat
  port_id : Nat
  vlan_id : Nat
  seen_at : Nat
  is_current : Bool
  deriving Repr, DecidableEq

structure LocRow where
  id : Nat
  mem : LocFields
  db : Option LocFields
  deriving Repr, DecidableEq

structure HistRow where
  mac_id : Nat
  switch_id : Nat
  port_id : Nat
  vlan_id : Nat
  event_type : String
  event_at : Nat
  previous_switch_id : Option Nat
  previous_port_id : Option Nat
  deriving Repr, DecidableEq

structure DbState where
  ports : List PortRow
  macs : List MacRow
  locs : List LocRow
  hist : List HistRow
  nextId : Nat
  deriving Repr, DecidableEq

/-- Session flush: every pending or dirty location row becomes visible to
queries exactly as the instance holds it. -/
def flushLocs (locs : List LocRow) : List LocRow :=
  locs.map (fun r => { r with db := some r.mem })

def flushState (st : DbState) : DbState := { st with locs := flushLocs st.locs }

/-- SQL query: first Port with this switch and name (rowid order). -/
def findPort (st : DbState) (swid : Nat) (name : String) : Option PortRow :=
  st.ports.find? (fun p => p.switch_id == swid && p.port_name == name)

def findPortById (st : DbState) (pid : Nat) : Option PortRow :=
  st.ports.find? (fun p => p.id == pid)

def findMac (st : DbState) (addr : String) : Option MacRow :=
  st.macs.find? (fun m => m.mac_address == addr)

def findMacById (st : DbState) (mid : Nat) : Option MacRow :=
  st.macs.find? (fun m => m.id == mid)

/-- SQL query: first MacLocation with mac_id = mid and is_current = true.
The filter runs on the flushed column values; the returned object is the
in-session instance (mem view). -/
def findCurrentLocRow (st : DbState) (mid : Nat) : Option LocRow :=
  st.locs.find? (fun r =>
    match r.db with
    | some f => f.mac_id == mid && f.is_current
    | none => false)

def setPort (st : DbState) (p : PortRow) : DbState :=
  { st with ports := st.ports.map (fun q => if q.id == p.id then p else q) }

def setMac (st : DbState) (m : MacRow) : DbState :=
  { st with macs := st.macs.map (fun q => if q.id == m.id then m else q) }

/-- Instance-attribute write on one location row (dirty until flush). -/
def updateLocMem (st : DbState) (lid : Nat) (f : LocFields → LocFields) : DbState :=
  { st with locs := st.locs.map (fun r =>
      if r.id == lid then { r with mem := f r.mem } else r) }

/-! ## The classifier
(backend/app/services/discovery/snmp_discovery.py, _process_mac_entries) -/

/-- One normalized forwarding-table row handed to the classifier.
The source reads port_index and vlan_id with .get defaults 0 and 1. -/
structure FdbEntry where
  mac_address : String
  port_name : String
  port_index : Nat
  vlan_id : Nat
  deriving Repr, DecidableEq

/-- Substring-based uplink guess over the lowered port name
(keywords trunk, eth-trunk, port-channel, po, lag, bond). -/
def isUplinkByName (port_name : String) : Bool :=
  ["trunk", "eth-trunk", "port-channel", "po", "lag", "bond"].any
    (fun kw => pyIn kw (pyLower port_name))

/-- The fixed allow-list of endpoint-class vendor OUIs, verbatim from the
source including the placeholder entry that the source filters out. -/
def ENDPOINT_OUIS_raw : List String :=
  ["00186E", "00012E", "5C0E8B", "B4C799", "00E60E",
   "000B86", "24DE9A", "6CFDB9", "9C1C12", "ACA31E", "D8C7C8", "20A6CD", "94B40F",
   "0018BA", "0024A5", "88155F", "0C8BFD",
   "00275D", "0418D6", "24A43C", "44D9E7", "68D79A", "788A20", "802AA8", "B4FBE4",
   "DC9FDB", "E063DA", "F09FC2", "FCECDA",
   "000000",
   "C4108A", "58B633", "4C1D96", "842B2B", "EC589F", "74911A",
   "58C17A", "0004561",
   "00070E", "000FEE", "001121", "001A2F", "001BD4", "00226B", "002490", "002566",
   "0026CB", "10BDEC", "1CE6C7", "442B03", "503DE5", "5CF9DD", "6400F1", "6C416A",
   "7C1E52", "A8A666", "C4649B", "DCF898", "F8B7E2",
   "0004F2", "64167F",
   "001565", "24CF11", "309E65", "805E0C", "805EC0",
   "000B82",
   "00040D", "001B4F", "3CE5A6", "70521C", "7C57BC",
   "000413",
   "08000F"]

def ENDPOINT_OUIS : List String :=
  ENDPOINT_OUIS_raw.filter (fun o => !(o == "000000"))

/-- mac_address.replace(colon, empty).upper()[:6] -/
def macOui (mac : String) : String :=
  String.mk (((mac.data.filter (fun c => !(c == ':'))).map Char.toUpper).take 6)

def isOuiEndpoint (mac : String) : Bool := ENDPOINT_OUIS.contains (macOui mac)

/-- Port-role update for an existing port (lines 777-799 of the source). -/
def updateExistingPortRole (nameUplink : Bool) (p : PortRow) : PortRow :=
  match p.lldp_neighbor_type with
  | some t =>
      if t == "switch" || t == "router" || t == "unknown" then
        if !p.is_uplink then { p with is_uplink := true, port_type := "uplink" } else p
      else if t == "ap" then { p with is_uplink := false, port_type := "ap_port" }
      else if t == "phone" then { p with is_uplink := false, port_type := "phone_port" }
      else p
  | none =>
      if nameUplink && !p.is_uplink then
        { p with is_uplink := true, port_type := "trunk" }
      else p

/-- new_port_is_uplink as computed in the moved-location branch
(lines 960-971): ap and phone neighbors override to access, switch and
router to uplink, anything else keeps the is_uplink flag. -/
def overrideUplinkMoved (p : PortRow) : Bool :=
  match p.lldp_neighbor_type with
  | some t =>
      if t == "ap" then false
      else if t == "phone" then false
      else if t == "switch" || t == "router" then true
      else p.is_uplink
  | none => p.is_uplink

/-- new_port_is_uplink as computed in the no-location branch
(lines 1041-1046). -/
def overrideUplinkNew (p : PortRow) : Bool :=
  match p.lldp_neighbor_type with
  | some t =>
      if t == "switch" || t == "router" then true
      else if t == "ap" || t == "phone" then false
      else p.is_uplink
  | none => p.is_uplink

/-- Loop state of one classifier pass: session contents, the processed
counter driving batch commits, the number of commits issued so far, and
whether the branch that binds the local ENDPOINT_OUIS list has run
(reading that local before it is bound raises in Python and aborts
the pass). -/
structure PassState where
  db : DbState
  processed : Nat
  commits : Nat
  ouisDefined : Bool
  deriving Repr, DecidableEq

def commitPass (ps : PassState) : PassState :=
  { ps with db := flushState ps.db, commits := ps.commits + 1 }

/-- processed += 1, then batch commit every 100 entries. -/
def afterProcess (ps : PassState) : PassState :=
  let ps := { ps with processed := ps.processed + 1 }
  if ps.processed % 100 == 0 then commitPass ps else ps

/-- One iteration of the entry loop.  Returns the new state and whether
the iteration raised (the unbound ENDPOINT_OUIS local), which aborts
the whole pass. -/
def processEntry (sw : SwitchRec) (now : Nat) (ps : PassState) (e : FdbEntry) :
    PassState × Bool :=
  let port_name := normalize_port_name e.port_name
  let nameUplink := isUplinkByName port_name
  -- get or create the port; creating one flushes the whole session
  let portPair : DbState × PortRow :=
    match findPort ps.db sw.id port_name with
    | some p =>
        let p' := updateExistingPortRole nameUplink p
        (setPort ps.db p', p')
    | none =>
        let p : PortRow :=
          { id := ps.db.nextId, switch_id := sw.id, port_name := port_name,
            port_index := e.port_index, vlan_id := e.vlan_id,
            port_type := if nameUplink then "trunk" else "access",
            is_uplink := nameUplink,
            lldp_neighbor_name := none, lldp_neighbor_type := none }
        let st' : DbState :=
          { ps.db with
            ports := ps.db.ports ++ [p],
            locs := flushLocs ps.db.locs,
            nextId := ps.db.nextId + 1 }
        (st', p)
  let st1 := portPair.1
  let port := portPair.2
  -- get or create the MAC address; creating one flushes the whole session
  let macTriple : DbState × MacRow × Bool :=
    match findMac st1 e.mac_address with
    | some m =>
        let m' := { m with last_seen := now, is_active := true }
        (setMac st1 m', m', false)
    | none =>
        let m : MacRow :=
          { id := st1.nextId, mac_address := e.mac_address,
            vendor_oui := String.mk ((e.mac_address.data.take 8).filter (fun c => !(c == ':'))),
            first_seen := now, last_seen := now, is_active := true }
        let st' : DbState :=
          { st1 with
            macs := st1.macs ++ [m],
            locs := flushLocs st1.locs,
            nextId := st1.nextId + 1 }
        (st', m, true)
  let st2 := macTriple.1
  let mac := macTriple.2.1
  let isNewMac := macTriple.2.2
  match findCurrentLocRow st2 mac.id with
  | some row =>
      let loc := row.mem
      if loc.switch_id != sw.id || loc.port_id != port.id then
        -- moved-location branch; this branch binds ENDPOINT_OUIS
        let currentIsUplink :=
          match findPortById st2 loc.port_id with
          | some cp => cp.is_uplink
          | none => false
        let ouiEndpoint := isOuiEndpoint e.mac_address
        let npu := overrideUplinkMoved port
        if npu && !currentIsUplink then
          -- keep the endpoint location, only refresh its timestamp
          (afterProcess { ps with
            db := updateLocMem st2 row.id (fun f => { f with seen_at := now }),
            ouisDefined := true }, false)
        else if npu && currentIsUplink && ouiEndpoint then
          (afterProcess { ps with
            db := updateLocMem st2 row.id (fun f => { f with seen_at := now }),
            ouisDefined := true }, false)
        else
          -- genuine move or upgrade from uplink: history event, flip the
          -- old row in memory, add a pending new current row
          let h : HistRow :=
            { mac_id := mac.id, switch_id := sw.id, port_id := port.id,
              vlan_id := e.vlan_id, event_type := "move", event_at := now,
              previous_switch_id := some loc.switch_id,
              previous_port_id := some loc.port_id }
          let memNew : LocFields :=
            { mac_id := mac.id, switch_id := sw.id, port_id := port.id,
              vlan_id := e.vlan_id, seen_at := now, is_current := true }
          let newLoc : LocRow := { id := st2.nextId, mem := memNew, db := none }
          let st3 := updateLocMem st2 row.id (fun f => { f with is_current := false })
          let st4 : DbState :=
            { st3 with
              hist := st3.hist ++ [h],
              locs := st3.locs ++ [newLoc],
              nextId := st3.nextId + 1 }
          (afterProcess { ps with db := st4, ouisDefined := true }, false)
      else
        -- same (switch, port): only refresh the timestamp
        (afterProcess { ps with
          db := updateLocMem st2 row.id (fun f => { f with seen_at := now }) }, false)
  | none =>
      -- no-location branch: reads the ENDPOINT_OUIS local, which is
      -- unbound unless a moved-location branch already ran in this call
      if !ps.ouisDefined then
        ({ ps with db := st2 }, true)
      else
        let ouiEndpoint := isOuiEndpoint e.mac_address
        let npu := overrideUplinkNew port
        if npu && !ouiEndpoint then
          ({ ps with db := st2 }, false)            -- skip: in transit
        else if npu && ouiEndpoint && !isNewMac then
          ({ ps with db := st2 }, false)            -- skip: wait for access port
        else
          let memNew : LocFields :=
            { mac_id := mac.id, switch_id := sw.id, port_id := port.id,
              vlan_id := e.vlan_id, seen_at := now, is_current := true }
          let newLoc : LocRow := { id := st2.nextId, mem := memNew, db := none }
          let st3 : DbState :=
            { st2 with locs := st2.locs ++ [newLoc], nextId := st2.nextId + 1 }
          let hNew : HistRow :=
            { mac_id := mac.id, switch_id := sw.id, port_id := port.id,
              vlan_id := e.vlan_id, event_type := "new", event_at := now,
              previous_switch_id := none, previous_port_id := none }
          let st4 :=
            if isNewMac then { st3 with hist := st3.hist ++ [hNew] } else st3
          (afterProcess { ps with db := st4 }, false)

/-- The entry loop; a raise aborts the remaining entries. -/
def runEntries (sw : SwitchRec) (now : Nat) : PassState → List FdbEntry → PassState × Bool
  | ps, [] => (ps, false)
  | ps, e :: es =>
      match processEntry sw now ps e with
      | (ps', false) => runEntries sw now ps' es
      | (ps', true) => (ps', true)

/-- A location row is selected by the stale-cleanup query and loop body:
its flushed view is current on this switch and its MAC row exists but is
absent from the freshly discovered set. -/
def staleHit (st : DbState) (sw : SwitchRec) (discovered : List String) (r : LocRow) : Bool :=
  (match r.db with
   | some f => f.switch_id == sw.id && f.is_current
   | none => false) &&
  (match findMacById st r.mem.mac_id with
   | some m => !(discovered.contains (pyUpper m.mac_address))
   | none => false)

/-- Stale MAC cleanup (lines 692-729): flip vanished locations to
not-current, append disappeared events, and commit when anything was
flipped. -/
def staleCleanup (sw : SwitchRec) (now : Nat) (entries : List FdbEntry)
    (ps : PassState) : PassState :=
  let discovered := entries.map (fun e => pyUpper e.mac_address)
  let targets := ps.db.locs.filter (staleHit ps.db sw discovered)
  let newLocs := ps.db.locs.map (fun r =>
    if staleHit ps.db sw discovered r then
      { r with mem := { r.mem with is_current := false } }
    else r)
  let newHist := targets.map (fun r =>
    { mac_id := r.mem.mac_id, switch_id := sw.id, port_id := r.mem.port_id,
      vlan_id := r.mem.vlan_id, event_type := "disappeared", event_at := now,
      previous_switch_id := none, previous_port_id := none : HistRow })
  let ps' := { ps with db := { ps.db with locs := newLocs, hist := ps.db.hist ++ newHist } }
  if targets.length > 0 then commitPass ps' else ps'

/-- backend/app/services/discovery/snmp_discovery.py, _process_mac_entries:
stale cleanup, the entry loop, and the final commit.  The per-port
address-count update and alert generation at the end of the source touch
no location or history row and are not carried.  When the loop raised,
the final commit of the source is skipped (the caller logs the failure;
its log write commits the session, see passFinalDb). -/
def processMacEntries (sw : SwitchRec) (now : Nat) (db0 : DbState)
    (entries : List FdbEntry) : PassState × Bool :=
  let ps0 : PassState := { db := db0, processed := 0, commits := 0, ouisDefined := false }
  let ps1 := staleCleanup sw now entries ps0
  let res := runEntries sw now ps1 entries
  if res.2 then res else (commitPass res.1, false)

/-- The database contents observable after the pass: on success the final
commit flushed the session; on a raise the discovery logger in
discover_switch/_log_discovery commits the session as well. -/
def passFinalDb (sw : SwitchRec) (now : Nat) (db0 : DbState)
    (entries : List FdbEntry) : DbState :=
  flushState (processMacEntries sw now db0 entries).1.db

/-- Number of location rows of one address whose instance state is
current. -/
def currentCountMem (st : DbState) (mid : Nat) : Nat :=
  (st.locs.filter (fun r => r.mem.mac_id == mid && r.mem.is_current)).length

/-! ## C1: the at-most-one-current invariant

A snapshot that reports the same address on two ports of the switch
makes the pass insert two current rows for it: with autoflush=False the
pending row added for the first sighting is invisible to the location
query of the second sighting, which therefore inserts another current
row.  The first entry of the snapshot below is only there to make the
moved-location branch run once, binding the ENDPOINT_OUIS local that
the no-location branch reads. -/

def c1Switch : SwitchRec := { id := 1, hostname := "S1", ip_address := "10.0.0.1" }

def c1Port0 : PortRow :=
  { id := 10, switch_id := 1, port_name := "GE0/0/5", port_index := 5, vlan_id := 1,
    port_type := "access", is_uplink := false,
    lldp_neighbor_name := none, lldp_neighbor_type := none }
def c1Port1 : PortRow := { c1Port0 with id := 11, port_name := "GE0/0/1", port_index := 1 }
def c1Port2 : PortRow := { c1Port0 with id := 12, port_name := "GE0/0/2", port_index := 2 }
def c1PortOld : PortRow :=
  { c1Port0 with id := 20, switch_id := 2, port_name := "GE0/0/9", port_index := 9 }

def c1Mac0 : MacRow :=
  { id := 100, mac_address := "AA:BB:CC:DD:EE:01", vendor_oui := "AABBCCDD",
    first_seen := 0, last_seen := 0, is_active := true }
def c1Mac1 : MacRow := { c1Mac0 with id := 101, mac_address := "AA:BB:CC:DD:EE:02" }

def c1Loc0Fields : LocFields :=
  { mac_id := 100, switch_id := 2, port_id := 20, vlan_id := 1, seen_at := 0,
    is_current := true }
def c1Loc0 : LocRow := { id := 1000, mem := c1Loc0Fields, db := some c1Loc0Fields }

def c1Db0 : DbState :=
  { ports := [c1Port0, c1Port1, c1Port2, c1PortOld], macs := [c1Mac0, c1Mac1],
    locs := [c1Loc0], hist := [], nextId := 2000 }

def c1Entries : List FdbEntry :=
  [ { mac_address := "AA:BB:CC:DD:EE:01", port_name := "GE0/0/5", port_index := 5, vlan_id := 1 },
    { mac_address := "AA:BB:CC:DD:EE:02", port_name := "GE0/0/1", port_index := 1, vlan_id := 1 },
    { mac_address := "AA:BB:CC:DD:EE:02", port_name := "GE0/0/2", port_index := 2, vlan_id := 1 } ]

/-- C1: the claim that every discovery pass preserves the at-most-one
current Location invariant fails on _process_mac_entries: starting from
a state in which every address has at most one current Location (address
101 has none, address 100 has one), one pass over a snapshot listing
address 101 on two access ports completes without error and leaves
address 101 with TWO current Location rows. -/
theorem c1_pass_creates_two_current_locations :
    currentCountMem c1Db0 101 = 0 ∧
    currentCountMem c1Db0 100 = 1 ∧
    (∀ m ∈ c1Db0.macs, currentCountMem c1Db0 m.id ≤ 1) ∧
    (processMacEntries c1Switch 5 c1Db0 c1Entries).2 = false ∧
    currentCountMem (passFinalDb c1Switch 5 c1Db0 c1Entries) 101 = 2 := by
  refine ⟨rfl, rfl, ?_, rfl, rfl⟩
  decide

/-! ## C2: the access-over-uplink priority of the classifier -/

theorem map_subst_self (ps : List PortRow) (p : PortRow)
    (h : ∀ q ∈ ps, q.id = p.id → q = p) :
    ps.map (fun q => if q.id == p.id then p else q) = ps := by
  induction ps with
  | nil => rfl
  | cons a as ih =>
      simp only [List.map_cons]
      have ha : (if a.id == p.id then p else a) = a := by
        by_cases hc : a.id = p.id
        · have hb : (a.id == p.id) = true := by simp [hc]
          rw [if_pos hb]
          exact (h a (List.mem_cons_self a as) hc).symm
        · have hb : (a.id == p.id) = false := by simp [hc]
          rw [if_neg (by simp [hb])]
      rw [ha, ih (fun q hq hq' => h q (List.mem_cons_of_mem a hq) hq')]

/-- Replacing a port by itself (primary-key uniqueness) is a no-op. -/
theorem setPort_self (st : DbState) (p : PortRow)
    (h : ∀ q ∈ st.ports, q.id = p.id → q = p) : setPort st p = st := by
  unfold setPort
  rw [map_subst_self st.ports p h]

theorem findCurrentLocRow_setMac (st : DbState) (m : MacRow) (mid : Nat) :
    findCurrentLocRow (setMac st m) mid = findCurrentLocRow st mid := rfl

theorem findPortById_setMac (st : DbState) (m : MacRow) (pid : Nat) :
    findPortById (setMac st m) pid = findPortById st pid := rfl

theorem updateExistingPortRole_noop (p : PortRow)
    (hl : p.lldp_neighbor_type = none) :
    updateExistingPortRole false p = p := by
  simp [updateExistingPortRole, hl]

theorem overrideUplinkMoved_none (p : PortRow) (hl : p.lldp_neighbor_type = none) :
    overrideUplinkMoved p = p.is_uplink := by
  simp [overrideUplinkMoved, hl]

/-- C2: with the address currently placed on a different (device, port),
the classifier (a) moves the Location to the new port and appends exactly
one move event when the new port is a true access port and the old one is
an uplink (indeed whenever the new port is not an uplink), and (b) keeps
the Location and only refreshes its timestamp, appending nothing, when
the new port is an uplink and the old one is not.  Both directions are
stated as full-state equations of one entry-loop iteration. -/
theorem c2_uplink_access_transitions
    (ps : PassState) (sw : SwitchRec) (now : Nat) (e : FdbEntry)
    (p : PortRow) (m : MacRow) (row : LocRow) (oldP : PortRow)
    (hport : findPort ps.db sw.id (normalize_port_name e.port_name) = some p)
    (huniq : ∀ q ∈ ps.db.ports, q.id = p.id → q = p)
    (hlldp : p.lldp_neighbor_type = none)
    (hname : isUplinkByName (normalize_port_name e.port_name) = false)
    (hmac : findMac ps.db e.mac_address = some m)
    (hrow : findCurrentLocRow ps.db m.id = some row)
    (hold : findPortById ps.db row.mem.port_id = some oldP)
    (hdiff : (row.mem.switch_id != sw.id || row.mem.port_id != p.id) = true)
    (hbatch : ((ps.processed + 1) % 100 == 0) = false) :
    (p.is_uplink = false → oldP.is_uplink = true →
      processEntry sw now ps e =
        ({ ps with
            db :=
              { ports := ps.db.ports,
                macs := ps.db.macs.map (fun q =>
                  if q.id == m.id then { m with last_seen := now, is_active := true } else q),
                locs := (ps.db.locs.map (fun r =>
                    if r.id == row.id then { r with mem := { r.mem with is_current := false } }
                    else r)) ++
                  [{ id := ps.db.nextId,
                     mem := { mac_id := m.id, switch_id := sw.id, port_id := p.id,
                              vlan_id := e.vlan_id, seen_at := now, is_current := true },
                     db := none }],
                hist := ps.db.hist ++
                  [{ mac_id := m.id, switch_id := sw.id, port_id := p.id,
                     vlan_id := e.vlan_id, event_type := "move", event_at := now,
                     previous_switch_id := some row.mem.switch_id,
                     previous_port_id := some row.mem.port_id }],
                nextId := ps.db.nextId + 1 },
            processed := ps.processed + 1,
            ouisDefined := true }, false)) ∧
    (p.is_uplink = true → oldP.is_uplink = false →
      processEntry sw now ps e =
        ({ ps with
            db :=
              { ports := ps.db.ports,
                macs := ps.db.macs.map (fun q =>
                  if q.id == m.id then { m with last_seen := now, is_active := true } else q),
                locs := ps.db.locs.map (fun r =>
                  if r.id == row.id then { r with mem := { r.mem with seen_at := now } }
                  else r),
                hist := ps.db.hist,
                nextId := ps.db.nextId },
            processed := ps.processed + 1,
            ouisDefined := true }, false)) := by
  have hnorm : updateExistingPortRole (isUplinkByName (normalize_port_name e.port_name)) p = p := by
    rw [hname]; exact updateExistingPortRole_noop p hlldp
  constructor
  · intro hpA holdA
    simp only [processEntry, hport, hnorm, setPort_self ps.db p huniq,
      findCurrentLocRow_setMac, hmac, hrow, hdiff, findPortById_setMac, hold,
      overrideUplinkMoved_none p hlldp, hpA, holdA, Bool.false_and, Bool.and_false,
      Bool.not_false, Bool.false_eq_true, if_false, if_true, afterProcess, hbatch]
    simp only [updateLocMem, setMac]
  · intro hpB holdB
    simp only [processEntry, hport, hnorm, setPort_self ps.db p huniq,
      findCurrentLocRow_setMac, hmac, hrow, hdiff, findPortById_setMac, hold,
      overrideUplinkMoved_none p hlldp, hpB, holdB, Bool.true_and, Bool.and_true,
      Bool.not_false, if_true, afterProcess, hbatch]
    simp only [updateLocMem, setMac]
    rfl

/-! Concrete instances exercising both directions of C2. -/

def c2Sw : SwitchRec := { id := 1, hostname := "S1", ip_address := "10.0.0.1" }

def c2PortA : PortRow :=
  { id := 11, switch_id := 1, port_name := "GE0/0/1", port_index := 1, vlan_id := 1,
    port_type := "access", is_uplink := false,
    lldp_neighbor_name := none, lldp_neighbor_type := none }
def c2OldA : PortRow :=
  { c2PortA with
    id := 20, switch_id := 2, port_name := "GE0/0/9",
    is_uplink := true, port_type := "trunk" }
def c2MacA : MacRow :=
  { id := 300, mac_address := "AA:BB:CC:00:00:10", vendor_oui := "AABBCC00",
    first_seen := 0, last_seen := 0, is_active := true }
def c2RowAF : LocFields :=
  { mac_id := 300, switch_id := 2, port_id := 20, vlan_id := 1, seen_at := 0,
    is_current := true }
def c2RowA : LocRow := { id := 1500, mem := c2RowAF, db := some c2RowAF }
def c2DbA : DbState :=
  { ports := [c2PortA, c2OldA], macs := [c2MacA], locs := [c2RowA],
    hist := [], nextId := 5000 }
def c2PsA : PassState :=
  { db := c2DbA, processed := 0, commits := 0, ouisDefined := false }
def c2Entry : FdbEntry :=
  { mac_address := "AA:BB:CC:00:00:10", port_name := "GE0/0/1", port_index := 1,
    vlan_id := 1 }

def c2PortB : PortRow := { c2PortA with is_uplink := true, port_type := "trunk" }
def c2OldB : PortRow := { c2OldA with is_uplink := false, port_type := "access" }
def c2PsB : PassState :=
  { c2PsA with db := { c2PsA.db with ports := [c2PortB, c2OldB] } }

theorem c2_uplink_access_transitions_witness :
    ((processEntry c2Sw 7 c2PsA c2Entry).1.db.hist.map (fun h => h.event_type) =
        ["move"] ∧
      ((processEntry c2Sw 7 c2PsA c2Entry).1.db.locs.filter
          (fun r => r.mem.mac_id == 300 && r.mem.is_current)).map
        (fun r => (r.mem.switch_id, r.mem.port_id)) = [(1, 11)]) ∧
    ((processEntry c2Sw 7 c2PsB c2Entry).1.db.hist = [] ∧
      (processEntry c2Sw 7 c2PsB c2Entry).1.db.locs =
        [{ id := 1500, mem := { c2RowAF with seen_at := 7 }, db := some c2RowAF }]) := by
  have hA := (c2_uplink_access_transitions c2PsA c2Sw 7 c2Entry c2PortA c2MacA
      c2RowA c2OldA rfl (by decide) rfl rfl rfl rfl rfl rfl rfl).1 rfl rfl
  have hB := (c2_uplink_access_transitions c2PsB c2Sw 7 c2Entry c2PortB c2MacA
      c2RowA c2OldB rfl (by decide) rfl rfl rfl rfl rfl rfl rfl).2 rfl rfl
  rw [hA, hB]
  refine ⟨⟨by decide, by decide⟩, by decide, by decide⟩


/-! ## C8: commit discipline of one discovery pass -/

/-- One when a batch commit fires at this processed count, else zero. -/
def batchBump (n : Nat) : Nat := if n % 100 == 0 then 1 else 0

theorem afterProcess_counters (d : DbState) (o : Bool) (pr cm : Nat) :
    (afterProcess { db := d, processed := pr, commits := cm, ouisDefined := o }).processed =
        pr + 1 ∧
      (afterProcess { db := d, processed := pr, commits := cm, ouisDefined := o }).commits =
        cm + batchBump (pr + 1) := by
  unfold afterProcess commitPass batchBump
  by_cases h : ((pr + 1) % 100 == 0) = true
  · simp [h]
  · simp [h]

/-- Every entry-loop iteration either leaves the counters unchanged
(skip or raise) or counts one processed entry, committing exactly at
each hundredth. -/
theorem processEntry_counters (sw : SwitchRec) (now : Nat) (ps : PassState) (e : FdbEntry) :
    ((processEntry sw now ps e).1.processed = ps.processed ∧
      (processEntry sw now ps e).1.commits = ps.commits) ∨
    ((processEntry sw now ps e).2 = false ∧
      (processEntry sw now ps e).1.processed = ps.processed + 1 ∧
      (processEntry sw now ps e).1.commits = ps.commits + batchBump (ps.processed + 1)) := by
  simp only [processEntry]
  repeat' split
  all_goals
    first
      | exact Or.inl ⟨rfl, rfl⟩
      | exact Or.inr ⟨rfl, (afterProcess_counters _ _ _ _).1,
          (afterProcess_counters _ _ _ _).2⟩

theorem runEntries_commits (sw : SwitchRec) (now : Nat) (entries : List FdbEntry)
    (ps : PassState) (base : Nat)
    (hinv : ps.commits = base + ps.processed / 100)
    (hok : (runEntries sw now ps entries).2 = false) :
    (runEntries sw now ps entries).1.commits =
      base + (runEntries sw now ps entries).1.processed / 100 := by
  induction entries generalizing ps with
  | nil => simpa [runEntries] using hinv
  | cons e es ih =>
      simp only [runEntries] at hok ⊢
      rcases hflag : (processEntry sw now ps e) with ⟨ps', flag⟩
      cases flag with
      | true => simp [hflag] at hok
      | false =>
          simp only [hflag] at hok ⊢
          rcases processEntry_counters sw now ps e with ⟨h1, h2⟩ | ⟨h0, h1, h2⟩
          · rw [hflag] at h1 h2
            have h1' : ps'.processed = ps.processed := h1
            have h2' : ps'.commits = ps.commits := h2
            exact ih ps' (by rw [h2', h1', hinv]) hok
          · rw [hflag] at h1 h2
            have h1' : ps'.processed = ps.processed + 1 := h1
            have h2' : ps'.commits = ps.commits + batchBump (ps.processed + 1) := h2
            refine ih ps' ?_ hok
            rw [h2', h1', hinv]
            have hdiv : (ps.processed + 1) / 100 =
                ps.processed / 100 + batchBump (ps.processed + 1) := by
              unfold batchBump
              by_cases hm : (ps.processed + 1) % 100 = 0
              · have hc : ((ps.processed + 1) % 100 == 0) = true := by simpa using hm
                rw [if_pos hc]
                omega
              · have hc : ¬(((ps.processed + 1) % 100 == 0) = true) := by simpa using hm
                rw [if_neg hc]
                omega
            rw [hdiv]
            omega

theorem staleCleanup_counters (sw : SwitchRec) (now : Nat) (entries : List FdbEntry)
    (ps : PassState) :
    (staleCleanup sw now entries ps).processed = ps.processed ∧
      (staleCleanup sw now entries ps).commits =
        ps.commits + (if 0 < (ps.db.locs.filter
            (staleHit ps.db sw (entries.map (fun e => pyUpper e.mac_address)))).length
          then 1 else 0) := by
  unfold staleCleanup commitPass
  by_cases h : 0 < (ps.db.locs.filter
      (staleHit ps.db sw (entries.map (fun e => pyUpper e.mac_address)))).length
  · simp [h]
  · simp [h]

/-- C8 amended: a pass that completes without raising does not commit as
one unit; it issues one commit for the stale flips (when any location
was flipped), one commit after every hundred processed entries, and one
final commit. -/
theorem c8_pass_commit_discipline (sw : SwitchRec) (now : Nat) (db0 : DbState)
    (entries : List FdbEntry)
    (h : (processMacEntries sw now db0 entries).2 = false) :
    (processMacEntries sw now db0 entries).1.commits =
      (if 0 < (db0.locs.filter
          (staleHit db0 sw (entries.map (fun e => pyUpper e.mac_address)))).length
        then 1 else 0) +
      (processMacEntries sw now db0 entries).1.processed / 100 + 1 := by
  unfold processMacEntries at h ⊢
  set ps0 : PassState := { db := db0, processed := 0, commits := 0, ouisDefined := false }
  have hstale := staleCleanup_counters sw now entries ps0
  set ps1 := staleCleanup sw now entries ps0
  set base : Nat := (if 0 < (db0.locs.filter
      (staleHit db0 sw (entries.map (fun e => pyUpper e.mac_address)))).length
    then 1 else 0) with hbase
  have hst1 : ps1.processed = 0 := hstale.1
  have hst2 : ps1.commits = 0 + base := hstale.2
  have hinv1 : ps1.commits = base + ps1.processed / 100 := by
    rw [hst2, hst1]
    omega
  rcases hrun : runEntries sw now ps1 entries with ⟨res, flag⟩
  cases flag with
  | true => simp [hrun] at h
  | false =>
      have hok : (runEntries sw now ps1 entries).2 = false := by rw [hrun]
      have hrc := runEntries_commits sw now entries ps1 base hinv1 hok
      rw [hrun] at hrc
      have hrc' : res.commits = base + res.processed / 100 := hrc
      simp [hrun, commitPass]
      omega

/-- Concrete pass used to refute the single-unit claim: one stale
location (address 102 vanished) and one processed entry. -/
def c8Switch : SwitchRec := { id := 1, hostname := "S1", ip_address := "10.0.0.1" }
def c8Port1 : PortRow :=
  { id := 11, switch_id := 1, port_name := "GE0/0/1", port_index := 1, vlan_id := 1,
    port_type := "access", is_uplink := false,
    lldp_neighbor_name := none, lldp_neighbor_type := none }
def c8Port2 : PortRow :=
  { id := 12, switch_id := 1, port_name := "GE0/0/2", port_index := 2, vlan_id := 1,
    port_type := "access", is_uplink := false,
    lldp_neighbor_name := none, lldp_neighbor_type := none }
def c8MacKept : MacRow :=
  { id := 101, mac_address := "AA:BB:CC:DD:EE:02", vendor_oui := "AABBCCDD",
    first_seen := 0, last_seen := 0, is_active := true }
def c8MacGone : MacRow :=
  { id := 102, mac_address := "AA:BB:CC:DD:EE:03", vendor_oui := "AABBCCDD",
    first_seen := 0, last_seen := 0, is_active := true }
def c8LocKeptF : LocFields :=
  { mac_id := 101, switch_id := 1, port_id := 11, vlan_id := 1, seen_at := 0,
    is_current := true }
def c8LocGoneF : LocFields :=
  { mac_id := 102, switch_id := 1, port_id := 12, vlan_id := 1, seen_at := 0,
    is_current := true }
def c8Db0 : DbState :=
  { ports := [c8Port1, c8Port2], macs := [c8MacKept, c8MacGone],
    locs := [{ id := 1000, mem := c8LocKeptF, db := some c8LocKeptF },
             { id := 1001, mem := c8LocGoneF, db := some c8LocGoneF }],
    hist := [], nextId := 2000 }
def c8Entries : List FdbEntry :=
  [ { mac_address := "AA:BB:CC:DD:EE:02", port_name := "GE0/0/1", port_index := 1,
      vlan_id := 1 } ]

/-- C8 counterexample: the pass on this snapshot completes without error
yet issues TWO commits, the first containing only the stale flip (the
disappeared event is already recorded when it happens), so the mutations
of one pass are not committed atomically as a single unit. -/
theorem c8_pass_commit_discipline_witness :
    (processMacEntries c8Switch 5 c8Db0 c8Entries).2 = false ∧
    (processMacEntries c8Switch 5 c8Db0 c8Entries).1.commits =
      (if 0 < (c8Db0.locs.filter
          (staleHit c8Db0 c8Switch (c8Entries.map (fun e => pyUpper e.mac_address)))).length
        then 1 else 0) +
      (processMacEntries c8Switch 5 c8Db0 c8Entries).1.processed / 100 + 1 :=
  ⟨rfl, c8_pass_commit_discipline c8Switch 5 c8Db0 c8Entries rfl⟩

theorem c8_pass_is_not_single_commit :
    (processMacEntries c8Switch 5 c8Db0 c8Entries).2 = false ∧
    (staleCleanup c8Switch 5 c8Entries
        { db := c8Db0, processed := 0, commits := 0, ouisDefined := false }).commits = 1 ∧
    (processMacEntries c8Switch 5 c8Db0 c8Entries).1.commits = 2 := by
  refine ⟨rfl, rfl, rfl⟩



/-! ## C3: idempotence of re-processing the identical snapshot -/

def c3Switch : SwitchRec := { id := 1, hostname := "S1", ip_address := "10.0.0.1" }
def c3Port1 : PortRow :=
  { id := 11, switch_id := 1, port_name := "GE0/0/1", port_index := 1, vlan_id := 1,
    port_type := "access", is_uplink := false,
    lldp_neighbor_name := none, lldp_neighbor_type := none }
def c3Port2 : PortRow :=
  { id := 12, switch_id := 1, port_name := "GE0/0/2", port_index := 2, vlan_id := 1,
    port_type := "access", is_uplink := false,
    lldp_neighbor_name := none, lldp_neighbor_type := none }
def c3Mac : MacRow :=
  { id := 101, mac_address := "AA:BB:CC:DD:EE:02", vendor_oui := "AABBCCDD",
    first_seen := 0, last_seen := 0, is_active := true }
def c3LocF : LocFields :=
  { mac_id := 101, switch_id := 1, port_id := 11, vlan_id := 1, seen_at := 0,
    is_current := true }
def c3Db0 : DbState :=
  { ports := [c3Port1, c3Port2], macs := [c3Mac],
    locs := [{ id := 1000, mem := c3LocF, db := some c3LocF }],
    hist := [], nextId := 2000 }
def c3Entries : List FdbEntry :=
  [ { mac_address := "AA:BB:CC:DD:EE:02", port_name := "GE0/0/1", port_index := 1,
      vlan_id := 1 },
    { mac_address := "AA:BB:CC:DD:EE:02", port_name := "GE0/0/2", port_index := 2,
      vlan_id := 2 } ]
def c3Run1 : DbState := passFinalDb c3Switch 5 c3Db0 c3Entries
def c3Run2 : DbState := passFinalDb c3Switch 6 c3Run1 c3Entries

/-- C3 counterexample: re-processing the identical snapshot is NOT
idempotent when one address is reported on two ports (here on two access
ports, a legal forwarding-table state across VLANs): the second run
appends another move event and creates another location row. -/
theorem c3_second_run_not_idempotent :
    (c3Run1.hist.map (fun h => h.event_type) = ["move"] ∧ c3Run1.locs.length = 2) ∧
    (c3Run2.hist.map (fun h => h.event_type) = ["move", "move"] ∧
      c3Run2.locs.length = 3) := by
  exact ⟨⟨rfl, rfl⟩, ⟨rfl, rfl⟩⟩


/-! ### C3 amended: a pass over a state that already reflects the snapshot

The counterexample above refutes the literal claim.  The correct
statement restricts it to states that already reflect the snapshot,
which is the shape a successful pass leaves behind when each address of
the snapshot sits on a single port: every entry resolves to an existing
port whose role update is a no-op, an existing active MAC row, and a
current location row on exactly that (switch, port); the session is
flushed; nothing on the switch is stale.  Over such a state the pass
raises nothing, appends no history event, touches no port row,
allocates no id, and changes locations only in seen_at and MAC rows
only in last_seen. -/

/-- Location rows equal up to the seen_at timestamp and flush
bookkeeping: same id, same memory fields except seen_at, and a flushed
view of the same fields at some timestamp. -/
def LocStamp (r r2 : LocRow) : Prop :=
  r2.id = r.id ∧ (∃ s, r2.mem = { r.mem with seen_at := s }) ∧
  ∃ t, r2.db = some { r.mem with seen_at := t }

/-- MAC rows equal up to the last_seen timestamp. -/
def MacStamp (m m2 : MacRow) : Prop :=
  ∃ t, m2 = { m with last_seen := t }

/-- The pass changed at most timestamps: ports, history and the id
counter untouched, location and MAC tables pointwise equal up to
timestamps. -/
def StampRel (db0 db : DbState) : Prop :=
  db.ports = db0.ports ∧ db.hist = db0.hist ∧ db.nextId = db0.nextId ∧
  List.Forall₂ LocStamp db0.locs db.locs ∧
  List.Forall₂ MacStamp db0.macs db.macs

/-- The state reflects one forwarding-table entry: the port exists and
its role update is a no-op, the MAC row exists and is active, and its
current location row sits on exactly this (switch, port). -/
def entryOk (sw : SwitchRec) (db : DbState) (e : FdbEntry) : Bool :=
  match findPort db sw.id (normalize_port_name e.port_name) with
  | none => false
  | some p =>
    decide (updateExistingPortRole (isUplinkByName (normalize_port_name e.port_name)) p = p) &&
    match findMac db e.mac_address with
    | none => false
    | some m =>
      m.is_active &&
      match findCurrentLocRow db m.id with
      | none => false
      | some row => (row.mem.switch_id == sw.id) && (row.mem.port_id == p.id)

theorem forall2_find_rel {α β : Type} {R : α → β → Prop} (p : α → Bool) (q : β → Bool) :
    ∀ {l : List α} {l2 : List β}, List.Forall₂ R l l2 →
      (∀ a b, a ∈ l → R a b → p a = q b) →
      (l.find? p = none ∧ l2.find? q = none) ∨
        ∃ a b, l.find? p = some a ∧ l2.find? q = some b ∧ R a b ∧ a ∈ l := by
  intro l l2 h
  induction h with
  | nil => intro _; exact Or.inl ⟨rfl, rfl⟩
  | cons hab htl ih =>
      rename_i a b as bs
      intro hpq
      have hpq0 : p a = q b := hpq a b (List.mem_cons_self a as) hab
      cases hpa : p a with
      | true =>
          have hqb : q b = true := by rw [← hpq0]; exact hpa
          exact Or.inr ⟨a, b, List.find?_cons_of_pos _ hpa,
            List.find?_cons_of_pos _ hqb, hab, List.mem_cons_self a as⟩
      | false =>
          have hqb : q b = false := by rw [← hpq0]; exact hpa
          rw [List.find?_cons_of_neg _ (by simp [hpa]), List.find?_cons_of_neg _ (by simp [hqb])]
          rcases ih (fun x y hx hr => hpq x y (List.mem_cons_of_mem a hx) hr) with
            h1 | ⟨x, y, h1, h2, h3, h4⟩
          · exact Or.inl h1
          · exact Or.inr ⟨x, y, h1, h2, h3, List.mem_cons_of_mem a h4⟩

theorem forall2_map_right_pres {α β : Type} {R : α → β → Prop} (f : β → β) :
    ∀ {l : List α} {l2 : List β}, List.Forall₂ R l l2 →
      (∀ a b, a ∈ l → R a b → R a (f b)) →
      List.Forall₂ R l (l2.map f) := by
  intro l l2 h
  induction h with
  | nil => intro _; exact List.Forall₂.nil
  | cons hab htl ih =>
      rename_i a b as bs
      intro hf
      exact List.Forall₂.cons (hf a b (List.mem_cons_self a as) hab)
        (ih (fun x y hx hr => hf x y (List.mem_cons_of_mem a hx) hr))

theorem StampRel_refl (db0 : DbState)
    (hflush : ∀ r ∈ db0.locs, r.db = some r.mem) : StampRel db0 db0 := by
  refine ⟨rfl, rfl, rfl, ?_, ?_⟩
  · exact List.forall₂_same.mpr (fun r hr =>
      ⟨rfl, ⟨r.mem.seen_at, rfl⟩, ⟨r.mem.seen_at, by rw [hflush r hr]⟩⟩)
  · exact List.forall₂_same.mpr (fun m _ => ⟨m.last_seen, rfl⟩)

theorem StampRel_flush {db0 db : DbState} (h : StampRel db0 db) :
    StampRel db0 (flushState db) := by
  obtain ⟨hp, hh, hn, hl, hm⟩ := h
  refine ⟨hp, hh, hn, ?_, hm⟩
  refine forall2_map_right_pres _ hl ?_
  intro a b _ hr
  obtain ⟨hid, ⟨s, hs⟩, ⟨t, ht⟩⟩ := hr
  exact ⟨hid, ⟨s, hs⟩, ⟨s, by show some b.mem = _; rw [hs]⟩⟩

theorem findMac_stamp {db0 db : DbState} (h : StampRel db0 db) {addr : String}
    {m : MacRow} (hm : findMac db0 addr = some m) :
    ∃ m2, findMac db addr = some m2 ∧ MacStamp m m2 ∧ m ∈ db0.macs := by
  have h5 := h.2.2.2.2
  rcases forall2_find_rel (fun x => x.mac_address == addr) (fun x => x.mac_address == addr)
      h5 (fun a b _ hr => by obtain ⟨t, ht⟩ := hr; rw [ht]) with ⟨h1, _⟩ | ⟨a, b, h1, h2, h3, h4⟩
  · unfold findMac at hm
    rw [hm] at h1
    cases h1
  · unfold findMac at hm
    rw [hm] at h1
    have hma : a = m := (Option.some.inj h1).symm
    subst hma
    exact ⟨b, h2, h3, h4⟩

theorem findCurrentLocRow_stamp {db0 db : DbState} (h : StampRel db0 db)
    (hflush : ∀ r ∈ db0.locs, r.db = some r.mem) {mid : Nat} {row : LocRow}
    (hr : findCurrentLocRow db0 mid = some row) :
    ∃ row2, findCurrentLocRow db mid = some row2 ∧ LocStamp row row2 ∧ row ∈ db0.locs := by
  have h4 := h.2.2.2.1
  rcases forall2_find_rel
      (fun r => match r.db with | some f => f.mac_id == mid && f.is_current | none => false)
      (fun r => match r.db with | some f => f.mac_id == mid && f.is_current | none => false)
      h4 (fun a b ha hr2 => by
        obtain ⟨hid, ⟨s, hs⟩, ⟨t, ht⟩⟩ := hr2
        simp only [hflush a ha, ht]) with ⟨h1, _⟩ | ⟨a, b, h1, h2, h3, h4m⟩
  · unfold findCurrentLocRow at hr
    rw [hr] at h1
    cases h1
  · unfold findCurrentLocRow at hr
    rw [hr] at h1
    have hra : a = row := (Option.some.inj h1).symm
    subst hra
    exact ⟨b, h2, h3, h4m⟩

theorem findPort_eq_of_ports {db db0 : DbState} (h : db.ports = db0.ports)
    (swid : Nat) (name : String) : findPort db swid name = findPort db0 swid name := by
  unfold findPort
  rw [h]

theorem afterProcess_db (ps : PassState) :
    (afterProcess ps).db = ps.db ∨ (afterProcess ps).db = flushState ps.db := by
  simp only [afterProcess, commitPass]
  split
  · exact Or.inr rfl
  · exact Or.inl rfl

theorem macRefresh_eq (now : Nat) (x : MacRow) (hx : x.is_active = true) :
    { x with last_seen := now, is_active := true } = { x with last_seen := now } := by
  cases x with
  | mk i a v f l act =>
      simp only at hx
      subst hx
      rfl

theorem staleCleanup_noop (sw : SwitchRec) (now : Nat) (entries : List FdbEntry)
    (ps : PassState)
    (h : ∀ r ∈ ps.db.locs,
      staleHit ps.db sw (entries.map (fun e => pyUpper e.mac_address)) r = false) :
    staleCleanup sw now entries ps = ps := by
  have htar : ps.db.locs.filter
      (staleHit ps.db sw (entries.map (fun e => pyUpper e.mac_address))) = [] := by
    rw [List.filter_eq_nil_iff]
    intro r hr
    simp [h r hr]
  have hmap : ps.db.locs.map (fun r =>
      if staleHit ps.db sw (entries.map (fun e => pyUpper e.mac_address)) r then
        { r with mem := { r.mem with is_current := false } }
      else r) = ps.db.locs :=
    (List.map_congr_left (fun r hr => by simp [h r hr])).trans (List.map_id _)
  simp only [staleCleanup]
  rw [htar, hmap]
  simp only [List.map_nil, List.append_nil, List.length_nil]
  rw [if_neg (by omega)]

theorem processEntry_refresh
    (ps : PassState) (sw : SwitchRec) (now : Nat) (e : FdbEntry)
    (p : PortRow) (m : MacRow) (row : LocRow)
    (hport : findPort ps.db sw.id (normalize_port_name e.port_name) = some p)
    (hnoop : updateExistingPortRole (isUplinkByName (normalize_port_name e.port_name)) p = p)
    (huniq : ∀ q ∈ ps.db.ports, q.id = p.id → q = p)
    (hmac : findMac ps.db e.mac_address = some m)
    (hrow : findCurrentLocRow ps.db m.id = some row)
    (hsw : row.mem.switch_id = sw.id) (hpid : row.mem.port_id = p.id) :
    processEntry sw now ps e =
      (afterProcess { ps with
          db := { ps.db with
            macs := ps.db.macs.map (fun q =>
              if q.id == m.id then { m with last_seen := now, is_active := true } else q),
            locs := ps.db.locs.map (fun r =>
              if r.id == row.id then { r with mem := { r.mem with seen_at := now } }
              else r) } },
        false) := by
  simp only [processEntry, hport, hnoop, setPort_self ps.db p huniq, hmac,
    findCurrentLocRow_setMac, hrow, hsw, hpid, bne_self_eq_false, Bool.or_self,
    Bool.false_eq_true, if_false]
  simp only [updateLocMem, setMac]

theorem processEntry_stamp (sw : SwitchRec) (now : Nat) (db0 : DbState)
    (ps : PassState) (e : FdbEntry)
    (hflush : ∀ r ∈ db0.locs, r.db = some r.mem)
    (hports : (db0.ports.map (fun p => p.id)).Nodup)
    (hmacs : (db0.macs.map (fun m => m.id)).Nodup)
    (hrel : StampRel db0 ps.db)
    (he : entryOk sw db0 e = true) :
    (processEntry sw now ps e).2 = false ∧
      StampRel db0 (processEntry sw now ps e).1.db := by
  unfold entryOk at he
  split at he
  · exact absurd he (by simp)
  rename_i p hp0
  obtain ⟨hnoop0, he⟩ := (Bool.and_eq_true _ _).mp he
  split at he
  · exact absurd he (by simp)
  rename_i m hm0
  obtain ⟨hact, he⟩ := (Bool.and_eq_true _ _).mp he
  split at he
  · exact absurd he (by simp)
  rename_i row hr0
  obtain ⟨hsw0, hpid0⟩ := (Bool.and_eq_true _ _).mp he
  have hnoop : updateExistingPortRole (isUplinkByName (normalize_port_name e.port_name)) p = p :=
    of_decide_eq_true hnoop0
  have hsw1 : row.mem.switch_id = sw.id := by simpa using hsw0
  have hpid1 : row.mem.port_id = p.id := by simpa using hpid0
  have hpeq : ps.db.ports = db0.ports := hrel.1
  have hp0f : db0.ports.find? (fun q => q.switch_id == sw.id &&
      q.port_name == normalize_port_name e.port_name) = some p := hp0
  have hpmem : p ∈ db0.ports := List.mem_of_find?_eq_some hp0f
  have hpuniq : ∀ q ∈ ps.db.ports, q.id = p.id → q = p := by
    rw [hpeq]
    intro q hq hidq
    exact List.inj_on_of_nodup_map hports hq hpmem hidq
  have hfp : findPort ps.db sw.id (normalize_port_name e.port_name) = some p :=
    (findPort_eq_of_ports hpeq sw.id (normalize_port_name e.port_name)).trans hp0
  obtain ⟨m2, hfm, hm2, hmmem⟩ := findMac_stamp hrel hm0
  obtain ⟨u, hu⟩ := hm2
  have hm2id : m2.id = m.id := by rw [hu]
  have hm2act : m2.is_active = true := by rw [hu]; exact hact
  obtain ⟨row2, hfr, hrow2, hrmem⟩ := findCurrentLocRow_stamp hrel hflush hr0
  obtain ⟨hrid2, ⟨s2, hs2⟩, ⟨t2, ht2⟩⟩ := hrow2
  have hsw2 : row2.mem.switch_id = sw.id := by rw [hs2]; exact hsw1
  have hpid2 : row2.mem.port_id = p.id := by rw [hs2]; exact hpid1
  have hfr2 : findCurrentLocRow ps.db m2.id = some row2 := by rw [hm2id]; exact hfr
  have heq := processEntry_refresh ps sw now e p m2 row2 hfp hnoop hpuniq hfm hfr2 hsw2 hpid2
  rw [heq]
  constructor
  · rfl
  have hrepl : { m2 with last_seen := now, is_active := true } = { m with last_seen := now } := by
    rw [hu]
    exact macRefresh_eq now m hact
  have hX : StampRel db0
      { ps.db with
        macs := ps.db.macs.map (fun q =>
          if q.id == m2.id then { m2 with last_seen := now, is_active := true } else q),
        locs := ps.db.locs.map (fun r =>
          if r.id == row2.id then { r with mem := { r.mem with seen_at := now } }
          else r) } := by
    obtain ⟨h1, h2, h3, h4, h5⟩ := hrel
    refine ⟨h1, h2, h3, ?_, ?_⟩
    · refine forall2_map_right_pres _ h4 ?_
      intro a b _ hab
      obtain ⟨hid, ⟨s, hs⟩, ⟨t, ht⟩⟩ := hab
      by_cases hc : b.id = row2.id
      · have hcb : (b.id == row2.id) = true := by simp [hc]
        simp only [hcb, if_true]
        refine ⟨hid, ⟨now, ?_⟩, ⟨t, ht⟩⟩
        rw [hs]
      · have hcb : (b.id == row2.id) = false := by simp [hc]
        simp only [hcb, if_false]
        exact ⟨hid, ⟨s, hs⟩, ⟨t, ht⟩⟩
    · refine forall2_map_right_pres _ h5 ?_
      intro a b ha hab
      obtain ⟨v, hv⟩ := hab
      by_cases hc : b.id = m2.id
      · have hcb : (b.id == m2.id) = true := by simp [hc]
        simp only [hcb, if_true]
        have haid : a.id = m.id := by
          rw [← hm2id, ← hc, hv]
        have ham : a = m := List.inj_on_of_nodup_map hmacs ha hmmem haid
        subst ham
        exact ⟨now, by rw [hrepl]⟩
      · have hcb : (b.id == m2.id) = false := by simp [hc]
        simp only [hcb, if_false]
        exact ⟨v, hv⟩
  rcases afterProcess_db { ps with
      db := { ps.db with
        macs := ps.db.macs.map (fun q =>
          if q.id == m2.id then { m2 with last_seen := now, is_active := true } else q),
        locs := ps.db.locs.map (fun r =>
          if r.id == row2.id then { r with mem := { r.mem with seen_at := now } }
          else r) } } with hA | hA
  · rw [hA]
    exact hX
  · rw [hA]
    exact StampRel_flush hX

theorem runEntries_stamp (sw : SwitchRec) (now : Nat) (db0 : DbState)
    (hflush : ∀ r ∈ db0.locs, r.db = some r.mem)
    (hports : (db0.ports.map (fun p => p.id)).Nodup)
    (hmacs : (db0.macs.map (fun m => m.id)).Nodup) :
    ∀ (entries : List FdbEntry) (ps : PassState), StampRel db0 ps.db →
      (∀ e ∈ entries, entryOk sw db0 e = true) →
      (runEntries sw now ps entries).2 = false ∧
        StampRel db0 (runEntries sw now ps entries).1.db := by
  intro entries
  induction entries with
  | nil => intro ps hrel _; exact ⟨rfl, hrel⟩
  | cons e es ih =>
      intro ps hrel hok
      obtain ⟨hfl, hst⟩ := processEntry_stamp sw now db0 ps e hflush hports hmacs hrel
        (hok e (List.mem_cons_self e es))
      rcases hpe : processEntry sw now ps e with ⟨ps2, raised⟩
      rw [hpe] at hfl hst
      have hr : raised = false := hfl
      subst hr
      simp only [runEntries, hpe]
      exact ih ps2 hst (fun x hx => hok x (List.mem_cons_of_mem e hx))

/-- C3 (amended): re-processing an identical snapshot is idempotent only
up to the state already reflecting it (which the counterexample shows a
run over a two-ports-one-address snapshot does not reach): over a state
where every entry resolves to an existing port whose role update is a
no-op, an existing active MAC row and a current location row on exactly
that (switch, port), with the session flushed and no stale location on
the switch, a full pass of _process_mac_entries raises nothing, appends
no MacHistory event, changes no Port row, allocates no id, and touches
MacLocation rows only in seen_at (plus flush bookkeeping) and MAC rows
only in last_seen.  The state after a successful pass over a snapshot
listing each address on one port has exactly this shape, so the second
of two such runs only refreshes timestamps. -/
theorem c3_reflected_pass_refreshes_timestamps_only
    (sw : SwitchRec) (now : Nat) (db0 : DbState) (entries : List FdbEntry)
    (hflush : ∀ r ∈ db0.locs, r.db = some r.mem)
    (hports : (db0.ports.map (fun p => p.id)).Nodup)
    (hmacs : (db0.macs.map (fun m => m.id)).Nodup)
    (hstale : ∀ r ∈ db0.locs,
      staleHit db0 sw (entries.map (fun e => pyUpper e.mac_address)) r = false)
    (hok : ∀ e ∈ entries, entryOk sw db0 e = true) :
    (processMacEntries sw now db0 entries).2 = false ∧
    (processMacEntries sw now db0 entries).1.db.hist = db0.hist ∧
    (processMacEntries sw now db0 entries).1.db.ports = db0.ports ∧
    (processMacEntries sw now db0 entries).1.db.nextId = db0.nextId ∧
    List.Forall₂ LocStamp db0.locs (processMacEntries sw now db0 entries).1.db.locs ∧
    List.Forall₂ MacStamp db0.macs (processMacEntries sw now db0 entries).1.db.macs := by
  have hclean : staleCleanup sw now entries
      { db := db0, processed := 0, commits := 0, ouisDefined := false } =
      { db := db0, processed := 0, commits := 0, ouisDefined := false } :=
    staleCleanup_noop sw now entries _ hstale
  have hrun := runEntries_stamp sw now db0 hflush hports hmacs entries
      { db := db0, processed := 0, commits := 0, ouisDefined := false }
      (StampRel_refl db0 hflush) hok
  simp only [processMacEntries, hclean]
  rcases hre : runEntries sw now
      { db := db0, processed := 0, commits := 0, ouisDefined := false } entries
    with ⟨psN, raised⟩
  rw [hre] at hrun
  have hr : raised = false := hrun.1
  subst hr
  have hfinal : StampRel db0 (flushState psN.db) := StampRel_flush hrun.2
  obtain ⟨h1, h2, h3, h4, h5⟩ := hfinal
  exact ⟨rfl, h2, h1, h3, h4, h5⟩

def c3wSw : SwitchRec := { id := 1, hostname := "S1", ip_address := "10.0.0.1" }
def c3wPort : PortRow :=
  { id := 11, switch_id := 1, port_name := "GE0/0/1", port_index := 1, vlan_id := 1,
    port_type := "access", is_uplink := false,
    lldp_neighbor_name := none, lldp_neighbor_type := none }
def c3wMac : MacRow :=
  { id := 101, mac_address := "AA:BB:CC:DD:EE:02", vendor_oui := "AABBCCDD",
    first_seen := 0, last_seen := 0, is_active := true }
def c3wLocF : LocFields :=
  { mac_id := 101, switch_id := 1, port_id := 11, vlan_id := 1, seen_at := 0,
    is_current := true }
def c3wDb : DbState :=
  { ports := [c3wPort], macs := [c3wMac],
    locs := [{ id := 1000, mem := c3wLocF, db := some c3wLocF }],
    hist := [], nextId := 2000 }
def c3wEntries : List FdbEntry :=
  [ { mac_address := "AA:BB:CC:DD:EE:02", port_name := "GE0/0/1", port_index := 1,
      vlan_id := 1 } ]

theorem c3_reflected_pass_refreshes_timestamps_only_witness :
    ((∀ r ∈ c3wDb.locs, r.db = some r.mem) ∧
      (c3wDb.ports.map (fun p => p.id)).Nodup ∧
      (c3wDb.macs.map (fun m => m.id)).Nodup ∧
      (∀ r ∈ c3wDb.locs,
        staleHit c3wDb c3wSw (c3wEntries.map (fun e => pyUpper e.mac_address)) r = false) ∧
      (∀ e ∈ c3wEntries, entryOk c3wSw c3wDb e = true)) ∧
    ((processMacEntries c3wSw 7 c3wDb c3wEntries).2 = false ∧
      (processMacEntries c3wSw 7 c3wDb c3wEntries).1.db.hist = c3wDb.hist ∧
      (processMacEntries c3wSw 7 c3wDb c3wEntries).1.db.ports = c3wDb.ports ∧
      (processMacEntries c3wSw 7 c3wDb c3wEntries).1.db.nextId = c3wDb.nextId ∧
      List.Forall₂ LocStamp c3wDb.locs
        (processMacEntries c3wSw 7 c3wDb c3wEntries).1.db.locs ∧
      List.Forall₂ MacStamp c3wDb.macs
        (processMacEntries c3wSw 7 c3wDb c3wEntries).1.db.macs) :=
  ⟨⟨by decide, by decide, by decide, by decide, by decide⟩,
    c3_reflected_pass_refreshes_timestamps_only c3wSw 7 c3wDb c3wEntries
      (by decide) (by decide) (by decide) (by decide) (by decide)⟩


/-! ## C4: the port-merge pass
(backend/app/services/discovery/lldp_discovery.py, _cleanup_duplicate_ports)

This service issues bulk SQL updates that are immediately visible to its
own later queries, and its row deletions concern rows no later query of
the function can select, so its state is modelled with plain rows.
port_index is nullable in the schema; the pass filters it to positive
values, and the model writes the absent value as zero. -/

structure TlRow where
  id : Nat
  local_switch_id : Nat
  local_port_id : Nat
  remote_switch_id : Nat
  remote_port_id : Nat
  deriving Repr, DecidableEq

structure MergeState where
  ports : List PortRow
  locs : List LocFields
  hist : List HistRow
  links : List TlRow
  deriving Repr, DecidableEq

/-- Python truthiness of a nullable text column. -/
def pyTruthyStr : Option String → Bool
  | some s => !(s == "")
  | none => false

/-- MacLocation reference count of one port (count query of the pass). -/
def locCount (locs : List LocFields) (pid : Nat) : Nat :=
  (locs.filter (fun l => l.port_id == pid)).length

/-- The keep-selection loop of the pass (lines 191-203): walk the group,
switching to a port with strictly more location references, or to one
with equally many that carries LLDP neighbor data when the current
choice does not. -/
def selectKeep (locs : List LocFields) : PortRow → List PortRow → PortRow
  | keep, [] => keep
  | keep, p :: rest =>
      if locCount locs p.id > locCount locs keep.id then selectKeep locs p rest
      else if locCount locs p.id == locCount locs keep.id &&
          (pyTruthyStr p.lldp_neighbor_name && !(pyTruthyStr keep.lldp_neighbor_name)) then
        selectKeep locs p rest
      else selectKeep locs keep rest

/-- Merge one duplicate port into the kept port (lines 206-244): transfer
LLDP data when the kept port lacks it, re-point MacLocation, MacHistory
(both port references) and TopologyLink (both sides), then delete the
duplicate (the deletion is applied to the ports list by the caller). -/
def mergeOne (st : MergeState) (keep : PortRow) (p : PortRow) : MergeState × PortRow :=
  let keep' :=
    if pyTruthyStr p.lldp_neighbor_name && !(pyTruthyStr keep.lldp_neighbor_name) then
      { keep with
        lldp_neighbor_name := p.lldp_neighbor_name,
        lldp_neighbor_type := p.lldp_neighbor_type,
        is_uplink := p.is_uplink, port_type := p.port_type }
    else keep
  let st' : MergeState :=
    { st with
      locs := st.locs.map (fun l =>
        if l.port_id == p.id then { l with port_id := keep.id } else l),
      hist := st.hist.map (fun h =>
        let h1 := if h.port_id == p.id then { h with port_id := keep.id } else h
        if h1.previous_port_id == some p.id then
          { h1 with previous_port_id := some keep.id }
        else h1),
      links := st.links.map (fun t =>
        let t1 := if t.local_port_id == p.id then { t with local_port_id := keep.id } else t
        if t1.remote_port_id == p.id then { t1 with remote_port_id := keep.id } else t1) }
  (st', keep')

def groupPred (swid idx : Nat) (p : PortRow) : Bool :=
  p.switch_id == swid && p.port_index == idx

/-- Merge every duplicate of one (switch, ifIndex) group into the
selected port and delete the duplicates. -/
def mergeGroup (st : MergeState) (swid idx : Nat) : MergeState :=
  match st.ports.filter (groupPred swid idx) with
  | [] => st
  | g0 :: grest =>
      let keep := selectKeep st.locs g0 grest
      let dups := (g0 :: grest).filter (fun p => !(p.id == keep.id))
      let folded := dups.foldl (fun acc p => mergeOne acc.1 acc.2 p) (st, keep)
      { folded.1 with
        ports := st.ports.filterMap (fun p =>
          if groupPred swid idx p then
            if p.id == keep.id then some folded.2 else none
          else some p) }

/-- The (switch_id, port_index) pairs with more than one Port row and a
positive index, each listed once. -/
def dupKeys (ports : List PortRow) : List (Nat × Nat) :=
  (((ports.filter (fun p => 0 < p.port_index)).map
      (fun p => (p.switch_id, p.port_index))).dedup).filter
    (fun k => 1 < (ports.filter (groupPred k.1 k.2)).length)

/-- backend/app/services/discovery/lldp_discovery.py,
_cleanup_duplicate_ports. -/
def cleanup_duplicate_ports (st : MergeState) : MergeState :=
  (dupKeys st.ports).foldl (fun acc k => mergeGroup acc k.1 k.2) st


/-! Effect lemmas for the merge pass. -/

/-- Bulk re-pointing of a set of port ids to one id. -/
def natRepoint (ids : List Nat) (kid v : Nat) : Nat :=
  if ids.contains v then kid else v

def repointLoc (ids : List Nat) (kid : Nat) (l : LocFields) : LocFields :=
  { l with port_id := natRepoint ids kid l.port_id }

def repointHist (ids : List Nat) (kid : Nat) (h : HistRow) : HistRow :=
  { h with
    port_id := natRepoint ids kid h.port_id,
    previous_port_id := h.previous_port_id.map (natRepoint ids kid) }

def repointLink (ids : List Nat) (kid : Nat) (t : TlRow) : TlRow :=
  { t with
    local_port_id := natRepoint ids kid t.local_port_id,
    remote_port_id := natRepoint ids kid t.remote_port_id }

theorem selectKeep_spec (locs : List LocFields) (rest : List PortRow) (g0 : PortRow) :
    selectKeep locs g0 rest ∈ g0 :: rest ∧
      (∀ p ∈ g0 :: rest, locCount locs p.id ≤ locCount locs (selectKeep locs g0 rest).id) ∧
      (∀ p ∈ g0 :: rest, locCount locs p.id = locCount locs (selectKeep locs g0 rest).id →
        pyTruthyStr p.lldp_neighbor_name = true →
        pyTruthyStr (selectKeep locs g0 rest).lldp_neighbor_name = true) := by
  induction rest generalizing g0 with
  | nil =>
      refine ⟨List.mem_cons_self _ _, ?_, ?_⟩
      · intro p hp
        have hpg : p = g0 := by simpa using hp
        subst hpg
        exact le_refl _
      · intro p hp hcnt htr
        have hpg : p = g0 := by simpa using hp
        subst hpg
        exact htr
  | cons p rest ih =>
      rcases Nat.lt_or_ge (locCount locs g0.id) (locCount locs p.id) with h1 | h1
      · have hsel : selectKeep locs g0 (p :: rest) = selectKeep locs p rest := by
          simp only [selectKeep]
          rw [if_pos h1]
        rw [hsel]
        obtain ⟨ihmem, ihmax, ihtie⟩ := ih p
        refine ⟨List.mem_cons_of_mem _ ihmem, ?_, ?_⟩
        · intro q hq
          rcases List.mem_cons.mp hq with hqg | hq2
          · rw [hqg]
            exact le_trans (Nat.le_of_lt h1) (ihmax p (List.mem_cons_self _ _))
          · exact ihmax q hq2
        · intro q hq hcnt htr
          rcases List.mem_cons.mp hq with hqg | hq2
          · exfalso
            rw [hqg] at hcnt
            have := ihmax p (List.mem_cons_self _ _)
            omega
          · exact ihtie q hq2 hcnt htr
      · have h1n : ¬ (locCount locs p.id > locCount locs g0.id) := by omega
        by_cases h2 : (locCount locs p.id == locCount locs g0.id &&
            (pyTruthyStr p.lldp_neighbor_name && !(pyTruthyStr g0.lldp_neighbor_name))) = true
        · have hsel : selectKeep locs g0 (p :: rest) = selectKeep locs p rest := by
            simp only [selectKeep]
            rw [if_neg h1n, if_pos h2]
          rw [hsel]
          obtain ⟨ihmem, ihmax, ihtie⟩ := ih p
          have hparts : locCount locs p.id = locCount locs g0.id ∧
              pyTruthyStr p.lldp_neighbor_name = true ∧
              pyTruthyStr g0.lldp_neighbor_name = false := by
            simpa [Bool.and_eq_true, Bool.not_eq_true'] using h2
          obtain ⟨hcq, htrp, htrg⟩ := hparts
          refine ⟨List.mem_cons_of_mem _ ihmem, ?_, ?_⟩
          · intro q hq
            rcases List.mem_cons.mp hq with hqg | hq2
            · rw [hqg]
              have := ihmax p (List.mem_cons_self _ _)
              omega
            · exact ihmax q hq2
          · intro q hq hcnt htr
            rcases List.mem_cons.mp hq with hqg | hq2
            · rw [hqg, htrg] at htr
              cases htr
            · exact ihtie q hq2 hcnt htr
        · have hsel : selectKeep locs g0 (p :: rest) = selectKeep locs g0 rest := by
            simp only [selectKeep]
            rw [if_neg h1n, if_neg h2]
          rw [hsel]
          obtain ⟨ihmem, ihmax, ihtie⟩ := ih g0
          refine ⟨?_, ?_, ?_⟩
          · rcases List.mem_cons.mp ihmem with hm | hm
            · rw [hm]
              exact List.mem_cons_self _ _
            · exact List.mem_cons_of_mem _ (List.mem_cons_of_mem _ hm)
          · intro q hq
            rcases List.mem_cons.mp hq with hqg | hq2
            · rw [hqg]
              exact ihmax g0 (List.mem_cons_self _ _)
            · rcases List.mem_cons.mp hq2 with hqp | hq3
              · rw [hqp]
                have := ihmax g0 (List.mem_cons_self _ _)
                omega
              · exact ihmax q (List.mem_cons_of_mem _ hq3)
          · intro q hq hcnt htr
            rcases List.mem_cons.mp hq with hqg | hq2
            · rw [hqg] at hcnt htr
              exact ihtie g0 (List.mem_cons_self _ _) hcnt htr
            · rcases List.mem_cons.mp hq2 with hqp | hq3
              · rw [hqp] at hcnt htr
                have hg0max := ihmax g0 (List.mem_cons_self _ _)
                have hcpg : locCount locs p.id = locCount locs g0.id := by omega
                have hcg : locCount locs g0.id =
                    locCount locs (selectKeep locs g0 rest).id := by omega
                have htrg : pyTruthyStr g0.lldp_neighbor_name = true := by
                  cases hg : pyTruthyStr g0.lldp_neighbor_name with
                  | false => exact absurd (by simp [hcpg, htr, hg]) h2
                  | true => rfl
                exact ihtie g0 (List.mem_cons_self _ _) hcg htrg
              · exact ihtie q (List.mem_cons_of_mem _ hq3) hcnt htr


theorem contains_mem_false {ids : List Nat} {k : Nat} (hk : k ∉ ids) :
    ids.contains k = false := by
  simpa using hk

theorem repointLoc_nil (kid : Nat) (l : LocFields) : repointLoc [] kid l = l := rfl

theorem repointHist_nil (kid : Nat) (h : HistRow) : repointHist [] kid h = h := by
  cases hprev : h.previous_port_id <;> simp [repointHist, natRepoint, hprev] <;>
    (rw [← hprev])

theorem repointLink_nil (kid : Nat) (t : TlRow) : repointLink [] kid t = t := rfl

theorem mergeOne_fst_ports (st : MergeState) (keep p : PortRow) :
    (mergeOne st keep p).1.ports = st.ports := rfl

theorem mergeOne_fst_locs (st : MergeState) (keep p : PortRow) :
    (mergeOne st keep p).1.locs = st.locs.map (fun l =>
      if l.port_id == p.id then { l with port_id := keep.id } else l) := rfl

theorem mergeOne_fst_hist (st : MergeState) (keep p : PortRow) :
    (mergeOne st keep p).1.hist = st.hist.map (fun h =>
      let h1 := if h.port_id == p.id then { h with port_id := keep.id } else h
      if h1.previous_port_id == some p.id then
        { h1 with previous_port_id := some keep.id }
      else h1) := rfl

theorem mergeOne_fst_links (st : MergeState) (keep p : PortRow) :
    (mergeOne st keep p).1.links = st.links.map (fun t =>
      let t1 := if t.local_port_id == p.id then { t with local_port_id := keep.id } else t
      if t1.remote_port_id == p.id then { t1 with remote_port_id := keep.id } else t1) := rfl

theorem mergeOne_snd_key (st : MergeState) (keep p : PortRow) :
    (mergeOne st keep p).2.id = keep.id ∧
      (mergeOne st keep p).2.switch_id = keep.switch_id ∧
      (mergeOne st keep p).2.port_index = keep.port_index := by
  cases htr : (pyTruthyStr p.lldp_neighbor_name && !(pyTruthyStr keep.lldp_neighbor_name)) <;>
    simp [mergeOne, htr]

theorem natRepoint_step (pid kid : Nat) (ids : List Nat) (v : Nat) :
    natRepoint ids kid (if v == pid then kid else v) = natRepoint (pid :: ids) kid v := by
  by_cases hp : v = pid <;> simp [natRepoint, hp, List.contains_cons]

theorem repointLoc_step (pid kid : Nat) (ids : List Nat) (l : LocFields) :
    repointLoc ids kid (if l.port_id == pid then { l with port_id := kid } else l)
      = repointLoc (pid :: ids) kid l := by
  by_cases hp : l.port_id = pid <;> simp [repointLoc, natRepoint, hp, List.contains_cons]

theorem repointHist_step (pid kid : Nat) (ids : List Nat) (h : HistRow) :
    repointHist ids kid (
      let h1 := if h.port_id == pid then { h with port_id := kid } else h
      if h1.previous_port_id == some pid then
        { h1 with previous_port_id := some kid }
      else h1)
      = repointHist (pid :: ids) kid h := by
  cases hprev : h.previous_port_id with
  | none =>
      by_cases hp : h.port_id = pid <;>
        simp [repointHist, natRepoint, hprev, hp, List.contains_cons]
  | some x =>
      by_cases hp : h.port_id = pid <;> by_cases hx : x = pid <;>
        simp [repointHist, natRepoint, hprev, hp, hx, List.contains_cons]

theorem repointLink_step (pid kid : Nat) (ids : List Nat) (t : TlRow) :
    repointLink ids kid (
      let t1 := if t.local_port_id == pid then { t with local_port_id := kid } else t
      if t1.remote_port_id == pid then { t1 with remote_port_id := kid } else t1)
      = repointLink (pid :: ids) kid t := by
  by_cases h1 : t.local_port_id = pid <;> by_cases h2 : t.remote_port_id = pid <;>
    simp [repointLink, natRepoint, h1, h2, List.contains_cons]

theorem foldMerge_effect (dups : List PortRow) (st : MergeState) (keep : PortRow) :
    (dups.foldl (fun acc p => mergeOne acc.1 acc.2 p) (st, keep)).1.ports = st.ports ∧
      (dups.foldl (fun acc p => mergeOne acc.1 acc.2 p) (st, keep)).1.locs
        = st.locs.map (repointLoc (dups.map (fun p => p.id)) keep.id) ∧
      (dups.foldl (fun acc p => mergeOne acc.1 acc.2 p) (st, keep)).1.hist
        = st.hist.map (repointHist (dups.map (fun p => p.id)) keep.id) ∧
      (dups.foldl (fun acc p => mergeOne acc.1 acc.2 p) (st, keep)).1.links
        = st.links.map (repointLink (dups.map (fun p => p.id)) keep.id) ∧
      (dups.foldl (fun acc p => mergeOne acc.1 acc.2 p) (st, keep)).2.id = keep.id ∧
      (dups.foldl (fun acc p => mergeOne acc.1 acc.2 p) (st, keep)).2.switch_id
        = keep.switch_id ∧
      (dups.foldl (fun acc p => mergeOne acc.1 acc.2 p) (st, keep)).2.port_index
        = keep.port_index := by
  induction dups generalizing st keep with
  | nil =>
      refine ⟨rfl, ?_, ?_, ?_, rfl, rfl, rfl⟩
      · exact ((List.map_congr_left (fun a _ => repointLoc_nil _ a)).trans
          (List.map_id _)).symm
      · exact ((List.map_congr_left (fun a _ => repointHist_nil _ a)).trans
          (List.map_id _)).symm
      · exact ((List.map_congr_left (fun a _ => repointLink_nil _ a)).trans
          (List.map_id _)).symm
  | cons p dups ih =>
      obtain ⟨ihp, ihl, ihh, ihk, ihid, ihsw, ihix⟩ :=
        ih (mergeOne st keep p).1 (mergeOne st keep p).2
      refine ⟨?_, ?_, ?_, ?_, ?_, ?_, ?_⟩
      · rw [List.foldl_cons]
        exact ihp.trans (mergeOne_fst_ports st keep p)
      · rw [List.foldl_cons, ihl, (mergeOne_snd_key st keep p).1, mergeOne_fst_locs,
          List.map_map, List.map_cons]
        apply List.map_congr_left
        intro l _
        exact repointLoc_step p.id keep.id (dups.map (fun q => q.id)) l
      · rw [List.foldl_cons, ihh, (mergeOne_snd_key st keep p).1, mergeOne_fst_hist,
          List.map_map, List.map_cons]
        apply List.map_congr_left
        intro h _
        exact repointHist_step p.id keep.id (dups.map (fun q => q.id)) h
      · rw [List.foldl_cons, ihk, (mergeOne_snd_key st keep p).1, mergeOne_fst_links,
          List.map_map, List.map_cons]
        apply List.map_congr_left
        intro t _
        exact repointLink_step p.id keep.id (dups.map (fun q => q.id)) t
      · rw [List.foldl_cons]
        exact ihid.trans (mergeOne_snd_key st keep p).1
      · rw [List.foldl_cons]
        exact ihsw.trans (mergeOne_snd_key st keep p).2.1
      · rw [List.foldl_cons]
        exact ihix.trans (mergeOne_snd_key st keep p).2.2


/-- Ids of the Port rows of one (switch, ifIndex) duplicate group. -/
def groupIds (st : MergeState) (swid idx : Nat) : List Nat :=
  (st.ports.filter (groupPred swid idx)).map (fun p => p.id)

/-- A MacLocation row changed at most in its port reference. -/
def stripLoc (l l2 : LocFields) : Prop :=
  ∃ v, l2 = { l with port_id := v }

/-- A MacHistory row changed at most in its two port references. -/
def stripHist (h h2 : HistRow) : Prop :=
  ∃ v w, h2 = { h with port_id := v, previous_port_id := w }

/-- A TopologyLink row changed at most in its two port references. -/
def stripLink (t t2 : TlRow) : Prop :=
  ∃ v w, t2 = { t with local_port_id := v, remote_port_id := w }

/-- Row relation before the group of interest is merged: references into
the group are untouched. -/
def R1loc (gids : List Nat) (l l2 : LocFields) : Prop :=
  stripLoc l l2 ∧ (l.port_id ∈ gids → l2.port_id = l.port_id)

def R1hist (gids : List Nat) (h h2 : HistRow) : Prop :=
  stripHist h h2 ∧ (h.port_id ∈ gids → h2.port_id = h.port_id) ∧
    (∀ x, h.previous_port_id = some x → x ∈ gids → h2.previous_port_id = some x)

def R1link (gids : List Nat) (t t2 : TlRow) : Prop :=
  stripLink t t2 ∧ (t.local_port_id ∈ gids → t2.local_port_id = t.local_port_id) ∧
    (t.remote_port_id ∈ gids → t2.remote_port_id = t.remote_port_id)

/-- Row relation once the group of interest has been merged: references
into the group point at the survivor. -/
def R2loc (gids : List Nat) (sid : Nat) (l l2 : LocFields) : Prop :=
  stripLoc l l2 ∧ (l.port_id ∈ gids → l2.port_id = sid)

def R2hist (gids : List Nat) (sid : Nat) (h h2 : HistRow) : Prop :=
  stripHist h h2 ∧ (h.port_id ∈ gids → h2.port_id = sid) ∧
    (∀ x, h.previous_port_id = some x → x ∈ gids → h2.previous_port_id = some sid)

def R2link (gids : List Nat) (sid : Nat) (t t2 : TlRow) : Prop :=
  stripLink t t2 ∧ (t.local_port_id ∈ gids → t2.local_port_id = sid) ∧
    (t.remote_port_id ∈ gids → t2.remote_port_id = sid)

theorem groupPred_eq {swid idx : Nat} {p : PortRow} (h : groupPred swid idx p = true) :
    p.switch_id = swid ∧ p.port_index = idx := by
  simpa [groupPred, Bool.and_eq_true] using h

theorem groupPred_disjoint {swid idx swid2 idx2 : Nat} {p : PortRow}
    (hne : ¬(swid2 = swid ∧ idx2 = idx))
    (h1 : groupPred swid idx p = true) (h2 : groupPred swid2 idx2 p = true) : False := by
  obtain ⟨ha1, ha2⟩ := groupPred_eq h1
  obtain ⟨hb1, hb2⟩ := groupPred_eq h2
  exact hne ⟨hb1 ▸ ha1.symm ▸ rfl, hb2 ▸ ha2.symm ▸ rfl⟩

theorem filterMap_ids_sublist (f : PortRow → Option PortRow)
    (hf : ∀ a q, f a = some q → q.id = a.id) (l : List PortRow) :
    ((l.filterMap f).map (fun p => p.id)).Sublist (l.map (fun p => p.id)) := by
  induction l with
  | nil => exact List.Sublist.refl _
  | cons a l ih =>
      cases hfa : f a with
      | none =>
          simp only [List.filterMap_cons, hfa, List.map_cons]
          exact ih.cons _
      | some q =>
          simp only [List.filterMap_cons, hfa, List.map_cons, hf a q hfa]
          exact ih.cons₂ _

theorem mem_group_filterMap {swid idx keepId : Nat} {s : PortRow} {l : List PortRow}
    {q : PortRow} (hsid : s.id = keepId)
    (hq : q ∈ l.filterMap (fun p => if groupPred swid idx p then
      (if p.id == keepId then some s else none) else some p)) :
    ∃ p0, p0 ∈ l ∧ q.id = p0.id ∧ (groupPred swid idx p0 = true → p0.id = keepId) := by
  obtain ⟨a, ha, hfa⟩ := List.mem_filterMap.mp hq
  by_cases hpa : groupPred swid idx a = true
  · by_cases hida : a.id = keepId
    · rw [if_pos hpa, if_pos (by simpa using hida)] at hfa
      refine ⟨a, ha, ?_, fun _ => hida⟩
      rw [← Option.some_inj.mp hfa, hsid, hida]
    · rw [if_pos hpa, if_neg (by simpa using hida)] at hfa
      cases hfa
  · rw [if_neg hpa] at hfa
    exact ⟨a, ha, by rw [← Option.some_inj.mp hfa], fun h => absurd h hpa⟩

theorem filter_group_filterMap_none (swid idx keepId : Nat) (s : PortRow)
    (l : List PortRow)
    (hnone : ∀ p ∈ l, ¬(groupPred swid idx p = true ∧ p.id = keepId)) :
    (l.filterMap (fun p => if groupPred swid idx p then
        (if p.id == keepId then some s else none) else some p)).filter
      (groupPred swid idx) = [] := by
  induction l with
  | nil => rfl
  | cons a l ih =>
      have hih := ih (fun p hp => hnone p (List.mem_cons_of_mem _ hp))
      by_cases hpa : groupPred swid idx a = true
      · have hne : ¬(a.id = keepId) := fun h => hnone a (List.mem_cons_self _ _) ⟨hpa, h⟩
        simpa [List.filterMap_cons, hpa, hne] using hih
      · simpa [List.filterMap_cons, hpa, List.filter_cons, hpa] using hih

theorem filter_group_filterMap (swid idx keepId : Nat) (s : PortRow)
    (hs : groupPred swid idx s = true) (hsid : s.id = keepId) (l : List PortRow)
    (hnd : (l.map (fun p => p.id)).Nodup)
    (hex : ∃ k, k ∈ l ∧ groupPred swid idx k = true ∧ k.id = keepId) :
    (l.filterMap (fun p => if groupPred swid idx p then
        (if p.id == keepId then some s else none) else some p)).filter
      (groupPred swid idx) = [s] := by
  induction l with
  | nil =>
      obtain ⟨k, hk, _⟩ := hex
      cases hk
  | cons a l ih =>
      rw [List.map_cons] at hnd
      have hnd2 := (List.nodup_cons.mp hnd).2
      have hmemid := (List.nodup_cons.mp hnd).1
      by_cases hpa : groupPred swid idx a = true
      · by_cases hida : a.id = keepId
        · have hrest : ∀ p ∈ l, ¬(groupPred swid idx p = true ∧ p.id = keepId) := by
            rintro p hp ⟨hpp, hpid⟩
            exact hmemid (by
              rw [hida, ← hpid]
              exact List.mem_map_of_mem _ hp)
          have htail := filter_group_filterMap_none swid idx keepId s l hrest
          simpa [List.filterMap_cons, hpa, hida, List.filter_cons, hs] using htail
        · have hex2 : ∃ k, k ∈ l ∧ groupPred swid idx k = true ∧ k.id = keepId := by
            obtain ⟨k, hk, hkp, hkid⟩ := hex
            rcases List.mem_cons.mp hk with hka | hk2
            · exact absurd (hka ▸ hkid) hida
            · exact ⟨k, hk2, hkp, hkid⟩
          simpa [List.filterMap_cons, hpa, hida] using ih hnd2 hex2
      · have hex2 : ∃ k, k ∈ l ∧ groupPred swid idx k = true ∧ k.id = keepId := by
          obtain ⟨k, hk, hkp, hkid⟩ := hex
          rcases List.mem_cons.mp hk with hka | hk2
          · exact absurd (hka ▸ hkp) hpa
          · exact ⟨k, hk2, hkp, hkid⟩
        simpa [List.filterMap_cons, hpa, List.filter_cons] using ih hnd2 hex2

theorem filter_group_filterMap_other (swid idx swid2 idx2 keepId2 : Nat) (s2 : PortRow)
    (hne : ¬(swid2 = swid ∧ idx2 = idx)) (hs2 : groupPred swid2 idx2 s2 = true)
    (l : List PortRow) :
    (l.filterMap (fun p => if groupPred swid2 idx2 p then
        (if p.id == keepId2 then some s2 else none) else some p)).filter
      (groupPred swid idx) = l.filter (groupPred swid idx) := by
  have hnps2 : ¬(groupPred swid idx s2 = true) := fun h =>
    groupPred_disjoint hne h hs2
  induction l with
  | nil => rfl
  | cons a l ih =>
      by_cases hp2 : groupPred swid2 idx2 a = true
      · have hnpa : ¬(groupPred swid idx a = true) := fun h =>
          groupPred_disjoint hne h hp2
        by_cases hida : (a.id == keepId2) = true
        · rw [List.filterMap_cons_some (by rw [if_pos hp2, if_pos hida]),
            List.filter_cons, List.filter_cons, if_neg hnps2, if_neg hnpa]
          exact ih
        · rw [List.filterMap_cons_none (by rw [if_pos hp2, if_neg hida]),
            List.filter_cons, if_neg hnpa]
          exact ih
      · rw [List.filterMap_cons_some (by rw [if_neg hp2]),
          List.filter_cons, List.filter_cons]
        by_cases hpa : groupPred swid idx a = true
        · rw [if_pos hpa, if_pos hpa, ih]
        · rw [if_neg hpa, if_neg hpa]
          exact ih

theorem locCount_map_repoint (L : List LocFields) (A : List Nat) (b pid : Nat)
    (hA : pid ∉ A) (hb : b ≠ pid) :
    locCount (L.map (repointLoc A b)) pid = locCount L pid := by
  induction L with
  | nil => rfl
  | cons l L ih =>
      have hrow : ((repointLoc A b l).port_id == pid) = (l.port_id == pid) := by
        by_cases hin : l.port_id ∈ A
        · have h1 : l.port_id ≠ pid := fun h => hA (h ▸ hin)
          simp [repointLoc, natRepoint, hin, hb, h1]
        · simp [repointLoc, natRepoint, hin]
      by_cases hc2 : (l.port_id == pid) = true
      · simp only [List.map_cons, locCount, List.filter_cons, hrow, hc2, if_pos]
        simpa [locCount] using ih
      · simp only [List.map_cons, locCount, List.filter_cons, hrow, hc2]
        simpa [locCount] using ih


theorem natRepoint_not_mem {A : List Nat} {b v : Nat} (h : v ∉ A) :
    natRepoint A b v = v := by
  unfold natRepoint
  rw [contains_mem_false h]
  simp

theorem natRepoint_mem {A : List Nat} {b v : Nat} (h : v ∈ A) :
    natRepoint A b v = b := by
  unfold natRepoint
  rw [(by simpa using h : A.contains v = true)]
  simp

theorem natRepoint_self (A : List Nat) (b : Nat) : natRepoint A b b = b := by
  unfold natRepoint
  exact ite_self b

theorem R1loc_pres {gids A : List Nat} {b : Nat} (hA : ∀ x ∈ A, x ∉ gids)
    {l l2 : LocFields} (h : R1loc gids l l2) : R1loc gids l (repointLoc A b l2) := by
  obtain ⟨⟨v, hv⟩, hin⟩ := h
  subst hv
  refine ⟨⟨natRepoint A b v, rfl⟩, ?_⟩
  intro hg
  have hv2 : v = l.port_id := hin hg
  show natRepoint A b v = l.port_id
  rw [hv2]
  exact natRepoint_not_mem (fun hmem => hA _ hmem hg)

theorem R1loc_to_R2 {gids dupIds : List Nat} {kid : Nat}
    (hpart : ∀ x ∈ gids, x ∈ dupIds ∨ x = kid)
    {l l2 : LocFields} (h : R1loc gids l l2) :
    R2loc gids kid l (repointLoc dupIds kid l2) := by
  obtain ⟨⟨v, hv⟩, hin⟩ := h
  subst hv
  refine ⟨⟨natRepoint dupIds kid v, rfl⟩, ?_⟩
  intro hg
  have hv2 : v = l.port_id := hin hg
  show natRepoint dupIds kid v = kid
  rw [hv2]
  rcases hpart _ hg with hmem | heq
  · exact natRepoint_mem hmem
  · rw [heq]
    exact natRepoint_self _ _

theorem R2loc_pres {gids A : List Nat} {b sid : Nat} (hsA : sid ∉ A)
    {l l2 : LocFields} (h : R2loc gids sid l l2) : R2loc gids sid l (repointLoc A b l2) := by
  obtain ⟨⟨v, hv⟩, hin⟩ := h
  subst hv
  refine ⟨⟨natRepoint A b v, rfl⟩, ?_⟩
  intro hg
  have hv2 : v = sid := hin hg
  show natRepoint A b v = sid
  rw [hv2]
  exact natRepoint_not_mem hsA

theorem R1hist_pres {gids A : List Nat} {b : Nat} (hA : ∀ x ∈ A, x ∉ gids)
    {h h2 : HistRow} (hr : R1hist gids h h2) : R1hist gids h (repointHist A b h2) := by
  obtain ⟨⟨v, w, hv⟩, hin, hprev⟩ := hr
  subst hv
  refine ⟨⟨natRepoint A b v, w.map (natRepoint A b), rfl⟩, ?_, ?_⟩
  · intro hg
    have hv2 : v = h.port_id := hin hg
    show natRepoint A b v = h.port_id
    rw [hv2]
    exact natRepoint_not_mem (fun hmem => hA _ hmem hg)
  · intro x hx hg
    have hw : w = some x := hprev x hx hg
    show w.map (natRepoint A b) = some x
    rw [hw]
    show some (natRepoint A b x) = some x
    rw [natRepoint_not_mem (fun hmem => hA _ hmem hg)]

theorem R1hist_to_R2 {gids dupIds : List Nat} {kid : Nat}
    (hpart : ∀ x ∈ gids, x ∈ dupIds ∨ x = kid)
    {h h2 : HistRow} (hr : R1hist gids h h2) :
    R2hist gids kid h (repointHist dupIds kid h2) := by
  obtain ⟨⟨v, w, hv⟩, hin, hprev⟩ := hr
  subst hv
  refine ⟨⟨natRepoint dupIds kid v, w.map (natRepoint dupIds kid), rfl⟩, ?_, ?_⟩
  · intro hg
    have hv2 : v = h.port_id := hin hg
    show natRepoint dupIds kid v = kid
    rw [hv2]
    rcases hpart _ hg with hmem | heq
    · exact natRepoint_mem hmem
    · rw [heq]
      exact natRepoint_self _ _
  · intro x hx hg
    have hw : w = some x := hprev x hx hg
    show w.map (natRepoint dupIds kid) = some kid
    rw [hw]
    show some (natRepoint dupIds kid x) = some kid
    rcases hpart _ hg with hmem | heq
    · rw [natRepoint_mem hmem]
    · rw [heq, natRepoint_self]

theorem R2hist_pres {gids A : List Nat} {b sid : Nat} (hsA : sid ∉ A)
    {h h2 : HistRow} (hr : R2hist gids sid h h2) :
    R2hist gids sid h (repointHist A b h2) := by
  obtain ⟨⟨v, w, hv⟩, hin, hprev⟩ := hr
  subst hv
  refine ⟨⟨natRepoint A b v, w.map (natRepoint A b), rfl⟩, ?_, ?_⟩
  · intro hg
    have hv2 : v = sid := hin hg
    show natRepoint A b v = sid
    rw [hv2]
    exact natRepoint_not_mem hsA
  · intro x hx hg
    have hw : w = some sid := hprev x hx hg
    show w.map (natRepoint A b) = some sid
    rw [hw]
    show some (natRepoint A b sid) = some sid
    rw [natRepoint_not_mem hsA]

theorem R1link_pres {gids A : List Nat} {b : Nat} (hA : ∀ x ∈ A, x ∉ gids)
    {t t2 : TlRow} (hr : R1link gids t t2) : R1link gids t (repointLink A b t2) := by
  obtain ⟨⟨v, w, hv⟩, hloc, hrem⟩ := hr
  subst hv
  refine ⟨⟨natRepoint A b v, natRepoint A b w, rfl⟩, ?_, ?_⟩
  · intro hg
    have hv2 : v = t.local_port_id := hloc hg
    show natRepoint A b v = t.local_port_id
    rw [hv2]
    exact natRepoint_not_mem (fun hmem => hA _ hmem hg)
  · intro hg
    have hv2 : w = t.remote_port_id := hrem hg
    show natRepoint A b w = t.remote_port_id
    rw [hv2]
    exact natRepoint_not_mem (fun hmem => hA _ hmem hg)

theorem R1link_to_R2 {gids dupIds : List Nat} {kid : Nat}
    (hpart : ∀ x ∈ gids, x ∈ dupIds ∨ x = kid)
    {t t2 : TlRow} (hr : R1link gids t t2) :
    R2link gids kid t (repointLink dupIds kid t2) := by
  obtain ⟨⟨v, w, hv⟩, hloc, hrem⟩ := hr
  subst hv
  refine ⟨⟨natRepoint dupIds kid v, natRepoint dupIds kid w, rfl⟩, ?_, ?_⟩
  · intro hg
    have hv2 : v = t.local_port_id := hloc hg
    show natRepoint dupIds kid v = kid
    rw [hv2]
    rcases hpart _ hg with hmem | heq
    · exact natRepoint_mem hmem
    · rw [heq]
      exact natRepoint_self _ _
  · intro hg
    have hv2 : w = t.remote_port_id := hrem hg
    show natRepoint dupIds kid w = kid
    rw [hv2]
    rcases hpart _ hg with hmem | heq
    · exact natRepoint_mem hmem
    · rw [heq]
      exact natRepoint_self _ _

theorem R2link_pres {gids A : List Nat} {b sid : Nat} (hsA : sid ∉ A)
    {t t2 : TlRow} (hr : R2link gids sid t t2) :
    R2link gids sid t (repointLink A b t2) := by
  obtain ⟨⟨v, w, hv⟩, hloc, hrem⟩ := hr
  subst hv
  refine ⟨⟨natRepoint A b v, natRepoint A b w, rfl⟩, ?_, ?_⟩
  · intro hg
    have hv2 : v = sid := hloc hg
    show natRepoint A b v = sid
    rw [hv2]
    exact natRepoint_not_mem hsA
  · intro hg
    have hv2 : w = sid := hrem hg
    show natRepoint A b w = sid
    rw [hv2]
    exact natRepoint_not_mem hsA


theorem mergeGroup_effect (st : MergeState) (swid idx : Nat) (g0 : PortRow)
    (grest : List PortRow)
    (hg : st.ports.filter (groupPred swid idx) = g0 :: grest) :
    ∃ s : PortRow,
      s.id = (selectKeep st.locs g0 grest).id ∧
      s.switch_id = (selectKeep st.locs g0 grest).switch_id ∧
      s.port_index = (selectKeep st.locs g0 grest).port_index ∧
      (mergeGroup st swid idx).ports = st.ports.filterMap (fun p =>
        if groupPred swid idx p then
          (if p.id == (selectKeep st.locs g0 grest).id then some s else none)
        else some p) ∧
      (mergeGroup st swid idx).locs = st.locs.map
        (repointLoc (((g0 :: grest).filter
            (fun p => !(p.id == (selectKeep st.locs g0 grest).id))).map (fun p => p.id))
          (selectKeep st.locs g0 grest).id) ∧
      (mergeGroup st swid idx).hist = st.hist.map
        (repointHist (((g0 :: grest).filter
            (fun p => !(p.id == (selectKeep st.locs g0 grest).id))).map (fun p => p.id))
          (selectKeep st.locs g0 grest).id) ∧
      (mergeGroup st swid idx).links = st.links.map
        (repointLink (((g0 :: grest).filter
            (fun p => !(p.id == (selectKeep st.locs g0 grest).id))).map (fun p => p.id))
          (selectKeep st.locs g0 grest).id) := by
  obtain ⟨hfp, hfl, hfh, hfk, hfid, hfsw, hfix⟩ :=
    foldMerge_effect ((g0 :: grest).filter
        (fun p => !(p.id == (selectKeep st.locs g0 grest).id)))
      st (selectKeep st.locs g0 grest)
  have hmg : mergeGroup st swid idx =
      { (((g0 :: grest).filter
            (fun p => !(p.id == (selectKeep st.locs g0 grest).id))).foldl
          (fun acc p => mergeOne acc.1 acc.2 p) (st, selectKeep st.locs g0 grest)).1 with
        ports := st.ports.filterMap (fun p =>
          if groupPred swid idx p then
            (if p.id == (selectKeep st.locs g0 grest).id then
              some ((((g0 :: grest).filter
                  (fun p => !(p.id == (selectKeep st.locs g0 grest).id))).foldl
                (fun acc p => mergeOne acc.1 acc.2 p) (st, selectKeep st.locs g0 grest)).2)
            else none)
          else some p) } := by
    unfold mergeGroup
    rw [hg]
  refine ⟨(((g0 :: grest).filter
      (fun p => !(p.id == (selectKeep st.locs g0 grest).id))).foldl
    (fun acc p => mergeOne acc.1 acc.2 p) (st, selectKeep st.locs g0 grest)).2,
    hfid, hfsw, hfix, ?_, ?_, ?_, ?_⟩
  · rw [hmg]
  · rw [hmg]
    exact hfl
  · rw [hmg]
    exact hfh
  · rw [hmg]
    exact hfk


theorem group_ids_avoid (st acc : MergeState) (swid idx k1 k2 : Nat)
    (hne : ¬(k1 = swid ∧ k2 = idx))
    (ha : acc.ports.filter (groupPred swid idx) = st.ports.filter (groupPred swid idx))
    (hb : (acc.ports.map (fun p => p.id)).Nodup)
    {d : PortRow} (hd : d ∈ acc.ports) (hdp : groupPred k1 k2 d = true) :
    d.id ∉ groupIds st swid idx := by
  intro hmem
  simp only [groupIds] at hmem
  obtain ⟨gm, hgm, hgmid⟩ := List.mem_map.mp hmem
  rw [← ha] at hgm
  obtain ⟨hgma, hgmp⟩ := List.mem_filter.mp hgm
  have heq : gm = d := List.inj_on_of_nodup_map hb hgma hd hgmid
  rw [heq] at hgmp
  exact groupPred_disjoint hne hgmp hdp

theorem mergeGroup_other (st acc : MergeState) (swid idx k1 k2 : Nat)
    (hne : ¬(k1 = swid ∧ k2 = idx))
    (ha : acc.ports.filter (groupPred swid idx) = st.ports.filter (groupPred swid idx))
    (hb : (acc.ports.map (fun p => p.id)).Nodup)
    (he : ∀ pid ∈ groupIds st swid idx, locCount acc.locs pid = locCount st.locs pid)
    (hl : List.Forall₂ (R1loc (groupIds st swid idx)) st.locs acc.locs)
    (hh : List.Forall₂ (R1hist (groupIds st swid idx)) st.hist acc.hist)
    (ht : List.Forall₂ (R1link (groupIds st swid idx)) st.links acc.links) :
    (mergeGroup acc k1 k2).ports.filter (groupPred swid idx)
        = st.ports.filter (groupPred swid idx) ∧
      ((mergeGroup acc k1 k2).ports.map (fun p => p.id)).Nodup ∧
      (∀ pid ∈ groupIds st swid idx,
        locCount (mergeGroup acc k1 k2).locs pid = locCount st.locs pid) ∧
      List.Forall₂ (R1loc (groupIds st swid idx)) st.locs (mergeGroup acc k1 k2).locs ∧
      List.Forall₂ (R1hist (groupIds st swid idx)) st.hist (mergeGroup acc k1 k2).hist ∧
      List.Forall₂ (R1link (groupIds st swid idx)) st.links (mergeGroup acc k1 k2).links := by
  cases hgg : acc.ports.filter (groupPred k1 k2) with
  | nil =>
      have hid : mergeGroup acc k1 k2 = acc := by
        unfold mergeGroup
        rw [hgg]
      rw [hid]
      exact ⟨ha, hb, he, hl, hh, ht⟩
  | cons g0 grest =>
      obtain ⟨s2, hsid, hssw, hsix, hport, hlocs, hhist, hlinks⟩ :=
        mergeGroup_effect acc k1 k2 g0 grest hgg
      have hkeepmem : selectKeep acc.locs g0 grest ∈ g0 :: grest :=
        (selectKeep_spec acc.locs grest g0).1
      have hkeepacc : selectKeep acc.locs g0 grest ∈ acc.ports ∧
          groupPred k1 k2 (selectKeep acc.locs g0 grest) = true := by
        have hmem := hkeepmem
        rw [← hgg] at hmem
        exact List.mem_filter.mp hmem
      have hAg : ∀ x ∈ ((g0 :: grest).filter
          (fun p => !(p.id == (selectKeep acc.locs g0 grest).id))).map (fun p => p.id),
          x ∉ groupIds st swid idx := by
        intro x hx
        obtain ⟨d, hd, hdid⟩ := List.mem_map.mp hx
        have hd2 : d ∈ g0 :: grest := (List.mem_filter.mp hd).1
        rw [← hgg] at hd2
        obtain ⟨hda, hdp⟩ := List.mem_filter.mp hd2
        rw [← hdid]
        exact group_ids_avoid st acc swid idx k1 k2 hne ha hb hda hdp
      have hbg : (selectKeep acc.locs g0 grest).id ∉ groupIds st swid idx :=
        group_ids_avoid st acc swid idx k1 k2 hne ha hb hkeepacc.1 hkeepacc.2
      have hs2p : groupPred k1 k2 s2 = true := by
        have hk := groupPred_eq hkeepacc.2
        simp [groupPred, hssw, hsix, hk.1, hk.2]
      refine ⟨?_, ?_, ?_, ?_, ?_, ?_⟩
      · rw [hport,
          filter_group_filterMap_other swid idx k1 k2
            (selectKeep acc.locs g0 grest).id s2 hne hs2p]
        exact ha
      · rw [hport]
        refine List.Nodup.sublist (filterMap_ids_sublist _ ?_ _) hb
        intro a q hq
        by_cases hpa : groupPred k1 k2 a = true
        · by_cases hqa : (a.id == (selectKeep acc.locs g0 grest).id) = true
          · rw [if_pos hpa, if_pos hqa] at hq
            have hq2 : s2 = q := Option.some_inj.mp hq
            rw [← hq2, hsid]
            exact (by simpa using hqa : a.id = (selectKeep acc.locs g0 grest).id).symm
          · rw [if_pos hpa, if_neg hqa] at hq
            cases hq
        · rw [if_neg hpa] at hq
          rw [← Option.some_inj.mp hq]
      · intro pid hpid
        rw [hlocs,
          locCount_map_repoint acc.locs _ _ pid (fun hmem => hAg pid hmem hpid)
            (fun heq2 => hbg (by rw [heq2]; exact hpid))]
        exact he pid hpid
      · rw [hlocs, List.forall₂_map_right_iff]
        exact hl.imp (fun {a b} hr => R1loc_pres hAg hr)
      · rw [hhist, List.forall₂_map_right_iff]
        exact hh.imp (fun {a b} hr => R1hist_pres hAg hr)
      · rw [hlinks, List.forall₂_map_right_iff]
        exact ht.imp (fun {a b} hr => R1link_pres hAg hr)


theorem mergeGroup_main (st acc : MergeState) (swid idx : Nat)
    (hlen : 2 ≤ (st.ports.filter (groupPred swid idx)).length)
    (ha : acc.ports.filter (groupPred swid idx) = st.ports.filter (groupPred swid idx))
    (hb : (acc.ports.map (fun p => p.id)).Nodup)
    (he : ∀ pid ∈ groupIds st swid idx, locCount acc.locs pid = locCount st.locs pid)
    (hl : List.Forall₂ (R1loc (groupIds st swid idx)) st.locs acc.locs)
    (hh : List.Forall₂ (R1hist (groupIds st swid idx)) st.hist acc.hist)
    (ht : List.Forall₂ (R1link (groupIds st swid idx)) st.links acc.links) :
    ∃ s : PortRow,
      (mergeGroup acc swid idx).ports.filter (groupPred swid idx) = [s] ∧
      ((mergeGroup acc swid idx).ports.map (fun p => p.id)).Nodup ∧
      groupPred swid idx s = true ∧
      (∃ orig, orig ∈ st.ports.filter (groupPred swid idx) ∧ s.id = orig.id ∧
        (∀ p ∈ st.ports.filter (groupPred swid idx),
          locCount st.locs p.id ≤ locCount st.locs orig.id) ∧
        (∀ p ∈ st.ports.filter (groupPred swid idx),
          locCount st.locs p.id = locCount st.locs orig.id →
          pyTruthyStr p.lldp_neighbor_name = true →
          pyTruthyStr orig.lldp_neighbor_name = true)) ∧
      (∀ q ∈ (mergeGroup acc swid idx).ports,
        ∀ p ∈ st.ports.filter (groupPred swid idx), p.id ≠ s.id → q.id ≠ p.id) ∧
      List.Forall₂ (R2loc (groupIds st swid idx) s.id) st.locs
        (mergeGroup acc swid idx).locs ∧
      List.Forall₂ (R2hist (groupIds st swid idx) s.id) st.hist
        (mergeGroup acc swid idx).hist ∧
      List.Forall₂ (R2link (groupIds st swid idx) s.id) st.links
        (mergeGroup acc swid idx).links := by
  cases hG : st.ports.filter (groupPred swid idx) with
  | nil =>
      rw [hG] at hlen
      simp at hlen
  | cons g0 grest =>
      have hgg : acc.ports.filter (groupPred swid idx) = g0 :: grest := by
        rw [ha, hG]
      obtain ⟨s2, hsid, hssw, hsix, hport, hlocs, hhist, hlinks⟩ :=
        mergeGroup_effect acc swid idx g0 grest hgg
      have hspec := selectKeep_spec acc.locs grest g0
      have hkeepmem : selectKeep acc.locs g0 grest ∈ g0 :: grest := hspec.1
      have hkeepacc : selectKeep acc.locs g0 grest ∈ acc.ports ∧
          groupPred swid idx (selectKeep acc.locs g0 grest) = true := by
        have hmem := hkeepmem
        rw [← hgg] at hmem
        exact List.mem_filter.mp hmem
      have hgidsdef : groupIds st swid idx = (g0 :: grest).map (fun p => p.id) := by
        simp only [groupIds, hG]
      have hecnt : ∀ p ∈ g0 :: grest,
          locCount acc.locs p.id = locCount st.locs p.id := by
        intro p hp
        refine he p.id ?_
        rw [hgidsdef]
        exact List.mem_map_of_mem _ hp
      have hmax : ∀ p ∈ g0 :: grest,
          locCount st.locs p.id ≤ locCount st.locs (selectKeep acc.locs g0 grest).id := by
        intro p hp
        have h1 := hspec.2.1 p hp
        rw [hecnt p hp, hecnt _ hkeepmem] at h1
        exact h1
      have htie : ∀ p ∈ g0 :: grest,
          locCount st.locs p.id = locCount st.locs (selectKeep acc.locs g0 grest).id →
          pyTruthyStr p.lldp_neighbor_name = true →
          pyTruthyStr (selectKeep acc.locs g0 grest).lldp_neighbor_name = true := by
        intro p hp hceq htr
        refine hspec.2.2 p hp ?_ htr
        rw [hecnt p hp, hecnt _ hkeepmem]
        exact hceq
      have hs2p : groupPred swid idx s2 = true := by
        have hk := groupPred_eq hkeepacc.2
        simp [groupPred, hssw, hsix, hk.1, hk.2]
      have hfilter : (mergeGroup acc swid idx).ports.filter (groupPred swid idx) = [s2] := by
        rw [hport]
        exact filter_group_filterMap swid idx (selectKeep acc.locs g0 grest).id s2 hs2p
          hsid acc.ports hb ⟨selectKeep acc.locs g0 grest, hkeepacc.1, hkeepacc.2, rfl⟩
      have hnodup : ((mergeGroup acc swid idx).ports.map (fun p => p.id)).Nodup := by
        rw [hport]
        refine List.Nodup.sublist (filterMap_ids_sublist _ ?_ _) hb
        intro a q hq
        by_cases hpa : groupPred swid idx a = true
        · by_cases hqa : (a.id == (selectKeep acc.locs g0 grest).id) = true
          · rw [if_pos hpa, if_pos hqa] at hq
            have hq2 : s2 = q := Option.some_inj.mp hq
            rw [← hq2, hsid]
            exact (by simpa using hqa : a.id = (selectKeep acc.locs g0 grest).id).symm
          · rw [if_pos hpa, if_neg hqa] at hq
            cases hq
        · rw [if_neg hpa] at hq
          rw [← Option.some_inj.mp hq]
      have hdel : ∀ q ∈ (mergeGroup acc swid idx).ports,
          ∀ p ∈ g0 :: grest, p.id ≠ s2.id → q.id ≠ p.id := by
        intro q hq p hp hne2 hqp
        rw [hport] at hq
        obtain ⟨p0, hp0acc, hqid, himp⟩ := mem_group_filterMap hsid hq
        have hpacc : p ∈ acc.ports ∧ groupPred swid idx p = true := by
          rw [← hgg] at hp
          exact List.mem_filter.mp hp
        have hp0p : p0 = p :=
          List.inj_on_of_nodup_map hb hp0acc hpacc.1 (by rw [← hqid, hqp])
        rw [hp0p] at himp
        exact hne2 ((himp hpacc.2).trans hsid.symm)
      have hpart : ∀ x ∈ groupIds st swid idx,
          x ∈ (((g0 :: grest).filter
            (fun p => !(p.id == (selectKeep acc.locs g0 grest).id))).map (fun p => p.id)) ∨
            x = (selectKeep acc.locs g0 grest).id := by
        intro x hx
        rw [hgidsdef] at hx
        obtain ⟨gm, hgm, hgmid⟩ := List.mem_map.mp hx
        by_cases hgk : (gm.id == (selectKeep acc.locs g0 grest).id) = true
        · right
          rw [← hgmid]
          exact (by simpa using hgk)
        · left
          rw [← hgmid]
          exact List.mem_map_of_mem _ (List.mem_filter.mpr ⟨hgm, by simpa using hgk⟩)
      refine ⟨s2, hfilter, hnodup, hs2p,
        ⟨selectKeep acc.locs g0 grest, hkeepmem, hsid, hmax, htie⟩, hdel, ?_, ?_, ?_⟩
      · rw [hsid, hlocs, List.forall₂_map_right_iff]
        exact hl.imp (fun {a b} hr => R1loc_to_R2 hpart hr)
      · rw [hsid, hhist, List.forall₂_map_right_iff]
        exact hh.imp (fun {a b} hr => R1hist_to_R2 hpart hr)
      · rw [hsid, hlinks, List.forall₂_map_right_iff]
        exact ht.imp (fun {a b} hr => R1link_to_R2 hpart hr)


theorem mergeGroup_after (st acc : MergeState) (swid idx k1 k2 : Nat) (s : PortRow)
    (hne : ¬(k1 = swid ∧ k2 = idx))
    (ha : acc.ports.filter (groupPred swid idx) = [s])
    (hb : (acc.ports.map (fun p => p.id)).Nodup)
    (hd : ∀ q ∈ acc.ports, ∀ p ∈ st.ports.filter (groupPred swid idx),
      p.id ≠ s.id → q.id ≠ p.id)
    (hl : List.Forall₂ (R2loc (groupIds st swid idx) s.id) st.locs acc.locs)
    (hh : List.Forall₂ (R2hist (groupIds st swid idx) s.id) st.hist acc.hist)
    (ht : List.Forall₂ (R2link (groupIds st swid idx) s.id) st.links acc.links) :
    (mergeGroup acc k1 k2).ports.filter (groupPred swid idx) = [s] ∧
      ((mergeGroup acc k1 k2).ports.map (fun p => p.id)).Nodup ∧
      (∀ q ∈ (mergeGroup acc k1 k2).ports,
        ∀ p ∈ st.ports.filter (groupPred swid idx), p.id ≠ s.id → q.id ≠ p.id) ∧
      List.Forall₂ (R2loc (groupIds st swid idx) s.id) st.locs (mergeGroup acc k1 k2).locs ∧
      List.Forall₂ (R2hist (groupIds st swid idx) s.id) st.hist (mergeGroup acc k1 k2).hist ∧
      List.Forall₂ (R2link (groupIds st swid idx) s.id) st.links
        (mergeGroup acc k1 k2).links := by
  cases hgg : acc.ports.filter (groupPred k1 k2) with
  | nil =>
      have hid : mergeGroup acc k1 k2 = acc := by
        unfold mergeGroup
        rw [hgg]
      rw [hid]
      exact ⟨ha, hb, hd, hl, hh, ht⟩
  | cons g0 grest =>
      obtain ⟨s2, hsid, hssw, hsix, hport, hlocs, hhist, hlinks⟩ :=
        mergeGroup_effect acc k1 k2 g0 grest hgg
      have hkeepmem : selectKeep acc.locs g0 grest ∈ g0 :: grest :=
        (selectKeep_spec acc.locs grest g0).1
      have hkeepacc : selectKeep acc.locs g0 grest ∈ acc.ports ∧
          groupPred k1 k2 (selectKeep acc.locs g0 grest) = true := by
        have hmem := hkeepmem
        rw [← hgg] at hmem
        exact List.mem_filter.mp hmem
      have hsacc : s ∈ acc.ports ∧ groupPred swid idx s = true := by
        have hmem : s ∈ acc.ports.filter (groupPred swid idx) := by
          rw [ha]
          exact List.mem_cons_self _ _
        exact List.mem_filter.mp hmem
      have hsA : s.id ∉ (((g0 :: grest).filter
          (fun p => !(p.id == (selectKeep acc.locs g0 grest).id))).map (fun p => p.id)) := by
        intro hmem
        obtain ⟨d, hdf, hdid⟩ := List.mem_map.mp hmem
        have hd2 : d ∈ g0 :: grest := (List.mem_filter.mp hdf).1
        rw [← hgg] at hd2
        obtain ⟨hda, hdp⟩ := List.mem_filter.mp hd2
        have hds : d = s := List.inj_on_of_nodup_map hb hda hsacc.1 hdid
        rw [hds] at hdp
        exact groupPred_disjoint hne hsacc.2 hdp
      have hs2p : groupPred k1 k2 s2 = true := by
        have hk := groupPred_eq hkeepacc.2
        simp [groupPred, hssw, hsix, hk.1, hk.2]
      refine ⟨?_, ?_, ?_, ?_, ?_, ?_⟩
      · rw [hport,
          filter_group_filterMap_other swid idx k1 k2
            (selectKeep acc.locs g0 grest).id s2 hne hs2p]
        exact ha
      · rw [hport]
        refine List.Nodup.sublist (filterMap_ids_sublist _ ?_ _) hb
        intro a q hq
        by_cases hpa : groupPred k1 k2 a = true
        · by_cases hqa : (a.id == (selectKeep acc.locs g0 grest).id) = true
          · rw [if_pos hpa, if_pos hqa] at hq
            have hq2 : s2 = q := Option.some_inj.mp hq
            rw [← hq2, hsid]
            exact (by simpa using hqa : a.id = (selectKeep acc.locs g0 grest).id).symm
          · rw [if_pos hpa, if_neg hqa] at hq
            cases hq
        · rw [if_neg hpa] at hq
          rw [← Option.some_inj.mp hq]
      · intro q hq p hp hne2 hqp
        rw [hport] at hq
        obtain ⟨p0, hp0acc, hqid, _⟩ := mem_group_filterMap hsid hq
        exact hd p0 hp0acc p hp hne2 (by rw [← hqid, hqp])
      · rw [hlocs, List.forall₂_map_right_iff]
        exact hl.imp (fun {a b} hr => R2loc_pres hsA hr)
      · rw [hhist, List.forall₂_map_right_iff]
        exact hh.imp (fun {a b} hr => R2hist_pres hsA hr)
      · rw [hlinks, List.forall₂_map_right_iff]
        exact ht.imp (fun {a b} hr => R2link_pres hsA hr)


theorem phase1_fold (st : MergeState) (swid idx : Nat) (ks : List (Nat × Nat))
    (hks : ∀ k ∈ ks, ¬(k.1 = swid ∧ k.2 = idx)) (acc : MergeState)
    (ha : acc.ports.filter (groupPred swid idx) = st.ports.filter (groupPred swid idx))
    (hb : (acc.ports.map (fun p => p.id)).Nodup)
    (he : ∀ pid ∈ groupIds st swid idx, locCount acc.locs pid = locCount st.locs pid)
    (hl : List.Forall₂ (R1loc (groupIds st swid idx)) st.locs acc.locs)
    (hh : List.Forall₂ (R1hist (groupIds st swid idx)) st.hist acc.hist)
    (ht : List.Forall₂ (R1link (groupIds st swid idx)) st.links acc.links) :
    (ks.foldl (fun a k => mergeGroup a k.1 k.2) acc).ports.filter (groupPred swid idx)
        = st.ports.filter (groupPred swid idx) ∧
      ((ks.foldl (fun a k => mergeGroup a k.1 k.2) acc).ports.map (fun p => p.id)).Nodup ∧
      (∀ pid ∈ groupIds st swid idx,
        locCount (ks.foldl (fun a k => mergeGroup a k.1 k.2) acc).locs pid
          = locCount st.locs pid) ∧
      List.Forall₂ (R1loc (groupIds st swid idx)) st.locs
        (ks.foldl (fun a k => mergeGroup a k.1 k.2) acc).locs ∧
      List.Forall₂ (R1hist (groupIds st swid idx)) st.hist
        (ks.foldl (fun a k => mergeGroup a k.1 k.2) acc).hist ∧
      List.Forall₂ (R1link (groupIds st swid idx)) st.links
        (ks.foldl (fun a k => mergeGroup a k.1 k.2) acc).links := by
  induction ks generalizing acc with
  | nil => exact ⟨ha, hb, he, hl, hh, ht⟩
  | cons k ks ih =>
      obtain ⟨h1, h2, h3, h4, h5, h6⟩ :=
        mergeGroup_other st acc swid idx k.1 k.2 (hks k (List.mem_cons_self _ _))
          ha hb he hl hh ht
      exact ih (fun k2 hk2 => hks k2 (List.mem_cons_of_mem _ hk2)) _ h1 h2 h3 h4 h5 h6

theorem phase3_fold (st : MergeState) (swid idx : Nat) (s : PortRow)
    (ks : List (Nat × Nat))
    (hks : ∀ k ∈ ks, ¬(k.1 = swid ∧ k.2 = idx)) (acc : MergeState)
    (ha : acc.ports.filter (groupPred swid idx) = [s])
    (hb : (acc.ports.map (fun p => p.id)).Nodup)
    (hd : ∀ q ∈ acc.ports, ∀ p ∈ st.ports.filter (groupPred swid idx),
      p.id ≠ s.id → q.id ≠ p.id)
    (hl : List.Forall₂ (R2loc (groupIds st swid idx) s.id) st.locs acc.locs)
    (hh : List.Forall₂ (R2hist (groupIds st swid idx) s.id) st.hist acc.hist)
    (ht : List.Forall₂ (R2link (groupIds st swid idx) s.id) st.links acc.links) :
    (ks.foldl (fun a k => mergeGroup a k.1 k.2) acc).ports.filter (groupPred swid idx)
        = [s] ∧
      (∀ q ∈ (ks.foldl (fun a k => mergeGroup a k.1 k.2) acc).ports,
        ∀ p ∈ st.ports.filter (groupPred swid idx), p.id ≠ s.id → q.id ≠ p.id) ∧
      List.Forall₂ (R2loc (groupIds st swid idx) s.id) st.locs
        (ks.foldl (fun a k => mergeGroup a k.1 k.2) acc).locs ∧
      List.Forall₂ (R2hist (groupIds st swid idx) s.id) st.hist
        (ks.foldl (fun a k => mergeGroup a k.1 k.2) acc).hist ∧
      List.Forall₂ (R2link (groupIds st swid idx) s.id) st.links
        (ks.foldl (fun a k => mergeGroup a k.1 k.2) acc).links := by
  induction ks generalizing acc with
  | nil => exact ⟨ha, hd, hl, hh, ht⟩
  | cons k ks ih =>
      obtain ⟨h1, h2, h3, h4, h5, h6⟩ :=
        mergeGroup_after st acc swid idx k.1 k.2 s (hks k (List.mem_cons_self _ _))
          ha hb hd hl hh ht
      exact ih (fun k2 hk2 => hks k2 (List.mem_cons_of_mem _ hk2)) _ h1 h2 h3 h4 h5 h6

theorem mem_dupKeys (ports : List PortRow) (swid idx : Nat) (hidx : 0 < idx)
    (hlen : 2 ≤ (ports.filter (groupPred swid idx)).length) :
    (swid, idx) ∈ dupKeys ports := by
  unfold dupKeys
  rw [List.mem_filter]
  constructor
  · rw [List.mem_dedup, List.mem_map]
    have hne : ports.filter (groupPred swid idx) ≠ [] := by
      intro h
      rw [h] at hlen
      simp at hlen
    obtain ⟨g0, hg0⟩ := List.exists_mem_of_ne_nil _ hne
    obtain ⟨hg0p, hg0pred⟩ := List.mem_filter.mp hg0
    obtain ⟨hsw, hix⟩ := groupPred_eq hg0pred
    refine ⟨g0, ?_, by rw [hsw, hix]⟩
    rw [List.mem_filter]
    refine ⟨hg0p, ?_⟩
    rw [hix]
    simpa using hidx
  · simpa using (by omega : 1 < (ports.filter (groupPred swid idx)).length)

theorem dupKeys_nodup (ports : List PortRow) : (dupKeys ports).Nodup :=
  (List.nodup_dedup _).filter _

/-- C4: for a group of two or more Port rows of one switch sharing a
positive ifIndex, one run of _cleanup_duplicate_ports leaves exactly one
surviving Port row of that group, whose id is that of a group member
with the maximal MacLocation reference count (ties broken towards a row
carrying LLDP neighbor data), deletes every other id of the group from
the Port table, and re-points every MacLocation port_id, MacHistory
port_id and previous_port_id, and TopologyLink local_port_id and
remote_port_id that referenced the group to the survivor, leaving all
other columns of those rows unchanged. -/
theorem c4_port_merge (st : MergeState) (swid idx : Nat)
    (hidx : 0 < idx)
    (hids : (st.ports.map (fun p => p.id)).Nodup)
    (hlen : 2 ≤ (st.ports.filter (groupPred swid idx)).length) :
    ∃ s : PortRow,
      (cleanup_duplicate_ports st).ports.filter (groupPred swid idx) = [s] ∧
      (∃ orig, orig ∈ st.ports.filter (groupPred swid idx) ∧ s.id = orig.id ∧
        (∀ p ∈ st.ports.filter (groupPred swid idx),
          locCount st.locs p.id ≤ locCount st.locs orig.id) ∧
        (∀ p ∈ st.ports.filter (groupPred swid idx),
          locCount st.locs p.id = locCount st.locs orig.id →
          pyTruthyStr p.lldp_neighbor_name = true →
          pyTruthyStr orig.lldp_neighbor_name = true)) ∧
      (∀ p ∈ st.ports.filter (groupPred swid idx), p.id ≠ s.id →
        ∀ q ∈ (cleanup_duplicate_ports st).ports, q.id ≠ p.id) ∧
      List.Forall₂ (R2loc (groupIds st swid idx) s.id) st.locs
        (cleanup_duplicate_ports st).locs ∧
      List.Forall₂ (R2hist (groupIds st swid idx) s.id) st.hist
        (cleanup_duplicate_ports st).hist ∧
      List.Forall₂ (R2link (groupIds st swid idx) s.id) st.links
        (cleanup_duplicate_ports st).links := by
  obtain ⟨ks1, ks2, hsplit⟩ := List.append_of_mem (mem_dupKeys st.ports swid idx hidx hlen)
  have hnd := dupKeys_nodup st.ports
  rw [hsplit, List.nodup_append] at hnd
  have hk1 : ∀ k ∈ ks1, ¬(k.1 = swid ∧ k.2 = idx) := by
    intro k hk hcontra
    have hkey : k = (swid, idx) := Prod.ext_iff.mpr ⟨hcontra.1, hcontra.2⟩
    exact hnd.2.2 hk (hkey ▸ List.mem_cons_self _ _)
  have hk2 : ∀ k ∈ ks2, ¬(k.1 = swid ∧ k.2 = idx) := by
    intro k hk hcontra
    have hkey : k = (swid, idx) := Prod.ext_iff.mpr ⟨hcontra.1, hcontra.2⟩
    exact (List.nodup_cons.mp hnd.2.1).1 (hkey ▸ hk)
  have hrun : cleanup_duplicate_ports st
      = ks2.foldl (fun a k => mergeGroup a k.1 k.2)
          (mergeGroup (ks1.foldl (fun a k => mergeGroup a k.1 k.2) st) swid idx) := by
    unfold cleanup_duplicate_ports
    rw [hsplit, List.foldl_append, List.foldl_cons]
  have hl0 : List.Forall₂ (R1loc (groupIds st swid idx)) st.locs st.locs :=
    List.forall₂_same.mpr (fun x _ => ⟨⟨x.port_id, rfl⟩, fun _ => rfl⟩)
  have hh0 : List.Forall₂ (R1hist (groupIds st swid idx)) st.hist st.hist :=
    List.forall₂_same.mpr (fun x _ =>
      ⟨⟨x.port_id, x.previous_port_id, rfl⟩, fun _ => rfl, fun y hy _ => hy⟩)
  have ht0 : List.Forall₂ (R1link (groupIds st swid idx)) st.links st.links :=
    List.forall₂_same.mpr (fun x _ =>
      ⟨⟨x.local_port_id, x.remote_port_id, rfl⟩, fun _ => rfl, fun _ => rfl⟩)
  obtain ⟨h1, h2, h3, h4, h5, h6⟩ :=
    phase1_fold st swid idx ks1 hk1 st rfl hids (fun pid _ => rfl) hl0 hh0 ht0
  obtain ⟨s, hf, hnd2, _, horig, hdel, hl2, hh2, ht2⟩ :=
    mergeGroup_main st _ swid idx hlen h1 h2 h3 h4 h5 h6
  obtain ⟨f1, f2, f3, f4, f5⟩ :=
    phase3_fold st swid idx s ks2 hk2 _ hf hnd2 hdel hl2 hh2 ht2
  refine ⟨s, ?_, horig, ?_, ?_, ?_, ?_⟩
  · rw [hrun]
    exact f1
  · intro p hp hne q hq
    rw [hrun] at hq
    exact f2 q hq p hp hne
  · rw [hrun]
    exact f3
  · rw [hrun]
    exact f4
  · rw [hrun]
    exact f5


/-- Concrete state for the merge pass: switch 1 carries two Port rows of
ifIndex 4 (ids 1 and 2); port 1 holds two MacLocation references, port 2
one reference plus LLDP neighbor data, a MacHistory row and a
TopologyLink row. -/
def c4MergeDb : MergeState :=
  { ports := [
      { id := 1, switch_id := 1, port_name := "GE1/0/4", port_index := 4,
        vlan_id := 10, port_type := "access", is_uplink := false,
        lldp_neighbor_name := none, lldp_neighbor_type := none },
      { id := 2, switch_id := 1, port_name := "GigabitEthernet1/0/4", port_index := 4,
        vlan_id := 10, port_type := "access", is_uplink := false,
        lldp_neighbor_name := some "peer", lldp_neighbor_type := some "switch" },
      { id := 3, switch_id := 2, port_name := "GE1/0/1", port_index := 1,
        vlan_id := 20, port_type := "access", is_uplink := false,
        lldp_neighbor_name := none, lldp_neighbor_type := none }],
    locs := [
      { mac_id := 100, switch_id := 1, port_id := 1, vlan_id := 10,
        seen_at := 1000, is_current := true },
      { mac_id := 101, switch_id := 1, port_id := 1, vlan_id := 10,
        seen_at := 1001, is_current := true },
      { mac_id := 102, switch_id := 1, port_id := 2, vlan_id := 10,
        seen_at := 1002, is_current := true }],
    hist := [
      { mac_id := 102, switch_id := 1, port_id := 2, vlan_id := 10,
        event_type := "move", event_at := 900,
        previous_switch_id := some 1, previous_port_id := some 2 }],
    links := [
      { id := 7, local_switch_id := 1, local_port_id := 2,
        remote_switch_id := 2, remote_port_id := 3 }] }

theorem c4_port_merge_witness :
    0 < 4 ∧ (c4MergeDb.ports.map (fun p => p.id)).Nodup ∧
      2 ≤ (c4MergeDb.ports.filter (groupPred 1 4)).length ∧
      (∃ s : PortRow,
        (cleanup_duplicate_ports c4MergeDb).ports.filter (groupPred 1 4) = [s] ∧
        (∃ orig, orig ∈ c4MergeDb.ports.filter (groupPred 1 4) ∧ s.id = orig.id ∧
          (∀ p ∈ c4MergeDb.ports.filter (groupPred 1 4),
            locCount c4MergeDb.locs p.id ≤ locCount c4MergeDb.locs orig.id) ∧
          (∀ p ∈ c4MergeDb.ports.filter (groupPred 1 4),
            locCount c4MergeDb.locs p.id = locCount c4MergeDb.locs orig.id →
            pyTruthyStr p.lldp_neighbor_name = true →
            pyTruthyStr orig.lldp_neighbor_name = true)) ∧
        (∀ p ∈ c4MergeDb.ports.filter (groupPred 1 4), p.id ≠ s.id →
          ∀ q ∈ (cleanup_duplicate_ports c4MergeDb).ports, q.id ≠ p.id) ∧
        List.Forall₂ (R2loc (groupIds c4MergeDb 1 4) s.id) c4MergeDb.locs
          (cleanup_duplicate_ports c4MergeDb).locs ∧
        List.Forall₂ (R2hist (groupIds c4MergeDb 1 4) s.id) c4MergeDb.hist
          (cleanup_duplicate_ports c4MergeDb).hist ∧
        List.Forall₂ (R2link (groupIds c4MergeDb 1 4) s.id) c4MergeDb.links
          (cleanup_duplicate_ports c4MergeDb).links) :=
  ⟨by decide, by decide, by decide,
    c4_port_merge c4MergeDb 1 4 (by decide) (by decide) (by decide)⟩


/-! Offline endpoint tracer (backend/app/services/mac_endpoint_tracer.py,
trace_endpoint and its pure helpers). -/

structure TracerDb where
  switches : List SwitchRec
  ports : List PortRow
  locs : List LocFields
  links : List TlRow
  macs : List MacRow
  deriving Repr

def tr_get_switch (db : TracerDb) (sid : Nat) : Option SwitchRec :=
  db.switches.find? (fun s => s.id == sid)

def tr_get_port (db : TracerDb) (pid : Nat) : Option PortRow :=
  db.ports.find? (fun p => p.id == pid)

/-- Trailing ASCII digits of a name. -/
def takeTrailDigits (cs : List Char) : List Char :=
  ((cs.reverse).takeWhile Char.isDigit).reverse

def digitsVal (cs : List Char) : Nat :=
  cs.foldl (fun acc c => acc * 10 + (c.toNat - 48)) 0

/-- Python int() on an all-digit slice; anything else raises and is skipped. -/
def parseAllDigits (cs : List Char) : Option Nat :=
  if !cs.isEmpty && cs.all Char.isDigit then some (digitsVal cs) else none

/-- _extract_port_number: trunk names yield none; otherwise the trailing
number of a slot/port name (regex /(\x64+)$ over the raw name), else the
trailing number of a portNNN-shaped lowered name. -/
def tr_extract_port_number (port_name : String) : Option Nat :=
  let name := pyLower port_name
  if subOccurs "trunk".data name.data then none
  else
    let ds := takeTrailDigits port_name.data
    let stem := port_name.data.take (port_name.data.length - ds.length)
    if !ds.isEmpty && (match stem.reverse with
        | c :: _ => c == '/'
        | [] => false) then
      some (digitsVal ds)
    else
      let dsl := takeTrailDigits name.data
      let steml := name.data.take (name.data.length - dsl.length)
      if !dsl.isEmpty && headMatch "port".data.reverse steml.reverse then
        some (digitsVal dsl)
      else none

/-- Drop the first matching name prefix of the tracer (break after the
first hit, as in the source loop). -/
def dropFirstPfx : List (List Char) → List Char → List Char
  | [], cs => cs
  | p :: ps, cs => if headMatch p cs then cs.drop p.length else dropFirstPfx ps cs

/-- _normalize_port_name of the tracer (distinct from the port_utils one). -/
def tr_normalize_port_name (port_name : String) : String :=
  let name := pyLower port_name
  String.mk (pyStrip (dropFirstPfx
    ["xgigabitethernet".data, "gigabitethernet".data, "xge".data, "ge".data, "port".data]
    name.data))

def addId (acc : List Nat) (i : Nat) : List Nat :=
  if acc.contains i then acc else acc ++ [i]

/-- _get_equivalent_port_ids. The source collects ids in a Python set;
the iteration order of that set is unspecified, modeled here as
insertion order. -/
def tr_equivalent_port_ids (db : TracerDb) (swid pid : Nat) : List Nat :=
  match tr_get_port db pid with
  | none => [pid]
  | some port =>
      let normalized := tr_normalize_port_name port.port_name
      let all_ports := db.ports.filter (fun p => p.switch_id == swid)
      all_ports.foldl (fun acc p =>
        let acc := if tr_normalize_port_name p.port_name == normalized then
            addId acc p.id
          else acc
        match tr_extract_port_number port.port_name with
        | none => acc
        | some n =>
            let acc := if tr_extract_port_number p.port_name == some n then
                addId acc p.id
              else acc
            if headMatch "port".data (pyLower p.port_name).data then
              match parseAllDigits (p.port_name.data.drop 4) with
              | some k =>
                  if k == n || k == 100 + n || k == 200 + n then addId acc p.id else acc
              | none => acc
            else acc) [pid]

def tr_find_link_for (db : TracerDb) (swid : Nat) : List Nat → Option TlRow
  | [] => none
  | pid :: rest =>
      match db.links.find? (fun t => t.local_switch_id == swid && t.local_port_id == pid) with
      | some l => some l
      | none =>
          match db.links.find? (fun t =>
              t.remote_switch_id == swid && t.remote_port_id == pid) with
          | some l => some l
          | none => tr_find_link_for db swid rest

/-- _get_lldp_neighbor (the cache is transparent for a fixed state). -/
def tr_get_lldp_neighbor (db : TracerDb) (swid pid : Nat) : Option TlRow :=
  tr_find_link_for db swid (tr_equivalent_port_ids db swid pid)

/-- _get_mac_count_on_port: distinct mac ids ever seen on the port. -/
def tr_get_mac_count (db : TracerDb) (swid pid : Nat) : Nat :=
  (((db.locs.filter (fun l => l.switch_id == swid && l.port_id == pid)).map
    (fun l => l.mac_id)).dedup).length

structure LocAgg where
  switch_id : Nat
  port_id : Nat
  vlan_id : Nat
  last_seen : Nat
  deriving Repr, DecidableEq

/-- The grouped all-locations query: one row per (switch_id, port_id)
with max(vlan_id) and max(seen_at); group order modeled as first
appearance. -/
def tr_all_locations (db : TracerDb) (macId : Nat) : List LocAgg :=
  let rows := db.locs.filter (fun l => l.mac_id == macId)
  let keys := rows.foldl (fun acc l =>
    if acc.contains (l.switch_id, l.port_id) then acc
    else acc ++ [(l.switch_id, l.port_id)]) []
  keys.map (fun k =>
    let grp := rows.filter (fun l => l.switch_id == k.1 && l.port_id == k.2)
    { switch_id := k.1, port_id := k.2,
      vlan_id := (grp.map (fun l => l.vlan_id)).foldl Nat.max 0,
      last_seen := (grp.map (fun l => l.seen_at)).foldl Nat.max 0 })

structure EndpointInfo where
  mac_address : String
  switch_id : Nat
  switch_hostname : String
  switch_ip : String
  port_id : Nat
  port_name : String
  vlan_id : Option Nat
  lldp_device_name : Option String
  is_endpoint : Bool
  trace_path : List String
  deriving Repr, DecidableEq

structure ScoredLoc where
  loc : LocAgg
  switch : SwitchRec
  port : PortRow
  score : Int
  reasons : List String
  mac_count : Nat
  deriving Repr, DecidableEq

/-- One iteration of the scoring loop of trace_endpoint; returns the
scored entry and the trace_info lines it appends. -/
def scoreLocation (db : TracerDb) (switches_with_mac : List Nat)
    (loc : LocAgg) (switch : SwitchRec) (port : PortRow) : ScoredLoc × List String :=
  let port_name_lower := pyLower port.port_name
  if subOccurs "trunk".data port_name_lower.data ||
      subOccurs "eth-trunk".data port_name_lower.data then
    ({ loc := loc, switch := switch, port := port, score := -1000,
       reasons := ["TRUNK_DISQUALIFIED"], mac_count := 0 }, [])
  else
    let fac1 : Int × List String × List String :=
      match tr_get_lldp_neighbor db switch.id port.id with
      | none => (100, ["NO_LLDP_NEIGHBOR"], [])
      | some link =>
          match tr_get_switch db link.remote_switch_id with
          | none => (0, [], [])
          | some remote =>
              if switches_with_mac.contains link.remote_switch_id then
                (-50, ["UPLINK_neighbor_has_mac:" ++ remote.hostname],
                  [switch.hostname ++ ":" ++ port.port_name ++ " -> " ++ remote.hostname])
              else
                (80, ["neighbor_no_mac:" ++ remote.hostname],
                  [switch.hostname ++ ":" ++ port.port_name ++ " -> " ++ remote.hostname])
    let mac_count := tr_get_mac_count db switch.id port.id
    let fac2 : Int × String :=
      if 50 < mac_count then
        (-800, "UPLINK_DISQUALIFIED_mac_count:" ++ toString mac_count)
      else if 20 < mac_count then
        (fac1.1 - 150, "likely_uplink_mac_count:" ++ toString mac_count)
      else if 5 < mac_count then
        (fac1.1 - 50, "high_mac_count:" ++ toString mac_count)
      else if mac_count ≤ 3 then
        (fac1.1 + 50, "low_mac_count:" ++ toString mac_count)
      else (fac1.1 + 20, "moderate_mac_count:" ++ toString mac_count)
    let fac3 : Int × List String :=
      if subOccurs "L3".data switch.hostname.data ||
          subOccurs "Core".data switch.hostname.data then
        (fac2.1 - 10, ["core_switch"])
      else if subOccurs "L2".data switch.hostname.data then
        (fac2.1 + 10, ["access_switch"])
      else (fac2.1, [])
    ({ loc := loc, switch := switch, port := port, score := fac3.1,
       reasons := fac1.2.1 ++ [fac2.2] ++ fac3.2, mac_count := mac_count },
      fac1.2.2)

/-- Stable descending sort by score (Python list.sort with reverse=True
is a stable sort; modeled as stable insertion sort). -/
def insertScoreDesc (x : ScoredLoc) : List ScoredLoc → List ScoredLoc
  | [] => [x]
  | y :: ys => if y.score ≤ x.score then x :: y :: ys else y :: insertScoreDesc x ys

def sortScoreDesc : List ScoredLoc → List ScoredLoc
  | [] => []
  | x :: xs => insertScoreDesc x (sortScoreDesc xs)

def deepKey (sl : ScoredLoc) : Nat × Nat :=
  (if sl.reasons.contains "access_switch" then 0 else 1, sl.mac_count)

def lexLe (a b : Nat × Nat) : Bool :=
  a.1 < b.1 || (a.1 == b.1 && a.2 ≤ b.2)

def insertDeep (x : ScoredLoc) : List ScoredLoc → List ScoredLoc
  | [] => [x]
  | y :: ys => if lexLe (deepKey x) (deepKey y) then x :: y :: ys else y :: insertDeep x ys

def sortDeep : List ScoredLoc → List ScoredLoc
  | [] => []
  | x :: xs => insertDeep x (sortDeep xs)

/-- r.split on the colon, element 1: the text between the first and the
second colon. -/
def splitColonSecond (s : String) : String :=
  String.mk (((s.data.dropWhile (fun c => !(c == ':'))).drop 1).takeWhile
    (fun c => !(c == ':')))

def findNeighborName (reasons : List String) : Option String :=
  match reasons.find? (fun r => subOccurs "neighbor_no_mac:".data r.data) with
  | some r => some (splitColonSecond r)
  | none => none

def mkEndpoint (mac_address : String) (best : ScoredLoc) (is_ep : Bool)
    (path : List String) : EndpointInfo :=
  { mac_address := mac_address, switch_id := best.switch.id,
    switch_hostname := best.switch.hostname, switch_ip := best.switch.ip_address,
    port_id := best.port.id, port_name := best.port.port_name,
    vlan_id := some best.loc.vlan_id, lldp_device_name := none,
    is_endpoint := is_ep, trace_path := path }

/-- The all-uplinks fallback of trace_endpoint (lines 1619-1704). -/
def tr_fallback (mac_address : String) (scored : List ScoredLoc)
    (trace_info : List String) : Option EndpointInfo :=
  let deepest := scored.filter (fun sl =>
    (sl.reasons.any (fun r => subOccurs "neighbor_no_mac".data r.data)) &&
      !(sl.reasons.any (fun r => subOccurs "UPLINK_neighbor_has_mac".data r.data)))
  let uncertain := scored.filter (fun sl =>
    !((sl.reasons.any (fun r => subOccurs "neighbor_no_mac".data r.data)) &&
      !(sl.reasons.any (fun r => subOccurs "UPLINK_neighbor_has_mac".data r.data))))
  match sortDeep deepest with
  | best :: _ =>
      match findNeighborName best.reasons with
      | some nm =>
          if !(nm == "") && (subOccurs "L3".data nm.data ||
              subOccurs "Core".data (pyUpper nm).data) then
            some (mkEndpoint mac_address best false (trace_info ++
              ["UNCERTAIN: MAC seen on uplink to " ++ nm ++
                " - Core switch needs MAC discovery"]))
          else
            some (mkEndpoint mac_address best false (trace_info ++
              ["Behind unmanaged device on " ++ best.switch.hostname ++ ":" ++
                best.port.port_name]))
      | none =>
          some (mkEndpoint mac_address best false (trace_info ++
            ["Behind unmanaged device on " ++ best.switch.hostname ++ ":" ++
              best.port.port_name]))
  | [] =>
      match uncertain with
      | best :: _ =>
          some (mkEndpoint mac_address best false (trace_info ++
            ["UNCERTAIN: MAC arrives via uplink " ++ best.switch.hostname ++ ":" ++
              best.port.port_name ++ " - neighbor switch needs discovery"]))
      | [] => none

/-- backend/app/services/mac_endpoint_tracer.py, trace_endpoint
(lines 1428-1704): offline scoring of every location ever seen. -/
def trace_endpoint (db : TracerDb) (mac_address : String) : Option EndpointInfo :=
  match db.macs.find? (fun m => m.mac_address == mac_address) with
  | none => none
  | some mac =>
      let all_locations := tr_all_locations db mac.id
      if all_locations.isEmpty then none
      else
        let locations := all_locations.filterMap (fun loc =>
          match tr_get_switch db loc.switch_id, tr_get_port db loc.port_id with
          | some sw, some pt => some (loc, sw, pt)
          | _, _ => none)
        if locations.isEmpty then none
        else
          let switches_with_mac := locations.map (fun x => x.1.switch_id)
          let folded := locations.foldl (fun acc x =>
            let sc := scoreLocation db switches_with_mac x.1 x.2.1 x.2.2
            (acc.1 ++ [sc.1], acc.2 ++ sc.2)) (([] : List ScoredLoc), ([] : List String))
          let scored := sortScoreDesc folded.1
          match scored with
          | best :: _ =>
              if -500 < best.score then
                some (mkEndpoint mac_address best (decide (50 < best.score)) folded.2)
              else tr_fallback mac_address scored folded.2
          | [] => tr_fallback mac_address scored folded.2


/-- C5 scenario state: D1 (SW-A) sees the address on trunk-named port
Agg1 which has an LLDP link to D2 (SW-B); D2 sees it on Gi0/0/3 with no
recorded neighbor link. -/
def c5Db : TracerDb :=
  { switches := [
      { id := 1, hostname := "SW-A", ip_address := "10.0.0.1" },
      { id := 2, hostname := "SW-B", ip_address := "10.0.0.2" }],
    ports := [
      { id := 11, switch_id := 1, port_name := "Agg1", port_index := 1,
        vlan_id := 10, port_type := "access", is_uplink := true,
        lldp_neighbor_name := some "SW-B", lldp_neighbor_type := some "switch" },
      { id := 21, switch_id := 2, port_name := "GE0/0/1", port_index := 1,
        vlan_id := 10, port_type := "access", is_uplink := false,
        lldp_neighbor_name := some "SW-A", lldp_neighbor_type := some "switch" },
      { id := 23, switch_id := 2, port_name := "Gi0/0/3", port_index := 3,
        vlan_id := 10, port_type := "access", is_uplink := false,
        lldp_neighbor_name := none, lldp_neighbor_type := none }],
    locs := [
      { mac_id := 100, switch_id := 1, port_id := 11, vlan_id := 10,
        seen_at := 1000, is_current := true },
      { mac_id := 100, switch_id := 2, port_id := 23, vlan_id := 10,
        seen_at := 1001, is_current := true }],
    links := [
      { id := 7, local_switch_id := 1, local_port_id := 11,
        remote_switch_id := 2, remote_port_id := 21 }],
    macs := [
      { id := 100, mac_address := "AA:BB:CC:00:00:01", vendor_oui := "AABBCC",
        first_seen := 900, last_seen := 1001, is_active := true }] }


/-- C5: in the scenario where device D1 records the address on its
trunk-named port Agg1 (with an LLDP link to neighbor D2 reached via a
non-trunk port) and D2 records the same address on port Gi0/0/3 with no
recorded neighbor link, trace_endpoint returns D2 and Gi0/0/3 with
is_endpoint true, not D1 and Agg1. -/
theorem c5_offline_trace_returns_deepest :
    trace_endpoint c5Db "AA:BB:CC:00:00:01" = some
      { mac_address := "AA:BB:CC:00:00:01", switch_id := 2,
        switch_hostname := "SW-B", switch_ip := "10.0.0.2",
        port_id := 23, port_name := "Gi0/0/3", vlan_id := some 10,
        lldp_device_name := none, is_endpoint := true,
        trace_path := ["SW-A:Agg1 -> SW-B"] } := by
  rfl


/-! Live SSH tracer (_trace_from_single_core, lines 404-574). The network
side (SSH command output and DB lookups) is an abstract oracle; sessions
are cached per device ip and the cache is carried explicitly. -/

structure TraceStep where
  switch_hostname : String
  switch_ip : String
  port_name : String
  port_type : String
  lldp_neighbor : Option String
  deriving Repr, DecidableEq

structure SshNet where
  connectOk : String → Bool
  findMacPort : Nat → Option String
  trunkMembers : Nat → String → List String
  lldpNeighbor : Nat → String → Option (String × String)
  switchByName : String → Option SwitchRec
  portIdLookup : Nat → String → Nat
  vlanLookup : Nat → Option Nat

structure TraceOut where
  result : Option EndpointInfo
  visited : List String
  path : List TraceStep
  cache : List String
  deriving Repr

def fmtStep (s : TraceStep) : String := s.switch_hostname ++ ":" ++ s.port_name

/-- The common exit of the trace loop (lines 557-571): with a nonempty
path return the last reached step as a non-endpoint, else None. -/
def finishInfo (mac : String) (cur : SwitchRec) (path : List TraceStep)
    (last : TraceStep) : EndpointInfo :=
  { mac_address := mac, switch_id := cur.id,
    switch_hostname := last.switch_hostname, switch_ip := last.switch_ip,
    port_id := 0, port_name := last.port_name, vlan_id := none,
    lldp_device_name := none, is_endpoint := false,
    trace_path := path.map fmtStep }

def traceFinish (mac : String) (cur : SwitchRec) (visited : List String)
    (path : List TraceStep) (cache : List String) : TraceOut :=
  match path.getLast? with
  | some last =>
      { result := some (finishInfo mac cur path last), visited := visited,
        path := path, cache := cache }
  | none => { result := none, visited := visited, path := path, cache := cache }

def mkStep (cur : SwitchRec) (pname ptype : String) (nb : Option String) : TraceStep :=
  { switch_hostname := cur.hostname, switch_ip := cur.ip_address,
    port_name := pname, port_type := ptype, lldp_neighbor := nb }

/-- The member loop of the Eth-Trunk branch (lines 458-481): every member
with an LLDP neighbor appends a step; the walk continues at the first
neighbor found in the DB. -/
def scanMembers (net : SshNet) (cur : SwitchRec) (pname : String) :
    List String → List TraceStep × Option SwitchRec
  | [] => ([], none)
  | m :: ms =>
      match net.lldpNeighbor cur.id m with
      | none => scanMembers net cur pname ms
      | some nb =>
          match net.switchByName nb.1 with
          | some nxt =>
              ([mkStep cur (pname ++ " -> " ++ m) "eth-trunk" (some nb.1)], some nxt)
          | none =>
              let rest := scanMembers net cur pname ms
              (mkStep cur (pname ++ " -> " ++ m) "eth-trunk" (some nb.1) :: rest.1,
                rest.2)

def traceFrom (net : SshNet) (mac : String) :
    Nat → SwitchRec → List String → List TraceStep → List String → TraceOut
  | 0, cur, visited, path, cache => traceFinish mac cur visited path cache
  | Nat.succ fuel, cur, visited, path, cache =>
      if visited.contains cur.hostname then
        traceFinish mac cur visited path cache
      else
        if !(cache.contains cur.ip_address) && !(net.connectOk cur.ip_address) then
          traceFinish mac cur (visited ++ [cur.hostname]) path cache
        else
          let cache2 := if cache.contains cur.ip_address then cache
            else cache ++ [cur.ip_address]
          match net.findMacPort cur.id with
          | none => traceFinish mac cur (visited ++ [cur.hostname]) path cache2
          | some pname =>
              if subOccurs "trunk".data (pyLower pname).data then
                match net.trunkMembers cur.id pname with
                | [] =>
                    traceFinish mac cur (visited ++ [cur.hostname])
                      (path ++ [mkStep cur pname "eth-trunk" none]) cache2
                | m :: ms =>
                    match scanMembers net cur pname (m :: ms) with
                    | (steps, some nxt) =>
                        traceFrom net mac fuel nxt (visited ++ [cur.hostname])
                          (path ++ steps) cache2
                    | (steps, none) =>
                        traceFinish mac cur (visited ++ [cur.hostname])
                          (path ++ steps) cache2
              else
                match net.lldpNeighbor cur.id pname with
                | none =>
                    let step : TraceStep := mkStep cur pname "access" none
                    let e : EndpointInfo :=
                      { mac_address := mac, switch_id := cur.id,
                        switch_hostname := cur.hostname,
                        switch_ip := cur.ip_address,
                        port_id := net.portIdLookup cur.id pname,
                        port_name := pname, vlan_id := net.vlanLookup cur.id,
                        lldp_device_name := none, is_endpoint := true,
                        trace_path := (path ++ [step]).map fmtStep }
                    { result := some e,
                      visited := visited ++ [cur.hostname],
                      path := path ++ [step],
                      cache := cache2 }
                | some nb =>
                    match net.switchByName nb.1 with
                    | some nxt =>
                        traceFrom net mac fuel nxt (visited ++ [cur.hostname])
                          (path ++ [mkStep cur pname "uplink" (some nb.1)]) cache2
                    | none =>
                        traceFinish mac cur (visited ++ [cur.hostname])
                          (path ++ [mkStep cur pname "uplink" (some nb.1)]) cache2

/-- _trace_from_single_core: the loop runs for max_hops = 10 hops with an
initially empty visited set; the finally clause of the source keeps the
session cache as is. -/
def trace_from_single_core (net : SshNet) (mac : String) (core : SwitchRec)
    (cache : List String) : TraceOut :=
  traceFrom net mac 10 core [] [] cache


/-- Invariant of one trace-loop run: the visited set stays duplicate
free, it grows by at most the available hops, a None result means no
step was ever recorded, and a non-endpoint result reports the deepest
recorded step together with the full path taken. -/
def TraceInv (visited0 : List String) (fuel : Nat) (out : TraceOut) : Prop :=
  out.visited.Nodup ∧ out.visited.length ≤ visited0.length + fuel ∧
  (out.result = none → out.path = []) ∧
  (∀ e, out.result = some e → e.is_endpoint = false →
    ∃ last, out.path.getLast? = some last ∧ e.port_name = last.port_name ∧
      e.switch_hostname = last.switch_hostname ∧ e.trace_path = out.path.map fmtStep)

theorem nodup_append_single {v : List String} {a : String}
    (hv : v.Nodup) (ha : a ∉ v) : (v ++ [a]).Nodup := by
  rw [List.nodup_append]
  refine ⟨hv, List.nodup_singleton a, ?_⟩
  intro x hx hmem
  rw [List.mem_singleton] at hmem
  exact ha (hmem ▸ hx)

theorem traceFinish_inv {visited0 : List String} {fuel : Nat}
    (mac : String) (cur : SwitchRec) (visited : List String)
    (path : List TraceStep) (cache : List String)
    (hnd : visited.Nodup) (hlen : visited.length ≤ visited0.length + fuel) :
    TraceInv visited0 fuel (traceFinish mac cur visited path cache) := by
  cases hl : path.getLast? with
  | none =>
      have heq : traceFinish mac cur visited path cache
          = { result := none, visited := visited, path := path, cache := cache } := by
        unfold traceFinish
        rw [hl]
      rw [heq]
      refine ⟨hnd, hlen, ?_, ?_⟩
      · intro _
        exact List.getLast?_eq_none_iff.mp hl
      · intro e he
        cases he
  | some last =>
      have heq : traceFinish mac cur visited path cache
          = { result := some (finishInfo mac cur path last),
              visited := visited, path := path, cache := cache } := by
        unfold traceFinish
        rw [hl]
      rw [heq]
      refine ⟨hnd, hlen, ?_, ?_⟩
      · intro hres
        cases hres
      · intro e he hep
        have he2 : finishInfo mac cur path last = e := Option.some_inj.mp he
        exact ⟨last, hl, by rw [← he2]; rfl, by rw [← he2]; rfl, by rw [← he2]; rfl⟩

theorem TraceInv_mono {v : List String} {h : String} {fuel : Nat} {out : TraceOut}
    (hi : TraceInv (v ++ [h]) fuel out) : TraceInv v (fuel + 1) out := by
  obtain ⟨a, b, c, d⟩ := hi
  refine ⟨a, ?_, c, d⟩
  simp only [List.length_append, List.length_singleton] at b
  omega

theorem traceFrom_inv (net : SshNet) (mac : String) :
    ∀ (fuel : Nat) (cur : SwitchRec) (visited : List String)
      (path : List TraceStep) (cache : List String), visited.Nodup →
      TraceInv visited fuel (traceFrom net mac fuel cur visited path cache) := by
  intro fuel
  induction fuel with
  | zero =>
      intro cur visited path cache hnd
      exact traceFinish_inv mac cur visited path cache hnd (by omega)
  | succ fuel ih =>
      intro cur visited path cache hnd
      simp only [traceFrom]
      split
      · exact traceFinish_inv mac cur visited path cache hnd (by omega)
      · rename_i hvis
        have hnotin : cur.hostname ∉ visited := by simpa using hvis
        have hnd2 : (visited ++ [cur.hostname]).Nodup := nodup_append_single hnd hnotin
        have hlen2 : (visited ++ [cur.hostname]).length ≤ visited.length + (fuel + 1) := by
          simp only [List.length_append, List.length_singleton]
          omega
        split
        · exact traceFinish_inv mac cur _ path cache hnd2 hlen2
        · split
          · exact traceFinish_inv mac cur _ path _ hnd2 hlen2
          · rename_i pname hfm
            split
            · split
              · exact traceFinish_inv mac cur _ _ _ hnd2 hlen2
              · split
                · rename_i steps nxt hscan
                  exact TraceInv_mono (ih nxt (visited ++ [cur.hostname]) _ _ hnd2)
                · exact traceFinish_inv mac cur _ _ _ hnd2 hlen2
            · split
              · refine ⟨hnd2, hlen2, ?_, ?_⟩
                · intro hres
                  cases hres
                · intro e he hep
                  have heq : e.is_endpoint = true := by
                    rw [← Option.some_inj.mp he]
                  rw [heq] at hep
                  cases hep
              · split
                · rename_i nxt hsw
                  exact TraceInv_mono (ih nxt (visited ++ [cur.hostname]) _ _ hnd2)
                · exact traceFinish_inv mac cur _ _ _ hnd2 hlen2

/-- C6: for every network behavior, address and start device, including
topologies with cycles, the live trace visits each device at most once
(the visited set stays duplicate free), performs at most the hop cap of
10 hops, and terminates; a run that stops without confirming an endpoint
(loop detected, hop cap reached, connection failure, unresolved
neighbor, or address not found) reports the deepest recorded step with
the full path taken, and returns None only when no step was recorded. -/
theorem c6_live_trace_terminates (net : SshNet) (mac : String) (core : SwitchRec)
    (cache : List String) :
    (trace_from_single_core net mac core cache).visited.Nodup ∧
      (trace_from_single_core net mac core cache).visited.length ≤ 10 ∧
      ((trace_from_single_core net mac core cache).result = none →
        (trace_from_single_core net mac core cache).path = []) ∧
      (∀ e, (trace_from_single_core net mac core cache).result = some e →
        e.is_endpoint = false →
        ∃ last, (trace_from_single_core net mac core cache).path.getLast? = some last ∧
          e.port_name = last.port_name ∧
          e.switch_hostname = last.switch_hostname ∧
          e.trace_path = (trace_from_single_core net mac core cache).path.map fmtStep) := by
  have h := traceFrom_inv net mac 10 core [] [] cache List.nodup_nil
  obtain ⟨a, b, c, d⟩ := h
  exact ⟨a, by simpa using b, c, d⟩


theorem traceFinish_cache (mac : String) (cur : SwitchRec) (visited : List String)
    (path : List TraceStep) (cache : List String) :
    (traceFinish mac cur visited path cache).cache = cache := by
  unfold traceFinish
  split <;> rfl

theorem traceFrom_cache (net : SshNet) (mac : String) :
    ∀ (fuel : Nat) (cur : SwitchRec) (visited : List String)
      (path : List TraceStep) (cache : List String),
      ∃ opened, (traceFrom net mac fuel cur visited path cache).cache
        = cache ++ opened := by
  intro fuel
  induction fuel with
  | zero =>
      intro cur visited path cache
      refine ⟨[], ?_⟩
      simp [traceFrom, traceFinish_cache]
  | succ fuel ih =>
      intro cur visited path cache
      simp only [traceFrom]
      split
      · exact ⟨[], by rw [traceFinish_cache]; simp⟩
      · split
        · exact ⟨[], by rw [traceFinish_cache]; simp⟩
        · have hC2 : ∃ mid, (if cache.contains cur.ip_address then cache
              else cache ++ [cur.ip_address]) = cache ++ mid := by
            by_cases hc : cache.contains cur.ip_address
            · exact ⟨[], by simp [List.elem_iff.mp hc]⟩
            · have hn : cur.ip_address ∉ cache := fun hmem => hc (List.elem_iff.mpr hmem)
              exact ⟨[cur.ip_address], by simp [hn]⟩
          obtain ⟨mid, hmid⟩ := hC2
          split
          · exact ⟨mid, by rw [traceFinish_cache, hmid]⟩
          · split
            · split
              · exact ⟨mid, by rw [traceFinish_cache, hmid]⟩
              · split
                · rename_i steps nxt hscan
                  obtain ⟨op2, hop2⟩ := ih nxt (visited ++ [cur.hostname])
                    (path ++ steps) (if cache.contains cur.ip_address then cache
                      else cache ++ [cur.ip_address])
                  exact ⟨mid ++ op2, by rw [hop2, hmid, List.append_assoc]⟩
                · exact ⟨mid, by rw [traceFinish_cache, hmid]⟩
            · split
              · exact ⟨mid, hmid⟩
              · split
                · rename_i nxt hsw
                  obtain ⟨op2, hop2⟩ := ih nxt (visited ++ [cur.hostname]) _
                    (if cache.contains cur.ip_address then cache
                      else cache ++ [cur.ip_address])
                  exact ⟨mid ++ op2, by rw [hop2, hmid, List.append_assoc]⟩
                · exact ⟨mid, by rw [traceFinish_cache, hmid]⟩

/-- C9 counterexample state: one reachable device answers the address on
a physical port with no LLDP neighbor. -/
def c9Core : SwitchRec := { id := 1, hostname := "CORE-1", ip_address := "10.1.1.1" }

def c9Net : SshNet :=
  { connectOk := fun _ => true,
    findMacPort := fun _ => some "GE0/0/7",
    trunkMembers := fun _ _ => [],
    lldpNeighbor := fun _ _ => none,
    switchByName := fun _ => none,
    portIdLookup := fun _ _ => 42,
    vlanLookup := fun _ => some 10 }

/-- C9 counterexample: a trace that finds its endpoint and exits leaves
the SSH session it opened in the cache; the source finally block is a
pass and _close_ssh_connections is never called on any trace exit path,
so an open session outlives the trace. -/
theorem c9_session_outlives_trace :
    ((trace_from_single_core c9Net "AA:BB:CC:00:00:07" c9Core []).result.map
      (fun e => e.is_endpoint)) = some true ∧
    (trace_from_single_core c9Net "AA:BB:CC:00:00:07" c9Core []).cache
      = ["10.1.1.1"] := by
  exact ⟨rfl, rfl⟩

/-- C9 amended: on every exit path of a live trace the session cache is
the pre-trace cache plus the sessions opened during the trace; no
session is released, they are deliberately kept for reuse. -/
theorem c9_trace_sessions_kept (net : SshNet) (mac : String) (core : SwitchRec)
    (cache : List String) :
    ∃ opened, (trace_from_single_core net mac core cache).cache = cache ++ opened :=
  traceFrom_cache net mac 10 core [] [] cache


/-! Network graph (backend/app/services/network_graph.py): build and
find_path. The adjacency dict of dicts is an association list keyed by
switch id whose values keep only the neighbor keys in insertion order
(find_path never reads the link payload). -/

def hasKey (adj : List (Nat × List Nat)) (x : Nat) : Bool :=
  adj.any (fun e => e.1 == x)

def nbrFun (adj : List (Nat × List Nat)) (x : Nat) : List Nat :=
  match adj.find? (fun e => e.1 == x) with
  | some e => e.2
  | none => []

/-- adjacency[k] = {} : a fresh key gets an empty dict, an existing key
is reset to an empty dict only before any edge exists, so keeping it is
the same. -/
def adjAddNode (adj : List (Nat × List Nat)) (k : Nat) : List (Nat × List Nat) :=
  if adj.any (fun e => e.1 == k) then adj else adj ++ [(k, [])]

/-- adjacency[a][b] = data : dict assignment keeps the position of an
existing key and appends a fresh one. -/
def adjAddEdge (adj : List (Nat × List Nat)) (a b : Nat) : List (Nat × List Nat) :=
  adj.map (fun e => if e.1 == a then
    (e.1, if e.2.contains b then e.2 else e.2 ++ [b]) else e)

/-- build (lines 58-132): keys for every switch, then per link both
directions of the edge, creating missing endpoint keys first. -/
def buildGraph (switches : List SwitchRec) (links : List TlRow) :
    List (Nat × List Nat) :=
  let adj0 := switches.foldl (fun acc sw => adjAddNode acc sw.id) []
  links.foldl (fun acc l =>
    adjAddEdge (adjAddEdge (adjAddNode (adjAddNode acc l.local_switch_id)
        l.remote_switch_id)
      l.local_switch_id l.remote_switch_id)
      l.remote_switch_id l.local_switch_id) adj0

/-- The inner neighbor loop of find_path: early exit on the target,
enqueue unvisited neighbors. -/
def bfsScan (b : Nat) (path : List Nat) :
    List Nat → List Nat → List (Nat × List Nat) →
    Option (List Nat) × List Nat × List (Nat × List Nat)
  | [], visited, adds => (none, visited, adds)
  | n :: ns, visited, adds =>
      if n == b then (some (path ++ [n]), visited, adds)
      else if visited.contains n then bfsScan b path ns visited adds
      else bfsScan b path ns (visited ++ [n]) (adds ++ [(n, path ++ [n])])

/-- The BFS while loop; the fuel only bounds the number of pops and is
chosen large enough that it never runs out (each pop either shrinks the
queue or marks a new node visited). -/
def bfsLoop (nf : Nat → List Nat) (b : Nat) :
    Nat → List Nat → List (Nat × List Nat) → Option (List Nat)
  | _, _, [] => none
  | 0, _, _ :: _ => none
  | Nat.succ fuel, visited, (cur, path) :: rest =>
      match bfsScan b path (nf cur) visited [] with
      | (some r, _, _) => some r
      | (none, visited2, adds) => bfsLoop nf b fuel visited2 (rest ++ adds)

/-- find_path (lines 144-171). -/
def find_path (adj : List (Nat × List Nat)) (a b : Nat) : Option (List Nat) :=
  if hasKey adj a && hasKey adj b then
    if a == b then some [a]
    else bfsLoop (nbrFun adj) b (adj.length + 1) [a] [(a, [a])]
  else none

/-- x reachable from a in exactly n edge steps. -/
def ReachN (nf : Nat → List Nat) (a : Nat) : Nat → Nat → Prop
  | 0, x => x = a
  | Nat.succ n, x => ∃ y, ReachN nf a n y ∧ x ∈ nf y

theorem reachN_concat (nf : Nat → List Nat) (u v : Nat) (m : Nat)
    (hm : ReachN nf u m v) : ∀ (k : Nat) (w : Nat), ReachN nf v k w →
      ReachN nf u (m + k) w := by
  intro k
  induction k with
  | zero =>
      intro w hw
      rw [hw]
      exact hm
  | succ k ih =>
      intro w hw
      obtain ⟨y, hy, hwy⟩ := hw
      exact ⟨y, ih y hy, hwy⟩

theorem reachN_symm (nf : Nat → List Nat)
    (hsym : ∀ x y, y ∈ nf x → x ∈ nf y) (a : Nat) :
    ∀ (n : Nat) (x : Nat), ReachN nf a n x → ReachN nf x n a := by
  intro n
  induction n with
  | zero =>
      intro x hx
      rw [hx]
      rfl
  | succ n ih =>
      intro x hx
      obtain ⟨y, hy, hxy⟩ := hx
      have h1 : ReachN nf x 1 y := ⟨x, rfl, hsym y x hxy⟩
      have h2 : ReachN nf y n a := ih y hy
      have := reachN_concat nf x y 1 h1 n a h2
      simpa [Nat.add_comm] using this


theorem filter_impl_length_le {p q : Nat → Bool} (l : List Nat)
    (h : ∀ z, p z = true → q z = true) :
    (l.filter p).length ≤ (l.filter q).length := by
  induction l with
  | nil => exact Nat.le_refl _
  | cons u us ih =>
      by_cases hp : p u = true
      · rw [List.filter_cons, List.filter_cons, if_pos hp, if_pos (h u hp)]
        simpa using ih
      · rw [List.filter_cons, if_neg hp, List.filter_cons]
        by_cases hq : q u = true
        · rw [if_pos hq]
          simp only [List.length_cons]
          omega
        · rw [if_neg hq]
          exact ih

theorem length_filter_remove (univ : List Nat) (q : Nat → Bool) (y : Nat)
    (hy : y ∈ univ) (hq : q y = true) :
    (univ.filter (fun z => q z && !(z == y))).length + 1 ≤ (univ.filter q).length := by
  induction univ with
  | nil => cases hy
  | cons u us ih =>
      by_cases hu : u = y
      · have h1 : (q u && !(u == y)) = false := by
          simp [hu]
        rw [List.filter_cons, List.filter_cons, h1, if_neg (by simp),
          if_pos (hu ▸ hq)]
        simp only [List.length_cons]
        have := filter_impl_length_le us
          (fun z (hz : (q z && !(z == y)) = true) => ((Bool.and_eq_true _ _).mp hz).1)
        omega
      · rcases List.mem_cons.mp hy with h | h
        · exact absurd h.symm hu
        · have hih := ih h
          rw [List.filter_cons, List.filter_cons]
          by_cases hqu : q u = true
          · have h1 : (q u && !(u == y)) = true := by
              simp [hqu, hu]
            rw [if_pos (by simp [h1]), if_pos (by simp [hqu])]
            simp only [List.length_cons]
            omega
          · have h1 : (q u && !(u == y)) = false := by
              simp [hqu]
            rw [h1, if_neg (by simp), if_neg (by simp [hqu])]
            exact hih

theorem unvisited_decrease (univ : List Nat) (V : List Nat) (y : Nat)
    (hy : y ∈ univ) (hyV : y ∉ V) :
    (univ.filter (fun z => !((V ++ [y]).contains z))).length + 1
      ≤ (univ.filter (fun z => !(V.contains z))).length := by
  have hcong : univ.filter (fun z => !((V ++ [y]).contains z))
      = univ.filter (fun z => (!(V.contains z)) && !(z == y)) := by
    refine List.filter_congr ?_
    intro a _
    by_cases hAV : a ∈ V
    · have h1 : ((V ++ [y]).contains a) = true :=
        List.elem_iff.mpr (List.mem_append.mpr (Or.inl hAV))
      have h2 : (V.contains a) = true := List.elem_iff.mpr hAV
      rw [h1, h2]
      rfl
    · by_cases hay : a = y
      · have h1 : ((V ++ [y]).contains a) = true :=
          List.elem_iff.mpr (List.mem_append.mpr (Or.inr (by simp [hay])))
        rw [h1]
        simp [hay]
      · have h1 : ((V ++ [y]).contains a) = false := by
          refine contains_mem_false ?_
          intro hm
          rcases List.mem_append.mp hm with hm | hm
          · exact hAV hm
          · exact hay (by simpa using hm)
        have h2 : (V.contains a) = false := contains_mem_false hAV
        rw [h1, h2]
        simp [hay]
  rw [hcong]
  exact length_filter_remove univ _ y hy (by rw [contains_mem_false hyV]; rfl)

theorem unvisited_many (univ : List Nat) :
    ∀ (Δ V : List Nat), Δ.Nodup → (∀ v ∈ Δ, v ∈ univ ∧ v ∉ V) →
      (univ.filter (fun z => !((V ++ Δ).contains z))).length + Δ.length
        ≤ (univ.filter (fun z => !(V.contains z))).length := by
  intro d
  induction d with
  | nil =>
      intro V _ _
      simp
  | cons v d ih =>
      intro V hnd hmem
      have hstep := unvisited_decrease univ V v (hmem v (List.mem_cons_self _ _)).1
        (hmem v (List.mem_cons_self _ _)).2
      have hih := ih (V ++ [v]) ((List.nodup_cons.mp hnd).2) ?_
      · have hassoc : V ++ v :: d = (V ++ [v]) ++ d := by simp
        rw [hassoc]
        simp only [List.length_cons]
        omega
      · intro w hw
        refine ⟨(hmem w (List.mem_cons_of_mem _ hw)).1, ?_⟩
        intro hmw
        rcases List.mem_append.mp hmw with hm | hm
        · exact (hmem w (List.mem_cons_of_mem _ hw)).2 hm
        · have : w = v := by simpa using hm
          exact (List.nodup_cons.mp hnd).1 (this ▸ hw)


theorem bfsScan_some (b : Nat) (path : List Nat) :
    ∀ (ns V : List Nat) (A : List (Nat × List Nat)) (r : List Nat)
      (V2 : List Nat) (A2 : List (Nat × List Nat)),
      bfsScan b path ns V A = (some r, V2, A2) → r = path ++ [b] ∧ b ∈ ns := by
  intro ns
  induction ns with
  | nil =>
      intro V A r V2 A2 h
      simp [bfsScan] at h
  | cons n ns ih =>
      intro V A r V2 A2 h
      cases hnb : (n == b) with
      | true =>
          have hn : n = b := by simpa using hnb
          rw [bfsScan, if_pos hnb] at h
          have h1 : some (path ++ [n]) = some r := congrArg (fun t => t.1) h
          refine ⟨?_, by rw [hn]; exact List.mem_cons_self _ _⟩
          rw [← Option.some_inj.mp h1, hn]
      | false =>
          rw [bfsScan, if_neg (by simp [hnb])] at h
          by_cases hv : (V.contains n) = true
          · rw [if_pos hv] at h
            obtain ⟨hr, hm⟩ := ih V A r V2 A2 h
            exact ⟨hr, List.mem_cons_of_mem _ hm⟩
          · rw [if_neg hv] at h
            obtain ⟨hr, hm⟩ := ih _ _ r V2 A2 h
            exact ⟨hr, List.mem_cons_of_mem _ hm⟩

theorem bfsScan_mem (b : Nat) (path : List Nat) :
    ∀ (ns V : List Nat) (A : List (Nat × List Nat)), b ∈ ns →
      ∃ V2 A2, bfsScan b path ns V A = (some (path ++ [b]), V2, A2) := by
  intro ns
  induction ns with
  | nil =>
      intro V A h
      cases h
  | cons n ns ih =>
      intro V A h
      cases hnb : (n == b) with
      | true =>
          have hn : n = b := by simpa using hnb
          refine ⟨V, A, ?_⟩
          rw [bfsScan, if_pos hnb, hn]
      | false =>
          have hbns : b ∈ ns := by
            rcases List.mem_cons.mp h with h1 | h1
            · exact absurd h1.symm (by simpa using hnb)
            · exact h1
          by_cases hv : (V.contains n) = true
          · obtain ⟨V2, A2, hres⟩ := ih V A hbns
            exact ⟨V2, A2, by rw [bfsScan, if_neg (by simp [hnb]), if_pos hv]; exact hres⟩
          · obtain ⟨V2, A2, hres⟩ := ih (V ++ [n]) (A ++ [(n, path ++ [n])]) hbns
            exact ⟨V2, A2, by rw [bfsScan, if_neg (by simp [hnb]), if_neg hv]; exact hres⟩

theorem bfsScan_none (b : Nat) (path : List Nat) :
    ∀ (ns V : List Nat) (A : List (Nat × List Nat)) (V2 : List Nat)
      (A2 : List (Nat × List Nat)),
      bfsScan b path ns V A = (none, V2, A2) →
      b ∉ ns ∧
        (∃ d, V2 = V ++ d ∧ d.Nodup ∧ (∀ v ∈ d, v ∈ ns ∧ v ∉ V) ∧
          A2 = A ++ d.map (fun v => (v, path ++ [v]))) ∧
        (∀ n ∈ ns, n ∈ V2) := by
  intro ns
  induction ns with
  | nil =>
      intro V A V2 A2 h
      rw [bfsScan] at h
      have hV : V = V2 := congrArg (fun t => t.2.1) h
      have hA : A = A2 := congrArg (fun t => t.2.2) h
      refine ⟨by simp, ⟨[], by simp [← hV], List.nodup_nil, by simp, by simp [← hA]⟩, by simp⟩
  | cons n ns ih =>
      intro V A V2 A2 h
      cases hnb : (n == b) with
      | true =>
          rw [bfsScan, if_pos hnb] at h
          cases h
      | false =>
          have hneb : ¬(n = b) := by simpa using hnb
          rw [bfsScan, if_neg (by simp [hnb])] at h
          by_cases hv : (V.contains n) = true
          · rw [if_pos hv] at h
            obtain ⟨hb2, ⟨d, hV2, hnd, hmem, hA2⟩, hall⟩ := ih V A V2 A2 h
            refine ⟨?_, ⟨d, hV2, hnd, ?_, hA2⟩, ?_⟩
            · intro hm
              rcases List.mem_cons.mp hm with h1 | h1
              · exact hneb h1.symm
              · exact hb2 h1
            · intro v hvd
              exact ⟨List.mem_cons_of_mem _ (hmem v hvd).1, (hmem v hvd).2⟩
            · intro m hm
              rcases List.mem_cons.mp hm with h1 | h1
              · rw [h1, hV2]
                exact List.mem_append.mpr (Or.inl (List.elem_iff.mp hv))
              · exact hall m h1
          · rw [if_neg hv] at h
            obtain ⟨hb2, ⟨d, hV2, hnd, hmem, hA2⟩, hall⟩ := ih _ _ V2 A2 h
            have hnV : n ∉ V := fun hm => hv (List.elem_iff.mpr hm)
            refine ⟨?_, ⟨n :: d, ?_, ?_, ?_, ?_⟩, ?_⟩
            · intro hm
              rcases List.mem_cons.mp hm with h1 | h1
              · exact hneb h1.symm
              · exact hb2 h1
            · rw [hV2]
              simp
            · rw [List.nodup_cons]
              refine ⟨?_, hnd⟩
              intro hm
              exact (hmem n hm).2 (List.mem_append.mpr (Or.inr (List.mem_singleton.mpr rfl)))
            · intro v hvd
              rcases List.mem_cons.mp hvd with h1 | h1
              · exact ⟨h1 ▸ List.mem_cons_self _ _, h1 ▸ hnV⟩
              · refine ⟨List.mem_cons_of_mem _ (hmem v h1).1, ?_⟩
                intro hm
                exact (hmem v h1).2 (List.mem_append.mpr (Or.inl hm))
            · rw [hA2]
              simp
            · intro m hm
              rcases List.mem_cons.mp hm with h1 | h1
              · rw [h1, hV2]
                exact List.mem_append.mpr (Or.inl
                  (List.mem_append.mpr (Or.inr (List.mem_singleton.mpr rfl))))
              · exact hall m h1


/-- Loop invariant of the BFS: the start is visited, the target never
is, every queue entry carries a shortest reach witness of its node, the
queue splits into two consecutive levels, every node within the closed
level is already visited, and every visited node no longer in the queue
has been fully scanned. -/
def BfsInv (nf : Nat → List Nat) (a b : Nat) (visited : List Nat)
    (queue : List (Nat × List Nat)) : Prop :=
  a ∈ visited ∧ b ∉ visited ∧
  (∀ e ∈ queue, e.1 ≠ b ∧ e.1 ∈ visited ∧ ReachN nf a (e.2.length - 1) e.1 ∧
    1 ≤ e.2.length ∧ (∀ m, ReachN nf a m e.1 → e.2.length - 1 ≤ m)) ∧
  (∃ d q1 q2, queue = q1 ++ q2 ∧ (∀ e ∈ q1, e.2.length = d + 1) ∧
    (∀ e ∈ q2, e.2.length = d + 2) ∧
    (∀ x m, m ≤ d → ReachN nf a m x → x ∈ visited)) ∧
  (∀ x ∈ visited, (¬ x ∈ queue.map Prod.fst) → ∀ y ∈ nf x, y ≠ b ∧ y ∈ visited)

theorem BfsInv_norm (nf : Nat → List Nat) (a b : Nat) (visited : List Nat)
    (cur : Nat × List Nat) (rest : List (Nat × List Nat))
    (hI : BfsInv nf a b visited (cur :: rest)) :
    ∃ d q1t q2, rest = q1t ++ q2 ∧ cur.2.length = d + 1 ∧
      (∀ e ∈ q1t, e.2.length = d + 1) ∧ (∀ e ∈ q2, e.2.length = d + 2) ∧
      (∀ x m, m ≤ d → ReachN nf a m x → x ∈ visited) := by
  obtain ⟨hIa, hIb, hA, ⟨d, q1, q2, hsplit, hl1, hl2, hC⟩, hD⟩ := hI
  cases q1 with
  | nil =>
      simp only [List.nil_append] at hsplit
      refine ⟨d + 1, rest, [], by simp, ?_, ?_, by simp, ?_⟩
      · have := hl2 cur (hsplit ▸ List.mem_cons_self _ _)
        omega
      · intro e he
        have := hl2 e (hsplit ▸ List.mem_cons_of_mem _ he)
        omega
      · intro x m hm hr
        rcases Nat.lt_or_ge m (d + 1) with hlt | hge
        · exact hC x m (by omega) hr
        · have hmde : m = d + 1 := by omega
          rw [hmde] at hr
          obtain ⟨y, hy, hxy⟩ := hr
          have hyv : y ∈ visited := hC y d (by omega) hy
          have hynq : ¬ y ∈ (cur :: rest).map Prod.fst := by
            intro hmem
            obtain ⟨e, he, heq⟩ := List.mem_map.mp hmem
            have hemem : e ∈ q2 := hsplit ▸ he
            have hlen := hl2 e hemem
            have hmin := (hA e he).2.2.2.2 d (heq ▸ hy)
            omega
          exact (hD y hyv hynq x hxy).2
  | cons c q1t =>
      have hc : c = cur ∧ rest = q1t ++ q2 := by
        rw [List.cons_append] at hsplit
        exact ⟨(List.cons.injEq .. ▸ hsplit).1.symm, (List.cons.injEq .. ▸ hsplit).2⟩
      refine ⟨d, q1t, q2, hc.2, ?_, ?_, hl2, hC⟩
      · rw [← hc.1]
        exact hl1 c (List.mem_cons_self _ _)
      · intro e he
        exact hl1 e (List.mem_cons_of_mem _ he)

theorem bfs_empty_none (nf : Nat → List Nat) (a b : Nat) (visited : List Nat)
    (hab : a ≠ b) (hI : BfsInv nf a b visited []) :
    ∀ m, ¬ ReachN nf a m b := by
  obtain ⟨hIa, hIb, _, _, hD⟩ := hI
  have hclosed : ∀ k x, ReachN nf a k x → x ∈ visited := by
    intro k
    induction k with
    | zero =>
        intro x hx
        rw [hx]
        exact hIa
    | succ k ihk =>
        intro x hx
        obtain ⟨y, hy, hxy⟩ := hx
        exact (hD y (ihk y hy) (by simp) x hxy).2
  intro m hr
  cases m with
  | zero => exact hab hr.symm
  | succ m =>
      obtain ⟨y, hy, hby⟩ := hr
      exact (hD y (hclosed m y hy) (by simp) b hby).1 rfl


theorem bfsLoop_spec (nf : Nat → List Nat) (univ : List Nat) (a b : Nat)
    (hab : a ≠ b) (hcl : ∀ x y, y ∈ nf x → y ∈ univ) :
    ∀ (fuel : Nat) (visited : List Nat) (queue : List (Nat × List Nat)),
      BfsInv nf a b visited queue →
      queue.length + (univ.filter (fun z => !(visited.contains z))).length ≤ fuel →
      (bfsLoop nf b fuel visited queue = none → ∀ m, ¬ ReachN nf a m b) ∧
      (∀ r, bfsLoop nf b fuel visited queue = some r →
        ∃ n, r.length = n + 1 ∧ ReachN nf a n b ∧ ∀ m, ReachN nf a m b → n ≤ m) := by
  intro fuel
  induction fuel with
  | zero =>
      intro visited queue hI hm
      cases queue with
      | nil =>
          refine ⟨fun _ => bfs_empty_none nf a b visited hab hI, ?_⟩
          intro r hr
          cases hr
      | cons cur rest =>
          exfalso
          simp only [List.length_cons] at hm
          omega
  | succ fuel ih =>
      intro visited queue hI hm
      cases queue with
      | nil =>
          refine ⟨fun _ => bfs_empty_none nf a b visited hab hI, ?_⟩
          intro r hr
          cases hr
      | cons cur rest =>
          obtain ⟨c, p⟩ := cur
          obtain ⟨d, q1t, q2, hrest, hplen, hl1, hl2, hC⟩ :=
            BfsInv_norm nf a b visited (c, p) rest hI
          obtain ⟨hIa, hIb, hA, _, hD⟩ := hI
          have hcur := hA (c, p) (List.mem_cons_self _ _)
          have hplen2 : p.length = d + 1 := hplen
          have hlen1 : 1 ≤ p.length := hcur.2.2.2.1
          have hreachc : ReachN nf a (p.length - 1) c := hcur.2.2.1
          have hminc : ∀ m, ReachN nf a m c → p.length - 1 ≤ m := hcur.2.2.2.2
          rw [bfsLoop]
          rcases hscan : bfsScan b p (nf c) visited [] with ⟨res, V2, A2⟩
          cases res with
          | some r =>
              constructor
              · intro hnone
                cases hnone
              · intro r2 hr2
                have hr2' : r = r2 := Option.some_inj.mp hr2
                obtain ⟨hrform, hbmem⟩ := bfsScan_some b p (nf c) visited [] r V2 A2 hscan
                refine ⟨p.length, ?_, ?_, ?_⟩
                · rw [← hr2', hrform]
                  simp
                · have hr1 : ReachN nf a (p.length - 1 + 1) b :=
                    ⟨c, hreachc, hbmem⟩
                  have heq : p.length - 1 + 1 = p.length := by omega
                  rw [heq] at hr1
                  exact hr1
                · intro m hmr
                  by_contra hneg
                  have hmd : m ≤ d := by omega
                  exact hIb (hC b m hmd hmr)
          | none =>
              obtain ⟨hbns, ⟨dl, hV2, hdnd, hdmem, hA2⟩, hall⟩ :=
                bfsScan_none b p (nf c) visited [] V2 A2 hscan
              simp only [List.nil_append] at hA2
              have hInew : BfsInv nf a b V2 (rest ++ A2) := by
                refine ⟨?_, ?_, ?_, ?_, ?_⟩
                · rw [hV2]
                  exact List.mem_append.mpr (Or.inl hIa)
                · rw [hV2]
                  intro hmem
                  rcases List.mem_append.mp hmem with h1 | h1
                  · exact hIb h1
                  · exact hbns ((hdmem b h1).1)
                · intro e he
                  rcases List.mem_append.mp he with h1 | h1
                  · have := hA e (List.mem_cons_of_mem _ h1)
                    refine ⟨this.1, ?_, this.2.2.1, this.2.2.2.1, this.2.2.2.2⟩
                    rw [hV2]
                    exact List.mem_append.mpr (Or.inl this.2.1)
                  · rw [hA2] at h1
                    obtain ⟨v, hvd, hveq⟩ := List.mem_map.mp h1
                    rw [← hveq]
                    have hvmem := hdmem v hvd
                    have hlen : (p ++ [v]).length - 1 = d + 1 := by
                      simp only [List.length_append, List.length_singleton]
                      omega
                    refine ⟨?_, ?_, ?_, ?_, ?_⟩
                    · intro heq
                      exact hbns (heq ▸ hvmem.1)
                    · rw [hV2]
                      exact List.mem_append.mpr (Or.inr hvd)
                    · rw [hlen]
                      refine ⟨c, ?_, hvmem.1⟩
                      have hstep := hreachc
                      have heq : p.length - 1 = d := by omega
                      rw [heq] at hstep
                      exact hstep
                    · simp
                    · intro m hmr
                      rw [hlen]
                      by_contra hneg
                      have hmd : m ≤ d := by omega
                      exact hvmem.2 (hC v m hmd hmr)
                · refine ⟨d, q1t, q2 ++ A2, by rw [hrest, List.append_assoc], hl1, ?_, ?_⟩
                  · intro e he
                    rcases List.mem_append.mp he with h1 | h1
                    · exact hl2 e h1
                    · rw [hA2] at h1
                      obtain ⟨v, hvd, hveq⟩ := List.mem_map.mp h1
                      rw [← hveq]
                      simp only [List.length_append, List.length_singleton]
                      omega
                  · intro x m hmd hmr
                    rw [hV2]
                    exact List.mem_append.mpr (Or.inl (hC x m hmd hmr))
                · intro x hx hnq y hy
                  have hfsts : (rest ++ A2).map Prod.fst
                      = rest.map Prod.fst ++ dl := by
                    rw [List.map_append, hA2, List.map_map]
                    exact congrArg (rest.map Prod.fst ++ ·)
                      ((List.map_congr_left (fun v _ => rfl)).trans (List.map_id dl))
                  rw [hfsts] at hnq
                  rw [hV2] at hx
                  rcases List.mem_append.mp hx with h1 | h1
                  · by_cases hxc : x = c
                    · refine ⟨?_, ?_⟩
                      · intro heq
                        exact hbns (heq ▸ hxc ▸ hy)
                      · rw [hxc] at hy
                        exact hall y hy
                    · have hnq2 : ¬ x ∈ ((c, p) :: rest).map Prod.fst := by
                        intro hmem
                        rw [List.map_cons] at hmem
                        rcases List.mem_cons.mp hmem with h2 | h2
                        · exact hxc h2
                        · exact hnq (List.mem_append.mpr (Or.inl h2))
                      have := hD x h1 hnq2 y hy
                      exact ⟨this.1, by rw [hV2]; exact List.mem_append.mpr (Or.inl this.2)⟩
                  · exfalso
                    exact hnq (List.mem_append.mpr (Or.inr h1))
              have hmnew : (rest ++ A2).length
                  + (univ.filter (fun z => !(V2.contains z))).length ≤ fuel := by
                have hcount := unvisited_many univ dl visited hdnd
                  (fun v hv => ⟨hcl c v (hdmem v hv).1, (hdmem v hv).2⟩)
                have hlenA2 : A2.length = dl.length := by
                  rw [hA2, List.length_map]
                rw [List.length_append, hlenA2, hV2]
                simp only [List.length_cons] at hm
                omega
              exact ih V2 (rest ++ A2) hInew hmnew


theorem nbrFun_nil_of_not_hasKey (adj : List (Nat × List Nat)) (x : Nat)
    (h : hasKey adj x = false) : nbrFun adj x = [] := by
  unfold nbrFun
  cases hf : adj.find? (fun e => e.1 == x) with
  | none => rfl
  | some e =>
      exfalso
      have h1 := List.find?_some hf
      have h2 := List.mem_of_find?_eq_some hf
      have h3 : hasKey adj x = true := by
        unfold hasKey
        rw [List.any_eq_true]
        exact ⟨e, h2, h1⟩
      rw [h] at h3
      cases h3

theorem nbrFun_adjAddNode (adj : List (Nat × List Nat)) (k x : Nat) :
    nbrFun (adjAddNode adj k) x = nbrFun adj x := by
  unfold adjAddNode
  split
  · rfl
  · unfold nbrFun
    rw [List.find?_append]
    cases hf : adj.find? (fun e => e.1 == x) with
    | some e => rfl
    | none =>
        simp only [Option.or]
        by_cases hkx : ((fun (e : Nat × List Nat) => e.1 == x) (k, ([] : List Nat))) = true
        · rw [@List.find?_cons_of_pos _ (fun (e : Nat × List Nat) => e.1 == x)
            (k, ([] : List Nat)) [] hkx]
        · rw [@List.find?_cons_of_neg _ (fun (e : Nat × List Nat) => e.1 == x)
            (k, ([] : List Nat)) [] hkx]
          rfl

theorem hasKey_adjAddNode_self (adj : List (Nat × List Nat)) (k : Nat) :
    hasKey (adjAddNode adj k) k = true := by
  unfold adjAddNode
  split
  · rename_i h
    exact h
  · unfold hasKey
    rw [List.any_append]
    simp

theorem hasKey_adjAddNode_mono (adj : List (Nat × List Nat)) (k x : Nat)
    (h : hasKey adj x = true) : hasKey (adjAddNode adj k) x = true := by
  unfold adjAddNode
  split
  · exact h
  · unfold hasKey at h ⊢
    rw [List.any_append, h]
    rfl

theorem hasKey_adjAddEdge (adj : List (Nat × List Nat)) (a b x : Nat) :
    hasKey (adjAddEdge adj a b) x = hasKey adj x := by
  induction adj with
  | nil => rfl
  | cons e es ih =>
      unfold adjAddEdge at ih ⊢
      unfold hasKey at ih ⊢
      rw [List.map_cons, List.any_cons, List.any_cons, ih]
      by_cases hea : (e.1 == a) = true
      · rw [if_pos hea]
      · rw [if_neg hea]

theorem find?_map_keyfix (f : (Nat × List Nat) → (Nat × List Nat))
    (hf : ∀ e, (f e).1 = e.1) (x : Nat) (l : List (Nat × List Nat)) :
    (l.map f).find? (fun e => e.1 == x) = (l.find? (fun e => e.1 == x)).map f := by
  induction l with
  | nil => rfl
  | cons e es ih =>
      rw [List.map_cons]
      by_cases hex : ((fun (e2 : Nat × List Nat) => e2.1 == x) e) = true
      · have hfx : ((fun (e2 : Nat × List Nat) => e2.1 == x) (f e)) = true := by
          show ((f e).1 == x) = true
          rw [hf e]
          exact hex
        rw [@List.find?_cons_of_pos _ (fun (e2 : Nat × List Nat) => e2.1 == x)
          (f e) (es.map f) hfx,
          @List.find?_cons_of_pos _ (fun (e2 : Nat × List Nat) => e2.1 == x) e es hex]
        rfl
      · have hfx : ¬ ((fun (e2 : Nat × List Nat) => e2.1 == x) (f e)) = true := by
          show ¬ ((f e).1 == x) = true
          rw [hf e]
          exact hex
        rw [@List.find?_cons_of_neg _ (fun (e2 : Nat × List Nat) => e2.1 == x)
          (f e) (es.map f) hfx,
          @List.find?_cons_of_neg _ (fun (e2 : Nat × List Nat) => e2.1 == x) e es hex]
        exact ih

theorem nbrFun_adjAddEdge_other (adj : List (Nat × List Nat)) (a b x : Nat)
    (hx : x ≠ a) : nbrFun (adjAddEdge adj a b) x = nbrFun adj x := by
  unfold adjAddEdge nbrFun
  rw [find?_map_keyfix _ (fun e => by split <;> rfl) x adj]
  cases hf : adj.find? (fun e => e.1 == x) with
  | none => rfl
  | some e =>
      have h1 : (e.1 == x) = true := by simpa using List.find?_some hf
      have h2 : e.1 = x := by simpa using h1
      simp only [Option.map]
      have hne : (e.1 == a) = false := by
        simp [h2, hx]
      rw [if_neg (by rw [hne]; simp)]

theorem nbrFun_adjAddEdge_self (adj : List (Nat × List Nat)) (a b : Nat)
    (hk : hasKey adj a = true) :
    nbrFun (adjAddEdge adj a b) a
      = (if (nbrFun adj a).contains b then nbrFun adj a else nbrFun adj a ++ [b]) := by
  unfold adjAddEdge nbrFun
  rw [find?_map_keyfix _ (fun e => by split <;> rfl) a adj]
  cases hf : adj.find? (fun e => e.1 == a) with
  | none =>
      exfalso
      have h3 : ¬ (adj.find? (fun e => e.1 == a)).isSome := by
        rw [hf]
        simp
      rw [List.find?_isSome] at h3
      unfold hasKey at hk
      rw [List.any_eq_true] at hk
      exact h3 hk
  | some e =>
      have h1 : (e.1 == a) = true := by simpa using List.find?_some hf
      simp only [Option.map]
      rw [if_pos h1]

theorem mem_nbr_addEdge_self (adj : List (Nat × List Nat)) (a b : Nat)
    (hk : hasKey adj a = true) : b ∈ nbrFun (adjAddEdge adj a b) a := by
  rw [nbrFun_adjAddEdge_self adj a b hk]
  by_cases hc : ((nbrFun adj a).contains b) = true
  · rw [if_pos hc]
    exact List.elem_iff.mp hc
  · rw [if_neg hc]
    exact List.mem_append.mpr (Or.inr (List.mem_singleton.mpr rfl))

theorem mem_nbr_addEdge_mono (adj : List (Nat × List Nat)) (a b x y : Nat)
    (hy : y ∈ nbrFun adj x) : y ∈ nbrFun (adjAddEdge adj a b) x := by
  by_cases hxa : x = a
  · subst hxa
    cases hk : hasKey adj x with
    | false =>
        rw [nbrFun_nil_of_not_hasKey adj x hk] at hy
        cases hy
    | true =>
        rw [nbrFun_adjAddEdge_self adj x b hk]
        by_cases hc : ((nbrFun adj x).contains b) = true
        · rw [if_pos hc]
          exact hy
        · rw [if_neg hc]
          exact List.mem_append.mpr (Or.inl hy)
  · rw [nbrFun_adjAddEdge_other adj a b x hxa]
    exact hy

theorem mem_nbr_addEdge_inv (adj : List (Nat × List Nat)) (a b x y : Nat)
    (hy : y ∈ nbrFun (adjAddEdge adj a b) x) :
    y ∈ nbrFun adj x ∨ (x = a ∧ y = b) := by
  by_cases hxa : x = a
  · subst hxa
    cases hk : hasKey adj x with
    | false =>
        rw [nbrFun_nil_of_not_hasKey (adjAddEdge adj x b) x
          (by rw [hasKey_adjAddEdge]; exact hk)] at hy
        cases hy
    | true =>
        rw [nbrFun_adjAddEdge_self adj x b hk] at hy
        by_cases hc : ((nbrFun adj x).contains b) = true
        · rw [if_pos hc] at hy
          exact Or.inl hy
        · rw [if_neg hc] at hy
          rcases List.mem_append.mp hy with h1 | h1
          · exact Or.inl h1
          · exact Or.inr ⟨rfl, by simpa using h1⟩
  · rw [nbrFun_adjAddEdge_other adj a b x hxa] at hy
    exact Or.inl hy


/-- The built adjacency is symmetric and closed: every neighbor entry
has a reverse entry and its own key. -/
def SymClosed (adj : List (Nat × List Nat)) : Prop :=
  (∀ x y, y ∈ nbrFun adj x → x ∈ nbrFun adj y) ∧
  (∀ x y, y ∈ nbrFun adj x → hasKey adj y = true)

theorem symClosed_addNode (adj : List (Nat × List Nat)) (k : Nat)
    (h : SymClosed adj) : SymClosed (adjAddNode adj k) := by
  refine ⟨?_, ?_⟩
  · intro x y hy
    rw [nbrFun_adjAddNode] at hy ⊢
    exact h.1 x y hy
  · intro x y hy
    rw [nbrFun_adjAddNode] at hy
    exact hasKey_adjAddNode_mono adj k y (h.2 x y hy)

theorem symClosed_link (adj : List (Nat × List Nat)) (la lb : Nat)
    (h : SymClosed adj) :
    SymClosed (adjAddEdge (adjAddEdge (adjAddNode (adjAddNode adj la) lb) la lb) lb la) := by
  have hA := symClosed_addNode _ lb (symClosed_addNode adj la h)
  have hkla : hasKey (adjAddNode (adjAddNode adj la) lb) la = true :=
    hasKey_adjAddNode_mono _ lb la (hasKey_adjAddNode_self adj la)
  have hklb : hasKey (adjAddNode (adjAddNode adj la) lb) lb = true :=
    hasKey_adjAddNode_self _ lb
  refine ⟨?_, ?_⟩
  · intro x y hy
    rcases mem_nbr_addEdge_inv _ lb la x y hy with h1 | ⟨hx, hyv⟩
    · rcases mem_nbr_addEdge_inv _ la lb x y h1 with h2 | ⟨hx, hyv⟩
      · exact mem_nbr_addEdge_mono _ lb la y x
          (mem_nbr_addEdge_mono _ la lb y x (hA.1 x y h2))
      · rw [hx, hyv]
        exact mem_nbr_addEdge_self _ lb la (by rw [hasKey_adjAddEdge]; exact hklb)
    · rw [hx, hyv]
      exact mem_nbr_addEdge_mono _ lb la la lb
        (mem_nbr_addEdge_self _ la lb hkla)
  · intro x y hy
    rw [hasKey_adjAddEdge, hasKey_adjAddEdge]
    rcases mem_nbr_addEdge_inv _ lb la x y hy with h1 | ⟨hx, hyv⟩
    · rcases mem_nbr_addEdge_inv _ la lb x y h1 with h2 | ⟨hx, hyv⟩
      · exact hA.2 x y h2
      · rw [hyv]
        exact hklb
    · rw [hyv]
      exact hkla

theorem symClosed_foldLinks (links : List TlRow) :
    ∀ (acc : List (Nat × List Nat)), SymClosed acc →
      SymClosed (links.foldl (fun acc l =>
        adjAddEdge (adjAddEdge (adjAddNode (adjAddNode acc l.local_switch_id)
            l.remote_switch_id)
          l.local_switch_id l.remote_switch_id)
          l.remote_switch_id l.local_switch_id) acc) := by
  induction links with
  | nil => exact fun acc h => h
  | cons l ls ih =>
      intro acc h
      exact ih _ (symClosed_link acc l.local_switch_id l.remote_switch_id h)

theorem nbrFun_foldNodes (switches : List SwitchRec) :
    ∀ (acc : List (Nat × List Nat)), (∀ x, nbrFun acc x = []) →
      ∀ x, nbrFun (switches.foldl (fun acc sw => adjAddNode acc sw.id) acc) x = [] := by
  induction switches with
  | nil => exact fun acc h => h
  | cons sw sws ih =>
      intro acc h
      refine ih _ ?_
      intro x
      rw [nbrFun_adjAddNode]
      exact h x

theorem buildGraph_symClosed (switches : List SwitchRec) (links : List TlRow) :
    SymClosed (buildGraph switches links) := by
  unfold buildGraph
  refine symClosed_foldLinks links _ ⟨?_, ?_⟩
  · intro x y hy
    rw [nbrFun_foldNodes switches [] (fun _ => rfl) x] at hy
    cases hy
  · intro x y hy
    rw [nbrFun_foldNodes switches [] (fun _ => rfl) x] at hy
    cases hy

theorem hasKey_iff_mem_fst (adj : List (Nat × List Nat)) (y : Nat) :
    hasKey adj y = true ↔ y ∈ adj.map Prod.fst := by
  unfold hasKey
  rw [List.any_eq_true]
  constructor
  · rintro ⟨e, he, hbe⟩
    exact List.mem_map.mpr ⟨e, he, by simpa using hbe⟩
  · intro hm
    obtain ⟨e, he, heq⟩ := List.mem_map.mp hm
    exact ⟨e, he, by simpa using heq⟩

theorem find_path_spec (adj : List (Nat × List Nat)) (a b : Nat)
    (hcl : ∀ x y, y ∈ nbrFun adj x → hasKey adj y = true)
    (ha : hasKey adj a = true) (hb : hasKey adj b = true) (hab : a ≠ b) :
    (find_path adj a b = none → ∀ m, ¬ ReachN (nbrFun adj) a m b) ∧
    (∀ r, find_path adj a b = some r →
      ∃ n, r.length = n + 1 ∧ ReachN (nbrFun adj) a n b ∧
        ∀ m, ReachN (nbrFun adj) a m b → n ≤ m) := by
  have hfp : find_path adj a b
      = bfsLoop (nbrFun adj) b (adj.length + 1) [a] [(a, [a])] := by
    unfold find_path
    rw [if_pos (by rw [ha, hb]; rfl), if_neg (by simpa using hab)]
  have hI : BfsInv (nbrFun adj) a b [a] [(a, [a])] := by
    refine ⟨List.mem_singleton.mpr rfl, ?_, ?_, ?_, ?_⟩
    · intro hm
      exact hab (List.mem_singleton.mp hm).symm
    · intro e he
      have he2 : e = (a, [a]) := List.mem_singleton.mp he
      rw [he2]
      refine ⟨fun h => hab h, List.mem_singleton.mpr rfl, rfl, ?_, ?_⟩
      · show 1 ≤ ([a] : List Nat).length
        simp
      · intro m _
        show ([a] : List Nat).length - 1 ≤ m
        simp
    · refine ⟨0, [(a, [a])], [], by simp, ?_, by simp, ?_⟩
      · intro e he
        rw [List.mem_singleton.mp he]
        rfl
      · intro x m hm hr
        have hm0 : m = 0 := by omega
        rw [hm0] at hr
        rw [hr]
        exact List.mem_singleton.mpr rfl
    · intro x hx hq
      exfalso
      apply hq
      rw [List.mem_singleton.mp hx]
      simp
  have hμ : (1 : Nat) + ((adj.map Prod.fst).filter
      (fun z => !(([a] : List Nat).contains z))).length ≤ adj.length + 1 := by
    have h1 := List.length_filter_le (fun z => !(([a] : List Nat).contains z))
      (adj.map Prod.fst)
    rw [List.length_map] at h1
    omega
  have hcl2 : ∀ x y, y ∈ nbrFun adj x → y ∈ adj.map Prod.fst := by
    intro x y hy
    exact (hasKey_iff_mem_fst adj y).mp (hcl x y hy)
  have hmain := bfsLoop_spec (nbrFun adj) (adj.map Prod.fst) a b hab hcl2
    (adj.length + 1) [a] [(a, [a])] hI (by simpa using hμ)
  rw [hfp]
  exact hmain


/-- C7: over the graph built from the switch and link tables, find_path
is symmetric in length for all key pairs: both directions return None
exactly when the target is unreachable from the source, two returned
paths have equal node-list lengths, and for a pair of distinct adjacent
switches the path is exactly the two nodes. -/
theorem c7_find_path_symmetric (switches : List SwitchRec) (links : List TlRow)
    (a b : Nat)
    (ha : hasKey (buildGraph switches links) a = true)
    (hb : hasKey (buildGraph switches links) b = true) :
    (find_path (buildGraph switches links) a b = none ↔
      find_path (buildGraph switches links) b a = none) ∧
    (∀ p q, find_path (buildGraph switches links) a b = some p →
      find_path (buildGraph switches links) b a = some q → p.length = q.length) ∧
    (b ∈ nbrFun (buildGraph switches links) a → a ≠ b →
      find_path (buildGraph switches links) a b = some [a, b]) := by
  obtain ⟨hsym, hcl⟩ := buildGraph_symClosed switches links
  by_cases hab : a = b
  · subst hab
    have hself : find_path (buildGraph switches links) a a = some [a] := by
      unfold find_path
      rw [if_pos (by rw [ha]; rfl), if_pos (by simp)]
    refine ⟨by rw [hself], ?_, ?_⟩
    · intro p q hp hq
      rw [hself] at hp hq
      rw [← Option.some_inj.mp hp, ← Option.some_inj.mp hq]
    · intro _ hne
      exact absurd rfl hne
  · have hspec1 := find_path_spec (buildGraph switches links) a b hcl ha hb hab
    have hspec2 := find_path_spec (buildGraph switches links) b a hcl hb ha
      (fun h => hab h.symm)
    refine ⟨?_, ?_, ?_⟩
    · constructor
      · intro h1
        cases hq : find_path (buildGraph switches links) b a with
        | none => rfl
        | some q =>
            exfalso
            obtain ⟨n, _, hrba, _⟩ := hspec2.2 q hq
            exact hspec1.1 h1 n (reachN_symm _ hsym b n a hrba)
      · intro h1
        cases hp : find_path (buildGraph switches links) a b with
        | none => rfl
        | some p =>
            exfalso
            obtain ⟨n, _, hrab, _⟩ := hspec1.2 p hp
            exact hspec2.1 h1 n (reachN_symm _ hsym a n b hrab)
    · intro p q hp hq
      obtain ⟨n1, hlen1, hr1, hmin1⟩ := hspec1.2 p hp
      obtain ⟨n2, hlen2, hr2, hmin2⟩ := hspec2.2 q hq
      have h12 : n1 ≤ n2 := hmin1 n2 (reachN_symm _ hsym b n2 a hr2)
      have h21 : n2 ≤ n1 := hmin2 n1 (reachN_symm _ hsym a n1 b hr1)
      omega
    · intro hadj _
      have hfp : find_path (buildGraph switches links) a b
          = bfsLoop (nbrFun (buildGraph switches links)) b
              ((buildGraph switches links).length + 1) [a] [(a, [a])] := by
        unfold find_path
        rw [if_pos (by rw [ha, hb]; rfl), if_neg (by simpa using hab)]
      obtain ⟨V2, A2, hscan⟩ := bfsScan_mem b [a]
        (nbrFun (buildGraph switches links) a) [a] [] hadj
      rw [hfp, bfsLoop, hscan]
      rfl


def c7Sws : List SwitchRec :=
  [{ id := 1, hostname := "SW-1", ip_address := "10.0.0.1" },
   { id := 2, hostname := "SW-2", ip_address := "10.0.0.2" },
   { id := 3, hostname := "SW-3", ip_address := "10.0.0.3" }]

def c7Lks : List TlRow :=
  [{ id := 1, local_switch_id := 1, local_port_id := 11,
     remote_switch_id := 2, remote_port_id := 21 },
   { id := 2, local_switch_id := 2, local_port_id := 22,
     remote_switch_id := 3, remote_port_id := 31 }]

theorem c7_find_path_symmetric_witness :
    hasKey (buildGraph c7Sws c7Lks) 1 = true ∧
    hasKey (buildGraph c7Sws c7Lks) 3 = true ∧
    ((find_path (buildGraph c7Sws c7Lks) 1 3 = none ↔
        find_path (buildGraph c7Sws c7Lks) 3 1 = none) ∧
      (∀ p q, find_path (buildGraph c7Sws c7Lks) 1 3 = some p →
        find_path (buildGraph c7Sws c7Lks) 3 1 = some q → p.length = q.length) ∧
      (3 ∈ nbrFun (buildGraph c7Sws c7Lks) 1 → 1 ≠ 3 →
        find_path (buildGraph c7Sws c7Lks) 1 3 = some [1, 3])) :=
  ⟨by decide, by decide, c7_find_path_symmetric c7Sws c7Lks 1 3 (by decide) (by decide)⟩

end MacTraker
